import Mathlib

/-!
# ga2: population container, selection, crossover, mutation, replacement

A shallow embedding of `src/ga2Population.cpp`.

Conventions of the embedding.

* `float`/`double` values are rationals. Every finite float is a rational and
  the comparisons `<`, `>`, `==`, `!=` of finite floats are the comparisons
  of those rationals. In mutation and in one-point crossover every `float`
  operation is followed by the rounding to binary32 (`roundFloat`: nearest
  value, ties to even, gradual underflow), as on a target that evaluates
  `float` expressions in `float`; an operation whose result is not finite
  yields `none`, the embedding follows finite values only. The sums and
  products of selection and of the statistics are taken exactly.
* `std::vector<T>` is `List T`; `push_back x` is `cs ++ [x]`, `insert(it, x)`
  with `it = begin + k` is `cs.take k ++ x :: cs.drop k`, `pop_back` is
  `dropLast`, `clear` is `[]`.
* `int` members are `Int`. Where the source compares an `int` with a
  `size_t` the `int` is converted to unsigned first; `sizeNe` and `sizeLt`
  spell that comparison out.
* An operation whose behaviour is undefined in C++ (dereferencing `end()`,
  `pop_back` on an empty vector, indexing past the last element) yields
  `none`.
* The embedding works on values: allocation (`new`, `reserve`) and destructors
  are not modelled. A release that is undefined, `delete(&a)` for a reference
  `a` to an element of a vector (lines 262-263), yields `none`.
* `rand()/RAND_MAX` is an explicit argument: a rational draw, or the sequence
  `draws : Nat → ℚ` of all draws together with the index of the next unused
  one.
* `ga2Chromosome` and the class declaration in `ga2.h` are not part of the
  sources at hand. The accessor `getFitness` is an argument of every
  definition that calls it; the other members are modelled from the
  specification and are marked as such.
-/

/-- Modelled from the spec: the class `ga2Chromosome` is missing from the sources.
A chromosome is an ordered sequence of gene values, a fitness that is either
unevaluated (`none`) or a cached scalar, two parent identifiers and a
cross-site marker. -/
structure ga2Chromosome where
  _genes : List ℚ
  _fitness : Option ℚ
  _parent0 : Int
  _parent1 : Int
  _crossSite : Int
deriving DecidableEq, Repr

/-- Selection kinds switched on in `_selectFunc`. -/
inductive ga2SelectType where
  | GA2_SELECT_ROULETTE
  | GA2_SELECT_RANKED
deriving DecidableEq, Repr

/-- Crossover kinds switched on in `_crossoverFunc`. -/
inductive ga2CrossoverType where
  | GA2_CROSSOVER_ONEPOINT
  | GA2_CROSSOVER_UNIFORM
deriving DecidableEq, Repr

/-- Replacement kinds switched on in `_replaceFunc`. -/
inductive ga2ReplaceType where
  | GA2_REPLACE_GENERATIONAL
  | GA2_REPLACE_STEADYSTATE
  | GA2_REPLACE_STEADYSTATENODUPLICATES
deriving DecidableEq, Repr

/-- The data members of `ga2Population` that `ga2Population.cpp` reads or writes
(the evaluation function pointer `_evalFunc` is passed around but never called
in this file; the definitions that need its result take it as an argument). -/
structure ga2Population where
  _size : Int
  _chromoSize : Int
  _integer : Bool
  _isSorted : Bool
  _chromosomes : List ga2Chromosome
  _nextGen : List ga2Chromosome
  _chromoMaxRanges : List ℚ
  _chromoMinRanges : List ℚ
  _replacementSize : Int
  _selectionType : ga2SelectType
  _crossoverType : ga2CrossoverType
  _replacementType : ga2ReplaceType
  _crossoverRate : ℚ
  _mutationRate : ℚ
  _crossCount : Int
  _mutationCount : Int
  _sumFitness : ℚ
  _avgFitness : ℚ
  _maxFitness : ℚ
  _minFitness : ℚ
deriving DecidableEq, Repr

/-- The comparison `n != v.size()` of an `int n` with a vector size `len`:
`n` is converted to `size_t`, so a negative `n` (a value of at least `2^63`)
differs from every size. -/
def sizeNe (n : Int) (len : Nat) : Bool := decide (n ≠ (len : Int))

/-- The comparison `n < v.size()` of an `int n` with a vector size `len`:
`n` is converted to `size_t`, so a negative `n` is not below any size. -/
def sizeLt (n : Int) (len : Nat) : Bool := decide (0 ≤ n) && decide (n < (len : Int))

/-- The element insertion `v.insert(v.begin() + k, x)`. -/
def vectorInsert {α : Type} (cs : List α) (k : Nat) (x : α) : List α :=
  cs.take k ++ x :: cs.drop k

/-- The walk `it = begin; while ((it != end) && (it->getFitness() > f)) it++`
of `init` (lines 98-102) and of the steady-state replacements (lines 435-439,
474-477); the result is `it - begin`. -/
def insertionPoint (getFitness : ga2Chromosome → ℚ) : List ga2Chromosome → ℚ → Nat
  | [], _ => 0
  | c :: rest, f => if getFitness c > f then insertionPoint getFitness rest f + 1 else 0

/-- The walk `it = begin; while ((it->getFitness() > f) && (it != end)) it++`
of `_replaceGenerational` (lines 507-511). The fitness of `*it` is read before
`it` is compared with `end`, so once `it` is `end` the read is out of range:
`none`. -/
def insertionPointDerefFirst (getFitness : ga2Chromosome → ℚ) :
    List ga2Chromosome → ℚ → Option Nat
  | [], _ => none
  | c :: rest, f =>
    if getFitness c > f then (insertionPointDerefFirst getFitness rest f).map (· + 1)
    else some 0

/-- The walk `it = begin; while ((it != end) && (it->getFitness() != f)) it++`
of `_replaceSteadyStateNoDuplicates` (lines 465-470); the result is
`it - begin`, which is the length of the vector exactly when `it == end`. -/
def duplicatePoint (getFitness : ga2Chromosome → ℚ) : List ga2Chromosome → ℚ → Nat
  | [], _ => 0
  | c :: rest, f => if getFitness c ≠ f then duplicatePoint getFitness rest f + 1 else 0

/-- One pass of the sorted insertion of `init` (lines 93-104) and of
`_replaceSteadyState` (lines 430-441). -/
def sortedInsert (getFitness : ga2Chromosome → ℚ) (cs : List ga2Chromosome)
    (x : ga2Chromosome) : List ga2Chromosome :=
  if cs.isEmpty then cs ++ [x]
  else vectorInsert cs (insertionPoint getFitness cs (getFitness x)) x

/-- One pass of the loop body of `_replaceSteadyStateNoDuplicates`
(lines 460-480). -/
def noDuplicateInsert (getFitness : ga2Chromosome → ℚ) (cs : List ga2Chromosome)
    (x : ga2Chromosome) : List ga2Chromosome :=
  if cs.isEmpty then cs ++ [x]
  else if duplicatePoint getFitness cs (getFitness x) = cs.length then
    vectorInsert cs (insertionPoint getFitness cs (getFitness x)) x
  else cs

/-- One pass of the loop body of `_replaceGenerational` (lines 498-515). -/
def generationalInsert (getFitness : ga2Chromosome → ℚ) (isSorted : Bool)
    (cs : List ga2Chromosome) (x : ga2Chromosome) : Option (List ga2Chromosome) :=
  if !isSorted then some (cs ++ [x])
  else if cs.isEmpty then some (cs ++ [x])
  else (insertionPointDerefFirst getFitness cs (getFitness x)).map
    (fun k => vectorInsert cs k x)

/-- The loop `while (_size != _chromosomes.size()) _chromosomes.pop_back()`
(lines 445-446, 484-485). `pop_back` on an empty vector is undefined: `none`.
The first argument bounds the number of passes; `cs.length + 1` passes always
suffice (see `popUntilSize_eq`). -/
def popUntilSize {α : Type} (size : Int) : Nat → List α → Option (List α)
  | 0, _ => none
  | fuel + 1, cs =>
    if sizeNe size cs.length then
      if cs.isEmpty then none else popUntilSize size fuel cs.dropLast
    else some cs

/-- The loop `while (_size < _chromosomes.size()) _chromosomes.pop_back()`
(lines 519-520). The first argument bounds the number of passes;
`cs.length + 1` passes always suffice (see `popWhileAbove_eq`). -/
def popWhileAbove {α : Type} (size : Int) : Nat → List α → Option (List α)
  | 0, _ => none
  | fuel + 1, cs =>
    if sizeLt size cs.length then popWhileAbove size fuel cs.dropLast
    else some cs

/-- The function `ga2Population::init` (lines 73-108). `fresh i` is the chromosome
`newChromo` as it stands after line 88 in pass `i` of the loop (constructed,
ranges set, randomly initialised and evaluated). -/
def ga2Population.init (getFitness : ga2Chromosome → ℚ) (fresh : Nat → ga2Chromosome)
    (p : ga2Population) : Bool × ga2Population :=
  if (p._chromoMaxRanges.length : Int) ≠ p._chromoSize
      ∨ (p._chromoMinRanges.length : Int) ≠ p._chromoSize then
    (false, p)
  else
    (true,
      { p with
        _chromosomes :=
          (List.range p._size.toNat).foldl
            (fun cs i =>
              if !p._isSorted then cs ++ [fresh i]
              else sortedInsert getFitness cs (fresh i))
            p._chromosomes })

/-- The function `ga2Population::_replaceSteadyState` (lines 420-449). -/
def ga2Population._replaceSteadyState (getFitness : ga2Chromosome → ℚ)
    (p : ga2Population) : Option (Bool × ga2Population) :=
  if !p._isSorted then some (false, p)
  else
    let cs := p._nextGen.foldl (sortedInsert getFitness) p._chromosomes
    (popUntilSize p._size (cs.length + 1) cs).map
      (fun cs1 => (true, { p with _chromosomes := cs1, _nextGen := [] }))

/-- The function `ga2Population::_replaceSteadyStateNoDuplicates` (lines 451-488). -/
def ga2Population._replaceSteadyStateNoDuplicates (getFitness : ga2Chromosome → ℚ)
    (p : ga2Population) : Option (Bool × ga2Population) :=
  if !p._isSorted then some (false, p)
  else
    let cs := p._nextGen.foldl (noDuplicateInsert getFitness) p._chromosomes
    (popUntilSize p._size (cs.length + 1) cs).map
      (fun cs1 => (true, { p with _chromosomes := cs1, _nextGen := [] }))

/-- The insertion loop of `_replaceGenerational` (lines 496-516), started from
the vector `cs`. -/
def generationalLoop (getFitness : ga2Chromosome → ℚ) (isSorted : Bool) :
    List ga2Chromosome → List ga2Chromosome → Option (List ga2Chromosome)
  | cs, [] => some cs
  | cs, x :: rest =>
    match generationalInsert getFitness isSorted cs x with
    | none => none
    | some cs1 => generationalLoop getFitness isSorted cs1 rest

/-- The function `ga2Population::_replaceGenerational` (lines 490-523). -/
def ga2Population._replaceGenerational (getFitness : ga2Chromosome → ℚ)
    (p : ga2Population) : Option (Bool × ga2Population) :=
  match generationalLoop getFitness p._isSorted [] p._nextGen with
  | none => none
  | some cs =>
    if p._isSorted then
      (popWhileAbove p._size (cs.length + 1) cs).map
        (fun cs1 => (true, { p with _chromosomes := cs1, _nextGen := [] }))
    else some (true, { p with _chromosomes := cs, _nextGen := [] })

/-- The conversion of a `float` to `int`: truncation toward zero. -/
def truncToInt (x : ℚ) : Int := if 0 ≤ x then ⌊x⌋ else -⌊-x⌋

/-- The integer nearest to `y`; of two nearest integers the even one. -/
def roundHalfEven (y : ℚ) : Int :=
  if y - (⌊y⌋ : ℚ) < 1 / 2 then ⌊y⌋
  else if 1 / 2 < y - (⌊y⌋ : ℚ) then ⌊y⌋ + 1
  else if ⌊y⌋ % 2 = 0 then ⌊y⌋ else ⌊y⌋ + 1

/-- The exponent `q` of the spacing `2^q` of the binary32 values around `x`: with
`2^e ≤ |x| < 2^(e+1)` the 24-bit significand gives `q = e - 23`, and `q` is
never below `-149`, the spacing of the subnormal values. -/
def quantumExp (x : ℚ) : Int := max (Int.log 2 |x| - 23) (-149)

/-- The rounding of the exact result `x` of a `float` operation to binary32 (round
to nearest, ties to even), with no bound on the exponent from above. -/
def roundFloat (x : ℚ) : ℚ :=
  (roundHalfEven (x / 2 ^ quantumExp x) : ℚ) * 2 ^ quantumExp x

/-- The `float` result of an operation whose exact result is `x`: the rounding of
`x` when that is finite, that is of magnitude below `2^128`; `none` when the
result is an infinity. -/
@[irreducible]
def floatOf (x : ℚ) : Option ℚ :=
  if |roundFloat x| < 2 ^ 128 then some (roundFloat x) else none

/-- The conversion `(int)x` of a `float` to a 32-bit `int`: truncation toward
zero; undefined (`none`) when the truncated value is no `int`. -/
def floatToInt (x : ℚ) : Option Int :=
  if -2147483648 ≤ truncToInt x ∧ truncToInt x ≤ 2147483647 then some (truncToInt x) else none

/-- The summing loop of `_selectRoulette` (lines 201-204): `n` passes remain, the
next one reads `_chromosomes[i]`; reading past the last member is `none`. -/
def rouletteSum (getFitness : ga2Chromosome → ℚ) (cs : List ga2Chromosome) :
    Nat → Nat → ℚ → Option ℚ
  | 0, _, sumFitness => some sumFitness
  | n + 1, i, sumFitness =>
    match cs[i]? with
    | none => none
    | some c => rouletteSum getFitness cs n (i + 1) (sumFitness + getFitness c)

/-- The loop `do { ++i; partialSum += _chromosomes[i].getFitness(); }
while ((partialSum < wheelPosition) && (i != _size-1))` of `_selectRoulette`
(lines 209-214). The argument `i` is the index after `++i`; reading past the
last member is `none`. The first argument bounds the number of passes:
pass number `cs.length + 1` reads past the last member, so `cs.length + 1`
passes always suffice. -/
def rouletteWalk (getFitness : ga2Chromosome → ℚ) (cs : List ga2Chromosome) (size : Int)
    (wheelPosition : ℚ) : Nat → Nat → ℚ → Option Nat
  | 0, _, _ => none
  | fuel + 1, i, partialSum =>
    match cs[i]? with
    | none => none
    | some c =>
      if partialSum + getFitness c < wheelPosition ∧ (i : Int) ≠ size - 1 then
        rouletteWalk getFitness cs size wheelPosition fuel (i + 1) (partialSum + getFitness c)
      else some i

/-- The function `ga2Population::_selectRoulette` (lines 194-217); `u` is the draw
`(float)rand()/(float)RAND_MAX`. -/
def ga2Population._selectRoulette (getFitness : ga2Chromosome → ℚ) (p : ga2Population)
    (u : ℚ) : Option Int :=
  match rouletteSum getFitness p._chromosomes p._size.toNat 0 0 with
  | none => none
  | some sumFitness =>
    match rouletteWalk getFitness p._chromosomes p._size (u * sumFitness)
        (p._chromosomes.length + 1) 0 0 with
    | none => none
    | some i => some (p._size - (i : Int))

/-- The summing loop of `_selectRanked` (lines 226-230):
`for (i = 0; i < _size; ++i) sumFitness += _size - i`. -/
def rankedSum (size : Int) : ℚ :=
  (List.range size.toNat).foldl (fun sumFitness i => sumFitness + ((size - (i : Int) : Int) : ℚ)) 0

/-- The loop `while ((i != _size-1) && (partialSum < wheelPosition))
{ ++i; partialSum += i; }` of `_selectRanked` (lines 235-241). The first
argument bounds the number of tests of the loop condition; `none` when it is
used up with the condition still true. -/
def rankedWalk (size : Int) (wheelPosition : ℚ) : Nat → Int → ℚ → Option Int
  | 0, _, _ => none
  | fuel + 1, i, partialSum =>
    if i ≠ size - 1 ∧ partialSum < wheelPosition then
      rankedWalk size wheelPosition fuel (i + 1) (partialSum + ((i + 1 : Int) : ℚ))
    else some i

/-- The function `ga2Population::_selectRanked` (lines 219-243); `u` is the draw
`(float)rand()/(float)RAND_MAX`. The walk is given `_size + 1` tests of its
condition (for a negative `_size`, one). -/
def ga2Population._selectRanked (p : ga2Population) (u : ℚ) : Option Int :=
  rankedWalk p._size (u * rankedSum p._size) (p._size.toNat + 1) 0 0

/-- The function `ga2Population::_selectFunc` (lines 336-347). -/
def ga2Population._selectFunc (getFitness : ga2Chromosome → ℚ) (p : ga2Population)
    (u : ℚ) : Option Int :=
  match p._selectionType with
  | ga2SelectType.GA2_SELECT_RANKED => p._selectRanked u
  | ga2SelectType.GA2_SELECT_ROULETTE => p._selectRoulette getFitness u

/-- Modelled from the spec: `ga2Chromosome::setParent(which, id)` is missing from
the sources; it sets the first (`which = 0`) or second (`which = 1`) parent
identifier. -/
def ga2Chromosome.setParent (c : ga2Chromosome) (which : Int) (id : Int) : ga2Chromosome :=
  if which = 0 then { c with _parent0 := id }
  else if which = 1 then { c with _parent1 := id }
  else c

/-- Modelled from the spec: `ga2Chromosome::getParent(which)` is missing from the
sources; it reads the first (`which = 0`) or second parent identifier. -/
def ga2Chromosome.getParent (c : ga2Chromosome) (which : Int) : Int :=
  if which = 0 then c._parent0 else c._parent1

/-- Modelled from the spec: `ga2Chromosome::setCrossSite(site)` is missing from the
sources; it sets the cross-site marker. -/
def ga2Chromosome.setCrossSite (c : ga2Chromosome) (site : Int) : ga2Chromosome :=
  { c with _crossSite := site }

/-- Modelled from the spec: `ga2Chromosome::grabSlice(start, end)` is missing from
the sources; it extracts the genes at positions `start` to `end - 1` as an
independent fragment. The fragment is unevaluated; its parent identifiers and
cross-site marker are not fixed by the spec (the model copies them) and every
caller overwrites them. -/
def ga2Chromosome.grabSlice (c : ga2Chromosome) (start stop : Int) : ga2Chromosome :=
  { c with _genes := (c._genes.drop start.toNat).take (stop - start).toNat, _fitness := none }

/-- Modelled from the spec: `ga2Chromosome::operator+` is missing from the sources;
it concatenates two fragments into a new chromosome. The result is
unevaluated; its parent identifiers and cross-site marker are not fixed by the
spec (the model copies those of the left operand) and every caller overwrites
them. -/
def ga2Chromosome.concat (x y : ga2Chromosome) : ga2Chromosome :=
  { x with _genes := x._genes ++ y._genes, _fitness := none }

/-- One pass of the loop body of `select` (lines 121-129) with the two draws `u1`
and `u2`; indexing `_chromosomes` outside `0 .. size()-1` is `none`. -/
def selectPass (getFitness : ga2Chromosome → ℚ) (p : ga2Population) (u1 u2 : ℚ) :
    Option ga2Population :=
  match p._selectFunc getFitness u1, p._selectFunc getFitness u2 with
  | some s1, some s2 =>
    if 0 ≤ s1 ∧ 0 ≤ s2 then
      match p._chromosomes[s1.toNat]? with
      | none => none
      | some c1 =>
        let cs1 := p._chromosomes.set s1.toNat ((c1.setParent 0 s1).setParent 1 s1)
        match cs1[s2.toNat]? with
        | none => none
        | some c2 =>
          let cs2 := cs1.set s2.toNat ((c2.setParent 0 s2).setParent 1 s2)
          match cs2[s1.toNat]?, cs2[s2.toNat]? with
          | some d1, some d2 =>
            some { p with _chromosomes := cs2, _nextGen := p._nextGen ++ [d1, d2] }
          | _, _ => none
    else none
  | _, _ => none

/-- The loop of `select` (lines 119-130): `n` passes remain, pass `j` takes the
draws `draws (2 * j)` and `draws (2 * j + 1)`. -/
def selectLoop (getFitness : ga2Chromosome → ℚ) (draws : Nat → ℚ) :
    Nat → Nat → ga2Population → Option ga2Population
  | 0, _, p => some p
  | n + 1, j, p =>
    match selectPass getFitness p (draws (2 * j)) (draws (2 * j + 1)) with
    | none => none
    | some p1 => selectLoop getFitness draws n (j + 1) p1

/-- The function `ga2Population::select` (lines 114-132); `draws k` is the value of
the `k`-th draw `(float)rand()/(float)RAND_MAX`. The loop
`for (i = 0; i < _replacementSize; i += 2)` makes `(_replacementSize + 1) / 2`
passes. -/
def ga2Population.select (getFitness : ga2Chromosome → ℚ) (draws : Nat → ℚ)
    (p : ga2Population) : Option (Bool × ga2Population) :=
  (selectLoop getFitness draws ((p._replacementSize + 1) / 2).toNat 0
    { p with _nextGen := [] }).map (fun p1 => (true, p1))

/-- The statement `delete(&x)` of lines 262-263, where `x` is a reference
parameter of `_crossoverOnePoint`. The caller (line 167) passes elements of
the vector `_nextGen`; such an element was not obtained from `new`, and
releasing it is undefined: `none`. (For an object that was obtained from `new`
the release ends its lifetime, and the assignment to it that follows in
lines 265-266 is undefined.) -/
def deleteReference : Option Unit := none

/-- The locals of `_crossoverOnePoint` after line 257; `u` is the draw
`(float)rand()/(float)RAND_MAX`. The result is the cut position, that is the
`float` `coPoint = u * _chromoSize` of line 247 converted to `int` where it is
passed to `grabSlice`, and the chromosomes `aNew` and `bNew`. -/
def onePointOffspring (p : ga2Population) (u : ℚ) (a b : ga2Chromosome) :
    Option (Int × ga2Chromosome × ga2Chromosome) :=
  (floatOf (u * roundFloat (p._chromoSize : ℚ))).bind fun coPoint =>
    (floatToInt coPoint).map fun (c : Int) =>
      let a1 := a.grabSlice 0 c
      let a2 := a.grabSlice c p._chromoSize
      let b1 := b.grabSlice 0 c
      let b2 := b.grabSlice c p._chromoSize
      let aNew := b2.concat a1
      let bNew := a2.concat b1
      (c, aNew, bNew)

/-- The function `ga2Population::_crossoverOnePoint` (lines 245-276); `u` is the
draw `(float)rand()/(float)RAND_MAX`. The offspring are assembled (lines
247-257) and the parent identifiers read (lines 259-260); then lines 262-263
release `a` and `b` (`deleteReference`), before the offspring are assigned to
them and marked (lines 265-273). The result is the returned flag and the new
values of `a` and `b`. -/
def ga2Population._crossoverOnePoint (p : ga2Population) (u : ℚ) (a b : ga2Chromosome) :
    Option (Bool × ga2Chromosome × ga2Chromosome) :=
  (onePointOffspring p u a b).bind fun off =>
    let tempParent1 := a.getParent 0
    let tempParent2 := b.getParent 0
    deleteReference.bind fun _ =>
      deleteReference.bind fun _ =>
        some (true,
          ((off.2.1.setCrossSite off.1).setParent 0 tempParent1).setParent 1 tempParent2,
          ((off.2.2.setCrossSite off.1).setParent 0 tempParent1).setParent 1 tempParent2)

/-- The index named by the selection contract for roulette selection: the least
index `i` such that the partial sum of the fitness values at positions `0..i`
reaches or exceeds `u` times the fitness sum, or the last index if there is
none. This definition follows the wording of the specification, not the code. -/
def rouletteIndexSpec (fits : List ℚ) (u : ℚ) : Int :=
  match (List.range fits.length).find? (fun i => decide (u * fits.sum ≤ (fits.take (i + 1)).sum)) with
  | some i => (i : Int)
  | none => (fits.length : Int) - 1

/-- The cumulative rank weight named by the specification for ranked selection:
the sum of `S - k` over `k = 0..pos`. This definition follows the wording of the
specification, not the code. -/
def rankWeightSpec (S : Nat) (pos : Nat) : ℚ :=
  ((List.range (pos + 1)).map (fun k => ((S : ℚ) - (k : ℚ)))).sum

/-- The position named by the specification for ranked selection: the least
position whose cumulative rank weight meets or exceeds `u * S(S+1)/2` (the last
position if there is none). This definition follows the wording of the
specification, not the code. -/
def rankedIndexSpec (S : Nat) (u : ℚ) : Int :=
  match (List.range S).find? (fun pos => decide (u * ((S : ℚ) * ((S : ℚ) + 1) / 2) ≤ rankWeightSpec S pos)) with
  | some pos => (pos : Int)
  | none => (S : Int) - 1

/-- The live sequence is non-increasing in fitness across successive positions. -/
def nonIncreasing (getFitness : ga2Chromosome → ℚ) (cs : List ga2Chromosome) : Prop :=
  List.Chain' (fun x y => getFitness y ≤ getFitness x) cs

/-- The chromosome with the given cached fitness and no genes, for examples. -/
def chromoOfFitness (f : ℚ) : ga2Chromosome :=
  { _genes := [], _fitness := some f, _parent0 := 0, _parent1 := 0, _crossSite := 0 }

/-- The chromosome with the given genes and first parent identifier, for examples. -/
def chromoOfGenes (genes : List ℚ) (parent : Int) : ga2Chromosome :=
  { _genes := genes, _fitness := none, _parent0 := parent, _parent1 := parent,
    _crossSite := 0 }

/-- Modelled from the spec: `ga2Chromosome::getFitness` is missing from the
sources; this accessor returns the cached scalar, and `0` for a chromosome that
was never evaluated. It is used for concrete examples only. -/
def cachedFitness (c : ga2Chromosome) : ℚ := c._fitness.getD 0

/-- The population of the given logical size, sort flag, live and staged sequences,
with every other member at a default value, for examples. -/
def populationOf (size : Int) (isSorted : Bool) (live staged : List ga2Chromosome) :
    ga2Population :=
  { _size := size, _chromoSize := 0, _integer := false, _isSorted := isSorted,
    _chromosomes := live, _nextGen := staged, _chromoMaxRanges := [],
    _chromoMinRanges := [], _replacementSize := 0,
    _selectionType := ga2SelectType.GA2_SELECT_ROULETTE,
    _crossoverType := ga2CrossoverType.GA2_CROSSOVER_ONEPOINT,
    _replacementType := ga2ReplaceType.GA2_REPLACE_GENERATIONAL,
    _crossoverRate := 0, _mutationRate := 0, _crossCount := 0, _mutationCount := 0,
    _sumFitness := 0, _avgFitness := 0, _maxFitness := 0, _minFitness := 0 }


/-- The value of `flip` in `_crossoverUniform` (lines 285, 299):
`((float)rand()/(float)RAND_MAX) * 2` converted to `int`; `u` is the draw. -/
def uniformFlip (u : ℚ) : Int := truncToInt (u * 2)

/-- The loop of `_crossoverUniform` (lines 297-310): `n` passes remain, the next
one handles gene position `i` with the draw `coins i` and extends the
fragments `c` and `d`. -/
def crossoverUniformLoop (coins : Nat → ℚ) (a b : ga2Chromosome) :
    Nat → Nat → ga2Chromosome → ga2Chromosome → ga2Chromosome × ga2Chromosome
  | 0, _, c, d => (c, d)
  | n + 1, i, c, d =>
    if uniformFlip (coins i) ≠ 0 then
      crossoverUniformLoop coins a b n (i + 1)
        (c.concat (a.grabSlice (i : Int) ((i : Int) + 1)))
        (d.concat (b.grabSlice (i : Int) ((i : Int) + 1)))
    else
      crossoverUniformLoop coins a b n (i + 1)
        (c.concat (b.grabSlice (i : Int) ((i : Int) + 1)))
        (d.concat (a.grabSlice (i : Int) ((i : Int) + 1)))

/-- The function `ga2Population::_crossoverUniform` (lines 278-334); `coins i` is
the draw `(float)rand()/(float)RAND_MAX` taken for gene position `i` (one for
position 0, then one per pass of the loop `for (i = 1; i < _chromoSize; ++i)`).
The result is the returned flag and the new values of `a` and `b`. -/
def ga2Population._crossoverUniform (p : ga2Population) (coins : Nat → ℚ)
    (a b : ga2Chromosome) : Bool × ga2Chromosome × ga2Chromosome :=
  let c0 := if uniformFlip (coins 0) ≠ 0 then a.grabSlice 0 1 else b.grabSlice 0 1
  let d0 := if uniformFlip (coins 0) ≠ 0 then b.grabSlice 0 1 else a.grabSlice 0 1
  let cd := crossoverUniformLoop coins a b (p._chromoSize - 1).toNat 1 c0 d0
  let tempParent1 := a.getParent 0
  let tempParent2 := b.getParent 0
  (true,
    ((cd.1.setCrossSite 0).setParent 0 tempParent1).setParent 1 tempParent2,
    ((cd.2.setCrossSite 0).setParent 0 tempParent1).setParent 1 tempParent2)

/-- The number of draws `_crossoverUniform` takes: one for position 0 and one per
pass of its loop. -/
def uniformDraws (chromoSize : Int) : Nat := 1 + (chromoSize - 1).toNat

/-- The outcome of one call of `_crossoverFunc`: the returned flag, the new values
of the two reference arguments, the new value of `_crossCount` and the index of
the next unused draw. -/
structure CrossoverOutcome where
  applied : Bool
  a : ga2Chromosome
  b : ga2Chromosome
  crossCount : Int
  next : Nat
deriving DecidableEq, Repr

/-- The function `ga2Population::_crossoverFunc` (lines 366-387); `draws` is the
sequence of draws `(float)rand()/(float)RAND_MAX` and `k` the index of the next
unused one. When `_crossoverRate != 1.0` the draw `draws k` is the gating
draw. The result is `none` when the operator called is undefined. -/
def ga2Population._crossoverFunc (p : ga2Population) (draws : Nat → ℚ) (k : Nat)
    (a b : ga2Chromosome) : Option CrossoverOutcome :=
  if p._crossoverRate ≠ 1 ∧ draws k > p._crossoverRate then
    some { applied := false, a := a, b := b, crossCount := p._crossCount, next := k + 1 }
  else
    let k1 := if p._crossoverRate ≠ 1 then k + 1 else k
    match p._crossoverType with
    | ga2CrossoverType.GA2_CROSSOVER_UNIFORM =>
      let r := p._crossoverUniform (fun i => draws (k1 + i)) a b
      some { applied := r.1, a := r.2.1, b := r.2.2, crossCount := p._crossCount + 1,
             next := k1 + uniformDraws p._chromoSize }
    | ga2CrossoverType.GA2_CROSSOVER_ONEPOINT =>
      (p._crossoverOnePoint (draws k1) a b).map fun r =>
        { applied := r.1, a := r.2.1, b := r.2.2, crossCount := p._crossCount + 1,
          next := k1 + 1 }

/-- The outcome of the crossover phase: the population, the index of the next
unused draw, and the flags returned by the calls of `_crossoverFunc` in order
(the source discards them). -/
structure CrossoverPhase where
  population : ga2Population
  next : Nat
  flags : List Bool
deriving DecidableEq, Repr

/-- The loop of `crossover` (lines 165-168): `n` passes remain, the next one calls
`_crossoverFunc(_nextGen[i], _nextGen[i+1])`; indexing `_nextGen` past its
last member is `none`, and so is a pass whose call of `_crossoverFunc` is
undefined. -/
def crossoverLoop (draws : Nat → ℚ) :
    Nat → Nat → Nat → ga2Population → Option CrossoverPhase
  | 0, _, k, p => some { population := p, next := k, flags := [] }
  | n + 1, i, k, p =>
    match p._nextGen[i]?, p._nextGen[i + 1]? with
    | some a, some b =>
      match p._crossoverFunc draws k a b with
      | none => none
      | some r =>
        (crossoverLoop draws n (i + 2) r.next
          { p with
            _nextGen := (p._nextGen.set i r.a).set (i + 1) r.b,
            _crossCount := r.crossCount }).map
          (fun ph => { ph with flags := r.applied :: ph.flags })
    | _, _ => none

/-- The function `ga2Population::crossover` (lines 161-170), started with `k` as the
index of the next unused draw. The loop `for (i = 0; i < _replacementSize;
i += 2)` makes `(_replacementSize + 1) / 2` passes. The returned flag `true`
is left out of the result. -/
def ga2Population.crossover (draws : Nat → ℚ) (k : Nat) (p : ga2Population) :
    Option CrossoverPhase :=
  crossoverLoop draws ((p._replacementSize + 1) / 2).toNat 0 k { p with _crossCount := 0 }

/-- Modelled from the spec: `ga2Chromosome::setGene(index, value)` is missing from
the sources; it writes one gene by index and invalidates the cached fitness. -/
def ga2Chromosome.setGene (c : ga2Chromosome) (index : Nat) (value : ℚ) : ga2Chromosome :=
  { c with _genes := c._genes.set index value, _fitness := none }

/-- The value `f` that `_mutateFunc` passes to `setGene` (lines 399-410) for the
bounds `maxRange`, `minRange` and the two draws `u1`, `u2`; every operation is
a `float` operation. `range` is the difference of line 399. The first
assignment is the one of the `if (_integer)` statement (lines 401-407), in
integer mode followed by the conversion `f = (int)f`; the assignment of
line 409 is outside that statement and is made in both cases. The result is
`none` when an operation has no finite result or the conversion is
undefined. -/
def mutatedValue (integer : Bool) (u1 u2 maxRange minRange : ℚ) : Option ℚ :=
  (floatOf (maxRange - minRange)).bind fun range =>
    (if integer then
      (floatOf (range + 1)).bind fun range1 =>
        (floatOf (u1 * range1)).bind fun product =>
          (floatOf (product + minRange)).bind fun f =>
            (floatToInt f).map fun (n : Int) => roundFloat (n : ℚ)
    else
      (floatOf (u1 * range)).bind fun product => floatOf (product + minRange)).bind fun _ =>
      (floatOf (u2 * range)).bind fun product => floatOf (product + minRange)

/-- The outcome of one call of `_mutateFunc`: the new value of the reference
argument, the new value of `_mutationCount` and the index of the next unused
draw. -/
structure MutationOutcome where
  a : ga2Chromosome
  mutationCount : Int
  next : Nat
deriving DecidableEq, Repr

/-- The loop of `_mutateFunc` (lines 392-412): `n` passes remain, the next one
handles gene `i` and takes `draws k` as its gating draw. A gene that is mutated
takes two more draws. Indexing the bound vectors past their last member is
`none`, and so is a new value that is not finite or not defined. -/
def mutateGenes (p : ga2Population) (draws : Nat → ℚ) :
    Nat → Nat → Nat → Int → ga2Chromosome → Option MutationOutcome
  | 0, _, k, mutationCount, a => some { a := a, mutationCount := mutationCount, next := k }
  | n + 1, i, k, mutationCount, a =>
    if draws k ≤ p._mutationRate then
      match p._chromoMaxRanges[i]?, p._chromoMinRanges[i]? with
      | some maxRange, some minRange =>
        match mutatedValue p._integer (draws (k + 1)) (draws (k + 2)) maxRange minRange with
        | some f => mutateGenes p draws n (i + 1) (k + 3) (mutationCount + 1) (a.setGene i f)
        | none => none
      | _, _ => none
    else mutateGenes p draws n (i + 1) (k + 1) mutationCount a

/-- The function `ga2Population::_mutateFunc` (lines 389-414); `draws` is the
sequence of draws `(float)rand()/(float)RAND_MAX` and `k` the index of the next
unused one. The returned flag `true` is left out of the result. -/
def ga2Population._mutateFunc (p : ga2Population) (draws : Nat → ℚ) (k : Nat)
    (a : ga2Chromosome) : Option MutationOutcome :=
  mutateGenes p draws p._chromoSize.toNat 0 k p._mutationCount a

/-- The loop of `mutate` (lines 179-182): `n` passes remain, the next one calls
`_mutateFunc(_nextGen[i])`; indexing `_nextGen` past its last member is
`none`. The result is the population and the index of the next unused draw. -/
def mutateLoop (draws : Nat → ℚ) :
    Nat → Nat → Nat → ga2Population → Option (ga2Population × Nat)
  | 0, _, k, p => some (p, k)
  | n + 1, i, k, p =>
    match p._nextGen[i]? with
    | none => none
    | some a =>
      match p._mutateFunc draws k a with
      | none => none
      | some r =>
        mutateLoop draws n (i + 1) r.next
          { p with _nextGen := p._nextGen.set i r.a, _mutationCount := r.mutationCount }

/-- The function `ga2Population::mutate` (lines 175-184), started with `k` as the
index of the next unused draw. The returned flag `true` is left out of the
result. -/
def ga2Population.mutate (draws : Nat → ℚ) (k : Nat) (p : ga2Population) :
    Option (ga2Population × Nat) :=
  mutateLoop draws p._replacementSize.toNat 0 k { p with _mutationCount := 0 }

/-- The index, in the sequence of draws, of the gating draw of gene `i` when
`_mutateFunc` starts with draw `k` and mutation rate `m`: a gene that is
mutated takes three draws, any other gene one. -/
def mutationGate (m : ℚ) (draws : Nat → ℚ) (k : Nat) : Nat → Nat
  | 0 => k
  | i + 1 =>
    if draws (mutationGate m draws k i) ≤ m then mutationGate m draws k i + 3
    else mutationGate m draws k i + 1

/-- The number of genes among the first `n` whose gating draw is at most the
mutation rate `m`. -/
def mutatedGenes (m : ℚ) (draws : Nat → ℚ) (k : Nat) (n : Nat) : Nat :=
  ((List.range n).filter (fun i => decide (draws (mutationGate m draws k i) ≤ m))).length

/-- The constant `INT_MAX` of `<limits.h>` for a 32-bit `int`. -/
def INT_MAX : Int := 2147483647

/-- The running statistics of the loop of `evaluate`: `_sumFitness`,
`_maxFitness` and `_minFitness`. -/
structure FitnessStats where
  sumFitness : ℚ
  maxFitness : ℚ
  minFitness : ℚ
deriving DecidableEq, Repr

/-- The body of the loop of `evaluate` (lines 148-151) for the member `c`. -/
def evaluatePass (getFitness : ga2Chromosome → ℚ) (st : FitnessStats) (c : ga2Chromosome) :
    FitnessStats :=
  let f := getFitness c
  { sumFitness := st.sumFitness + f,
    maxFitness := if f > st.maxFitness then f else st.maxFitness,
    minFitness := if f < st.minFitness then f else st.minFitness }

/-- The loop of `evaluate` (lines 146-152): `n` passes remain, the next one reads
`_chromosomes[i]`; reading past the last member is `none`. -/
def evaluateLoop (getFitness : ga2Chromosome → ℚ) (cs : List ga2Chromosome) :
    Nat → Nat → FitnessStats → Option FitnessStats
  | 0, _, st => some st
  | n + 1, i, st =>
    match cs[i]? with
    | none => none
    | some c => evaluateLoop getFitness cs n (i + 1) (evaluatePass getFitness st c)

/-- The function `ga2Population::evaluate` (lines 139-155). The quotient
`_sumFitness/(double)_size` is the quotient of rationals (`0` for `_size = 0`,
where the source divides a `double` by zero). -/
def ga2Population.evaluate (getFitness : ga2Chromosome → ℚ) (p : ga2Population) :
    Option (Bool × ga2Population) :=
  (evaluateLoop getFitness p._chromosomes p._size.toNat 0
    { sumFitness := 0, maxFitness := -1 * (INT_MAX : ℚ), minFitness := (INT_MAX : ℚ) }).map
    (fun st =>
      (true,
        { p with
          _sumFitness := st.sumFitness,
          _avgFitness := st.sumFitness / (p._size : ℚ),
          _maxFitness := st.maxFitness,
          _minFitness := st.minFitness }))

/-- The loop of `getBestFitChromosome` (lines 573-578): `n` passes remain, the next
one reads `_chromosomes[i]`; reading past the last member is `none`. When no
pass returns, the function returns the empty vector (line 579). -/
def bestFitLoop (getFitness : ga2Chromosome → ℚ) (cs : List ga2Chromosome)
    (maxFitness : ℚ) : Nat → Nat → Option (List ℚ)
  | 0, _ => some []
  | n + 1, i =>
    match cs[i]? with
    | none => none
    | some c =>
      if getFitness c = maxFitness then some c._genes
      else bestFitLoop getFitness cs maxFitness n (i + 1)

/-- The function `ga2Population::getBestFitChromosome` (lines 569-580). -/
def ga2Population.getBestFitChromosome (getFitness : ga2Chromosome → ℚ)
    (p : ga2Population) : Option (List ℚ) :=
  bestFitLoop getFitness p._chromosomes p._maxFitness p._size.toNat 0

/-- The function `ga2Population::_replaceFunc` (lines 349-364). -/
def ga2Population._replaceFunc (getFitness : ga2Chromosome → ℚ) (p : ga2Population) :
    Option (Bool × ga2Population) :=
  match p._replacementType with
  | ga2ReplaceType.GA2_REPLACE_STEADYSTATENODUPLICATES =>
    p._replaceSteadyStateNoDuplicates getFitness
  | ga2ReplaceType.GA2_REPLACE_STEADYSTATE => p._replaceSteadyState getFitness
  | ga2ReplaceType.GA2_REPLACE_GENERATIONAL => p._replaceGenerational getFitness

/-- The function `ga2Population::replace` (lines 189-192). -/
def ga2Population.replace (getFitness : ga2Chromosome → ℚ) (p : ga2Population) :
    Option (Bool × ga2Population) :=
  p._replaceFunc getFitness

/-- Modelled from the spec: the driver of one evolutionary step is missing from the
sources; the step runs selection, crossover, mutation and replacement in that
order on one sequence of draws. Selection takes the first
`2 * ((_replacementSize + 1) / 2)` draws, crossover and mutation the following
ones. -/
def evolutionStep (getFitness : ga2Chromosome → ℚ) (draws : Nat → ℚ) (p : ga2Population) :
    Option ga2Population :=
  match p.select getFitness draws with
  | none => none
  | some selected =>
    match selected.2.crossover draws (2 * ((p._replacementSize + 1) / 2).toNat) with
    | none => none
    | some crossed =>
      match crossed.population.mutate draws crossed.next with
      | none => none
      | some mutated => (mutated.1.replace getFitness).map (fun r => r.2)

/-- The stream written or read by the serialising operators, as the sequence of
its whitespace-separated numbers (each number is taken to be printed and
parsed exactly). -/
abbrev TokenStream := List ℚ

/-- The extraction `in >> n` of an `int`: the next number of the stream when it is
an integer; `none` at the end of the stream or on any other number. -/
def readInt : TokenStream → Option (Int × TokenStream)
  | [] => none
  | q :: rest => if q.den = 1 then some (q.num, rest) else none

/-- The loop `for (i = 0; i < n; ++i) { in >> f; v.push_back(f); }` of
`operator>>` (lines 616-625); `none` at the end of the stream. -/
def readFloats : Nat → TokenStream → Option (List ℚ × TokenStream)
  | 0, ts => some ([], ts)
  | n + 1, ts =>
    match ts with
    | [] => none
    | f :: rest => (readFloats n rest).map (fun r => (f :: r.1, r.2))

/-- Modelled from the spec: `operator<<` for `ga2Chromosome` is missing from the
sources; it writes the gene sequence followed by the fitness. -/
def ga2Chromosome.write (getFitness : ga2Chromosome → ℚ) (c : ga2Chromosome) :
    TokenStream :=
  c._genes ++ [getFitness c]

/-- Modelled from the spec: `operator>>` for `ga2Chromosome` is missing from the
sources; into a chromosome constructed with `size` genes it reads the gene
sequence followed by the fitness. Parent identifiers and cross-site marker are
not part of the stream (the model sets them to `0`). -/
def ga2Chromosome.read (size : Nat) (ts : TokenStream) : Option (ga2Chromosome × TokenStream) :=
  match readFloats size ts with
  | none => none
  | some (genes, rest) =>
    match rest with
    | [] => none
    | f :: rest1 =>
      some ({ _genes := genes, _fitness := some f, _parent0 := 0, _parent1 := 0,
              _crossSite := 0 }, rest1)

/-- The loops `for (i = 0; i < n; ++i) o << v[i] << " "` of `operator<<`
(lines 590-594); indexing `v` past its last member is `none`. -/
def writeFloats (v : List ℚ) : Nat → Nat → Option TokenStream
  | 0, _ => some []
  | n + 1, i =>
    match v[i]? with
    | none => none
    | some f => (writeFloats v n (i + 1)).map (fun ts => f :: ts)

/-- The loop `for (i = 0; i < pop._size; ++i) o << pop._chromosomes[i]` of
`operator<<` (lines 597-598); indexing past the last member is `none`. -/
def writeChromosomes (getFitness : ga2Chromosome → ℚ) (cs : List ga2Chromosome) :
    Nat → Nat → Option TokenStream
  | 0, _ => some []
  | n + 1, i =>
    match cs[i]? with
    | none => none
    | some c => (writeChromosomes getFitness cs n (i + 1)).map (fun ts => c.write getFitness ++ ts)

/-- The serialising `operator<<` for `ga2Population` (lines 585-602): the numbers
it writes, in order. -/
def ga2Population.write (getFitness : ga2Chromosome → ℚ) (p : ga2Population) :
    Option TokenStream :=
  match writeFloats p._chromoMaxRanges p._chromoSize.toNat 0,
      writeFloats p._chromoMinRanges p._chromoSize.toNat 0,
      writeChromosomes getFitness p._chromosomes p._size.toNat 0 with
  | some maxs, some mins, some chromos =>
    some ([(p._size : ℚ), (p._chromoSize : ℚ)] ++ maxs ++ mins ++ chromos)
  | _, _, _ => none

/-- The loop of `operator>>` that reads the chromosomes (lines 627-635): `n`
passes remain, each reads one chromosome of `chromoSize` genes and appends it
to the live vector. -/
def readChromosomes (chromoSize : Nat) :
    Nat → TokenStream → List ga2Chromosome → Option (List ga2Chromosome × TokenStream)
  | 0, ts, cs => some (cs, ts)
  | n + 1, ts, cs =>
    match ga2Chromosome.read chromoSize ts with
    | none => none
    | some (c, rest) => readChromosomes chromoSize n rest (cs ++ [c])

/-- The deserialising `operator>>` for `ga2Population` (lines 607-638), applied to
the population `pop`; `none` when an extraction fails. The loop that reads the
chromosomes runs `for (i = 0; i < pop._chromoSize; ++i)`. -/
def ga2Population.read (ts : TokenStream) (pop : ga2Population) : Option ga2Population :=
  match readInt ts with
  | none => none
  | some (size, ts1) =>
    match readInt ts1 with
    | none => none
    | some (chromoSize, ts2) =>
      match readFloats chromoSize.toNat ts2 with
      | none => none
      | some (maxs, ts3) =>
        match readFloats chromoSize.toNat ts3 with
        | none => none
        | some (mins, ts4) =>
          match readChromosomes chromoSize.toNat chromoSize.toNat ts4 [] with
          | none => none
          | some (cs, _) =>
            some { pop with
              _size := size, _chromoSize := chromoSize, _chromosomes := cs,
              _chromoMaxRanges := maxs, _chromoMinRanges := mins }

/-- The live members have pairwise distinct fitness values. -/
def distinctFitness (getFitness : ga2Chromosome → ℚ) (cs : List ga2Chromosome) : Prop :=
  cs.Pairwise (fun x y => getFitness x ≠ getFitness y)

/-- The scenario of the specification: population size 4, chromosome length 3,
bounds `[0, 10]` per gene, generational replacement, crossover rate 0 and
mutation rate 0; here with ranked selection, uniform crossover, replacement
size 4, the sort flag off and four evaluated live members. -/
def scenarioPopulation : ga2Population :=
  { populationOf 4 false
      [{ chromoOfGenes [1, 2, 3] 0 with _fitness := some 6 },
        { chromoOfGenes [4, 5, 6] 0 with _fitness := some 15 },
        { chromoOfGenes [7, 8, 9] 0 with _fitness := some 24 },
        { chromoOfGenes [10, 0, 5] 0 with _fitness := some 15 }] [] with
    _chromoSize := 3, _chromoMaxRanges := [10, 10, 10], _chromoMinRanges := [0, 0, 0],
    _replacementSize := 4, _selectionType := ga2SelectType.GA2_SELECT_RANKED,
    _crossoverType := ga2CrossoverType.GA2_CROSSOVER_UNIFORM }

/-- The chromosomes created by `init`, in creation order: pass `i` of its loop
(lines 82-105) creates `fresh i`, for `i` from `0` to `_size - 1`. -/
def createdChromosomes (fresh : Nat → ga2Chromosome) (size : Int) : List ga2Chromosome :=
  (List.range size.toNat).map fresh

/-- The stable sort by descending fitness named by the specification: the
standard insertion sort by fitness, in which members of equal fitness keep the
order they have in the argument (see `stableSortDescending_withFitness`). This
definition follows the wording of the specification, not the code. -/
def stableSortDescending (getFitness : ga2Chromosome → ℚ) (l : List ga2Chromosome) :
    List ga2Chromosome :=
  l.insertionSort (fun a b => getFitness b ≤ getFitness a)

/-- The members of `cs` whose fitness is exactly `f`, in the order they have in
`cs`. -/
def withFitness (getFitness : ga2Chromosome → ℚ) (f : ℚ) (cs : List ga2Chromosome) :
    List ga2Chromosome :=
  cs.filter (fun c => decide (getFitness c = f))

/-- The chromosome with the single gene `i`, of cached fitness `7` for `i = 1`
and `5` otherwise, for examples: distinct members of equal fitness. -/
def tiedChromosome (i : Nat) : ga2Chromosome :=
  { chromoOfGenes [(i : ℚ)] 0 with _fitness := some (if i = 1 then 7 else 5) }

/-- A sort-ordered population of size 3 with chromosome length 1, the bound
`[0, 10]` and an empty live sequence, for examples. -/
def tiedPopulation : ga2Population :=
  { populationOf 3 true [] [] with
    _chromoSize := 1, _chromoMaxRanges := [10], _chromoMinRanges := [0] }

/-- The position that the gene at position `j` of an offspring of one-point
crossover had in its parent, for the chromosome length `N` and the cut
position `c`: the first `N - c` genes of an offspring are the tail `[c, N)` of
one parent, the last `c` genes the head `[0, c)` of the other. -/
def onePointOrigin (N c j : Nat) : Nat := if j < N - c then j + c else j - (N - c)

/-- Every gene of the chromosome lies within the inclusive bound
`[mins[i], maxs[i]]` of the position `i` it occupies. -/
def withinBounds (mins maxs : List ℚ) (c : ga2Chromosome) : Bool :=
  (List.range c._genes.length).all (fun i =>
    match c._genes[i]?, mins[i]?, maxs[i]? with
    | some g, some mn, some mx => decide (mn ≤ g ∧ g ≤ mx)
    | _, _, _ => false)

/-- A population of chromosome length 2 whose two positions have the disjoint
bounds `[0, 1]` and `[10, 20]`, for examples. -/
def twoBoundsPopulation : ga2Population :=
  { populationOf 2 false [] [] with
    _chromoSize := 2, _chromoMaxRanges := [1, 20], _chromoMinRanges := [0, 10] }

/-- The `n` largest values of a list, with repetitions: the first `n` entries of
the list sorted in descending order. This definition follows the wording of the
specification, not the code. -/
def largestValues (n : Nat) (vals : List ℚ) : List ℚ :=
  (vals.insertionSort (fun x y => y ≤ x)).take n

/-! ## Auxiliary facts about the vector operations -/

theorem vectorInsert_length {α : Type} (cs : List α) (k : Nat) (x : α) :
    (vectorInsert cs k x).length = cs.length + 1 := by
  have h := congrArg List.length (List.take_append_drop k cs)
  simp only [List.length_append] at h
  simp only [vectorInsert, List.length_append, List.length_cons]
  omega

theorem mem_vectorInsert {α : Type} (cs : List α) (k : Nat) (x y : α) :
    y ∈ vectorInsert cs k x ↔ y = x ∨ y ∈ cs := by
  have h : y ∈ cs ↔ y ∈ cs.take k ∨ y ∈ cs.drop k := by
    rw [← List.mem_append, List.take_append_drop]
  simp only [vectorInsert, List.mem_append, List.mem_cons, h]
  tauto

theorem vectorInsert_cons_succ {α : Type} (c : α) (rest : List α) (k : Nat) (x : α) :
    vectorInsert (c :: rest) (k + 1) x = c :: vectorInsert rest k x := by
  simp [vectorInsert]

theorem vectorInsert_zero {α : Type} (cs : List α) (x : α) :
    vectorInsert cs 0 x = x :: cs := by
  simp [vectorInsert]

theorem sortedInsert_eq (getFitness : ga2Chromosome → ℚ) (cs : List ga2Chromosome)
    (x : ga2Chromosome) :
    sortedInsert getFitness cs x
      = vectorInsert cs (insertionPoint getFitness cs (getFitness x)) x := by
  cases cs with
  | nil => simp [sortedInsert, vectorInsert, insertionPoint]
  | cons c rest => simp [sortedInsert]

theorem sortedInsert_length (getFitness : ga2Chromosome → ℚ) (cs : List ga2Chromosome)
    (x : ga2Chromosome) : (sortedInsert getFitness cs x).length = cs.length + 1 := by
  rw [sortedInsert_eq, vectorInsert_length]

theorem foldl_sortedInsert_length (getFitness : ga2Chromosome → ℚ)
    (xs cs : List ga2Chromosome) :
    (xs.foldl (sortedInsert getFitness) cs).length = cs.length + xs.length := by
  induction xs generalizing cs with
  | nil => simp
  | cons x rest ih =>
    simp only [List.foldl_cons, List.length_cons]
    rw [ih, sortedInsert_length]
    omega

theorem noDuplicateInsert_length_ge (getFitness : ga2Chromosome → ℚ)
    (cs : List ga2Chromosome) (x : ga2Chromosome) :
    cs.length ≤ (noDuplicateInsert getFitness cs x).length := by
  unfold noDuplicateInsert
  split_ifs
  · simp
  · rw [vectorInsert_length]; omega
  · exact le_refl _

theorem foldl_noDuplicateInsert_length_ge (getFitness : ga2Chromosome → ℚ)
    (xs cs : List ga2Chromosome) :
    cs.length ≤ (xs.foldl (noDuplicateInsert getFitness) cs).length := by
  induction xs generalizing cs with
  | nil => simp
  | cons x rest ih =>
    simp only [List.foldl_cons]
    exact le_trans (noDuplicateInsert_length_ge getFitness cs x) (ih _)

/-- The loop `while (_size != size()) pop_back()` cuts the vector down to `_size`
members when it has at least that many, and runs off the empty vector
otherwise. -/
theorem popUntilSize_eq {α : Type} (size : Int) (fuel : Nat) (cs : List α)
    (hfuel : cs.length < fuel) :
    popUntilSize size fuel cs
      = if 0 ≤ size ∧ size ≤ (cs.length : Int) then some (cs.take size.toNat) else none := by
  induction fuel generalizing cs with
  | zero => omega
  | succ fuel ih =>
    unfold popUntilSize
    by_cases hne : size = (cs.length : Int)
    · have h1 : sizeNe size cs.length = false := by simp [sizeNe, hne]
      have h2 : 0 ≤ size ∧ size ≤ (cs.length : Int) := by omega
      have h3 : size.toNat = cs.length := by omega
      simp only [h1, h2, h3, List.take_length]
      simp
    · have h1 : sizeNe size cs.length = true := by simp [sizeNe, hne]
      simp only [h1, if_true]
      cases hcs : cs with
      | nil =>
        subst hcs
        simp only [List.length_nil, Nat.cast_zero] at hne ⊢
        have h2 : ¬ (0 ≤ size ∧ size ≤ 0) := by omega
        simp [h2]
      | cons c rest =>
        subst hcs
        have hlen : ((c :: rest).dropLast).length < fuel := by
          simp only [List.length_dropLast, List.length_cons] at hfuel ⊢
          omega
        rw [ih _ hlen]
        simp only [List.isEmpty_cons, Bool.false_eq_true, if_false]
        simp only [List.length_dropLast, List.length_cons, Nat.add_sub_cancel] at hne ⊢
        by_cases hle : 0 ≤ size ∧ size ≤ (rest.length : Int)
        · have hle2 : 0 ≤ size ∧ size ≤ ((rest.length + 1 : Nat) : Int) := by omega
          rw [if_pos hle, if_pos hle2, List.dropLast_eq_take, List.take_take]
          have : min size.toNat ((c :: rest).length - 1) = size.toNat := by
            simp only [List.length_cons, Nat.add_sub_cancel]
            omega
          rw [this]
        · have hle2 : ¬ (0 ≤ size ∧ size ≤ ((rest.length + 1 : Nat) : Int)) := by omega
          rw [if_neg hle, if_neg hle2]

/-- The loop `while (_size < size()) pop_back()` always ends; it cuts the vector
down to `_size` members when `_size` is not negative and leaves it alone when
`_size` is negative. -/
theorem popWhileAbove_eq {α : Type} (size : Int) (fuel : Nat) (cs : List α)
    (hfuel : cs.length < fuel) :
    popWhileAbove size fuel cs
      = some (if 0 ≤ size then cs.take size.toNat else cs) := by
  induction fuel generalizing cs with
  | zero => omega
  | succ fuel ih =>
    unfold popWhileAbove
    by_cases hlt : 0 ≤ size ∧ size < (cs.length : Int)
    · have h1 : sizeLt size cs.length = true := by simp [sizeLt, hlt.1, hlt.2]
      have hlen : cs.dropLast.length < fuel := by
        simp only [List.length_dropLast]
        omega
      simp only [h1, if_true]
      rw [ih _ hlen, if_pos hlt.1, if_pos hlt.1, List.dropLast_eq_take, List.take_take]
      have : min size.toNat (cs.length - 1) = size.toNat := by omega
      rw [this]
    · have h1 : sizeLt size cs.length = false := by
        simp only [sizeLt, Bool.and_eq_false_imp, decide_eq_true_eq, decide_eq_false_iff_not]
        intro h0 h
        exact hlt ⟨h0, h⟩
      simp only [h1, Bool.false_eq_true, if_false]
      by_cases h0 : 0 ≤ size
      · rw [if_pos h0, List.take_of_length_le]
        omega
      · rw [if_neg h0]

/-! ## Order of the live sequence under insertion -/

theorem nonIncreasing_iff_pairwise (getFitness : ga2Chromosome → ℚ)
    (cs : List ga2Chromosome) :
    nonIncreasing getFitness cs ↔ cs.Pairwise (fun x y => getFitness y ≤ getFitness x) := by
  unfold nonIncreasing
  haveI : IsTrans ga2Chromosome (fun x y => getFitness y ≤ getFitness x) :=
    ⟨fun _ _ _ h1 h2 => le_trans h2 h1⟩
  exact List.chain'_iff_pairwise

theorem pairwise_insertionPoint (getFitness : ga2Chromosome → ℚ) (cs : List ga2Chromosome)
    (x : ga2Chromosome)
    (h : cs.Pairwise (fun a b => getFitness b ≤ getFitness a)) :
    (vectorInsert cs (insertionPoint getFitness cs (getFitness x)) x).Pairwise
      (fun a b => getFitness b ≤ getFitness a) := by
  induction cs with
  | nil => simp [insertionPoint, vectorInsert]
  | cons c rest ih =>
    rw [List.pairwise_cons] at h
    simp only [insertionPoint]
    split_ifs with hgt
    · rw [vectorInsert_cons_succ, List.pairwise_cons]
      refine ⟨?_, ih h.2⟩
      intro y hy
      rw [mem_vectorInsert] at hy
      rcases hy with rfl | hy
      · exact le_of_lt hgt
      · exact h.1 y hy
    · rw [vectorInsert_zero, List.pairwise_cons]
      refine ⟨?_, List.pairwise_cons.mpr h⟩
      intro y hy
      rcases List.mem_cons.mp hy with rfl | hy
      · exact not_lt.mp hgt
      · exact le_trans (h.1 y hy) (not_lt.mp hgt)

theorem sortedInsert_nonIncreasing (getFitness : ga2Chromosome → ℚ)
    (cs : List ga2Chromosome) (x : ga2Chromosome) (h : nonIncreasing getFitness cs) :
    nonIncreasing getFitness (sortedInsert getFitness cs x) := by
  rw [nonIncreasing_iff_pairwise] at h ⊢
  rw [sortedInsert_eq]
  exact pairwise_insertionPoint getFitness cs x h

theorem noDuplicateInsert_nonIncreasing (getFitness : ga2Chromosome → ℚ)
    (cs : List ga2Chromosome) (x : ga2Chromosome) (h : nonIncreasing getFitness cs) :
    nonIncreasing getFitness (noDuplicateInsert getFitness cs x) := by
  unfold noDuplicateInsert
  split_ifs with hempty hdup
  · have : cs = [] := List.isEmpty_iff.mp hempty
    subst this
    simp [nonIncreasing]
  · rw [nonIncreasing_iff_pairwise] at h ⊢
    exact pairwise_insertionPoint getFitness cs x h
  · exact h

theorem foldl_sortedInsert_nonIncreasing (getFitness : ga2Chromosome → ℚ)
    (xs cs : List ga2Chromosome) (h : nonIncreasing getFitness cs) :
    nonIncreasing getFitness (xs.foldl (sortedInsert getFitness) cs) := by
  induction xs generalizing cs with
  | nil => exact h
  | cons x rest ih => exact ih _ (sortedInsert_nonIncreasing getFitness cs x h)

theorem foldl_noDuplicateInsert_nonIncreasing (getFitness : ga2Chromosome → ℚ)
    (xs cs : List ga2Chromosome) (h : nonIncreasing getFitness cs) :
    nonIncreasing getFitness (xs.foldl (noDuplicateInsert getFitness) cs) := by
  induction xs generalizing cs with
  | nil => exact h
  | cons x rest ih => exact ih _ (noDuplicateInsert_nonIncreasing getFitness cs x h)

theorem nonIncreasing_take (getFitness : ga2Chromosome → ℚ) (cs : List ga2Chromosome)
    (k : Nat) (h : nonIncreasing getFitness cs) : nonIncreasing getFitness (cs.take k) := by
  rw [nonIncreasing_iff_pairwise] at h ⊢
  exact h.sublist (List.take_sublist k cs)

theorem popUntilSize_nonIncreasing (getFitness : ga2Chromosome → ℚ) (size : Int)
    (cs cs1 : List ga2Chromosome) (h : nonIncreasing getFitness cs)
    (hpop : popUntilSize size (cs.length + 1) cs = some cs1) :
    nonIncreasing getFitness cs1 := by
  rw [popUntilSize_eq size _ cs (Nat.lt_succ_self _)] at hpop
  split_ifs at hpop with hle
  simp only [Option.some.injEq] at hpop
  rw [← hpop]
  exact nonIncreasing_take getFitness cs _ h

/-- Every pass of the loop of `init` keeps a sorted live sequence sorted. -/
theorem foldl_init_nonIncreasing (getFitness : ga2Chromosome → ℚ)
    (fresh : Nat → ga2Chromosome) (isSorted : Bool) (hsorted : isSorted = true)
    (is : List Nat) (cs : List ga2Chromosome) (h : nonIncreasing getFitness cs) :
    nonIncreasing getFitness
      (is.foldl (fun cs i => if !isSorted then cs ++ [fresh i]
        else sortedInsert getFitness cs (fresh i)) cs) := by
  subst hsorted
  induction is generalizing cs with
  | nil => exact h
  | cons i rest ih =>
    simp only [List.foldl_cons]
    exact ih _ (sortedInsert_nonIncreasing getFitness cs (fresh i) h)

theorem init_of_mismatch (getFitness : ga2Chromosome → ℚ) (fresh : Nat → ga2Chromosome)
    (p : ga2Population)
    (h : (p._chromoMaxRanges.length : Int) ≠ p._chromoSize
      ∨ (p._chromoMinRanges.length : Int) ≠ p._chromoSize) :
    p.init getFitness fresh = (false, p) := by
  unfold ga2Population.init
  rw [if_pos h]

theorem init_of_match (getFitness : ga2Chromosome → ℚ) (fresh : Nat → ga2Chromosome)
    (p : ga2Population)
    (h : ¬ ((p._chromoMaxRanges.length : Int) ≠ p._chromoSize
      ∨ (p._chromoMinRanges.length : Int) ≠ p._chromoSize)) :
    p.init getFitness fresh
      = (true,
          { p with
            _chromosomes :=
              (List.range p._size.toNat).foldl
                (fun cs i =>
                  if !p._isSorted then cs ++ [fresh i]
                  else sortedInsert getFitness cs (fresh i))
                p._chromosomes }) := by
  unfold ga2Population.init
  rw [if_neg h]

/-! ## Replacement and initialisation -/

/-- With the sort flag set, `init` keeps a non-increasing live sequence
non-increasing (in particular it builds one from the empty sequence), and so
does each steady-state replacement whenever it returns. -/
theorem sortedOrder_init_steadyState (getFitness : ga2Chromosome → ℚ)
    (fresh : Nat → ga2Chromosome) (p : ga2Population) (hsorted : p._isSorted = true)
    (hlive : nonIncreasing getFitness p._chromosomes) :
    nonIncreasing getFitness (p.init getFitness fresh).2._chromosomes
    ∧ (∀ r, p._replaceSteadyState getFitness = some r →
        nonIncreasing getFitness r.2._chromosomes)
    ∧ (∀ r, p._replaceSteadyStateNoDuplicates getFitness = some r →
        nonIncreasing getFitness r.2._chromosomes) := by
  refine ⟨?_, ?_, ?_⟩
  · by_cases h : (p._chromoMaxRanges.length : Int) ≠ p._chromoSize
        ∨ (p._chromoMinRanges.length : Int) ≠ p._chromoSize
    · rw [init_of_mismatch getFitness fresh p h]
      exact hlive
    · rw [init_of_match getFitness fresh p h]
      exact foldl_init_nonIncreasing getFitness fresh _ hsorted _ _ hlive
  · intro r hr
    simp only [ga2Population._replaceSteadyState, hsorted, Bool.not_true, Bool.false_eq_true,
      if_false, Option.map_eq_some'] at hr
    obtain ⟨cs1, hpop, rfl⟩ := hr
    exact popUntilSize_nonIncreasing getFitness _ _ _
      (foldl_sortedInsert_nonIncreasing getFitness _ _ hlive) hpop
  · intro r hr
    simp only [ga2Population._replaceSteadyStateNoDuplicates, hsorted, Bool.not_true,
      Bool.false_eq_true, if_false, Option.map_eq_some'] at hr
    obtain ⟨cs1, hpop, rfl⟩ := hr
    exact popUntilSize_nonIncreasing getFitness _ _ _
      (foldl_noDuplicateInsert_nonIncreasing getFitness _ _ hlive) hpop

/-- Witness of `sortedOrder_init_steadyState`: a sorted population of size 2 with
live fitness values 5, 3 and staged fitness values 4, 3. -/
theorem sortedOrder_init_steadyState_witness :
    nonIncreasing cachedFitness
      ((populationOf 2 true [chromoOfFitness 5, chromoOfFitness 3]
        [chromoOfFitness 4, chromoOfFitness 3]).init cachedFitness
          (fun _ => chromoOfFitness 4)).2._chromosomes
    ∧ (∀ r, (populationOf 2 true [chromoOfFitness 5, chromoOfFitness 3]
          [chromoOfFitness 4, chromoOfFitness 3])._replaceSteadyState cachedFitness = some r →
        nonIncreasing cachedFitness r.2._chromosomes)
    ∧ (∀ r, (populationOf 2 true [chromoOfFitness 5, chromoOfFitness 3]
          [chromoOfFitness 4, chromoOfFitness 3])._replaceSteadyStateNoDuplicates
            cachedFitness = some r →
        nonIncreasing cachedFitness r.2._chromosomes) :=
  sortedOrder_init_steadyState cachedFitness (fun _ => chromoOfFitness 4)
    (populationOf 2 true [chromoOfFitness 5, chromoOfFitness 3]
      [chromoOfFitness 4, chromoOfFitness 3])
    rfl (by norm_num [nonIncreasing, populationOf, cachedFitness, chromoOfFitness])

/-- C1 (failing input): sort flag set, logical size 2, live fitness values 9, 7,
staged fitness values 5, 3. After 5 is pushed, the walk for 3 steps past 5,
reaches `end` and reads `it->getFitness()` there before the test `it != end`:
`_replaceGenerational` runs into an out-of-range read and yields no live
sequence. -/
theorem C1_replaceGenerational_reads_past_end :
    (populationOf 2 true [chromoOfFitness 9, chromoOfFitness 7]
      [chromoOfFitness 5, chromoOfFitness 3])._replaceGenerational cachedFitness = none := by
  decide

/-- C2: for a sort-ordered population whose live sequence has exactly `S = _size`
members, and every staged sequence, `_replaceSteadyState` and
`_replaceSteadyStateNoDuplicates` both return (no undefined step is hit),
return `true`, leave exactly `S` live members and leave the staging sequence
empty. -/
theorem C2_steadyState_returns_size (getFitness : ga2Chromosome → ℚ) (p : ga2Population)
    (S : Nat) (hsorted : p._isSorted = true) (hsize : p._size = (S : Int))
    (hlive : p._chromosomes.length = S) :
    (∃ q, p._replaceSteadyState getFitness = some (true, q)
      ∧ q._chromosomes.length = S ∧ q._nextGen = [])
    ∧ (∃ q, p._replaceSteadyStateNoDuplicates getFitness = some (true, q)
      ∧ q._chromosomes.length = S ∧ q._nextGen = []) := by
  constructor
  · have hlen := foldl_sortedInsert_length getFitness p._nextGen p._chromosomes
    have hcond : 0 ≤ p._size ∧ p._size
        ≤ ((p._nextGen.foldl (sortedInsert getFitness) p._chromosomes).length : Int) := by
      omega
    simp only [ga2Population._replaceSteadyState, hsorted, Bool.not_true, Bool.false_eq_true,
      if_false]
    rw [popUntilSize_eq _ _ _ (Nat.lt_succ_self _), if_pos hcond]
    refine ⟨_, rfl, ?_, rfl⟩
    simp only [List.length_take]
    omega
  · have hlen := foldl_noDuplicateInsert_length_ge getFitness p._nextGen p._chromosomes
    have hcond : 0 ≤ p._size ∧ p._size
        ≤ ((p._nextGen.foldl (noDuplicateInsert getFitness) p._chromosomes).length : Int) := by
      omega
    simp only [ga2Population._replaceSteadyStateNoDuplicates, hsorted, Bool.not_true,
      Bool.false_eq_true, if_false]
    rw [popUntilSize_eq _ _ _ (Nat.lt_succ_self _), if_pos hcond]
    refine ⟨_, rfl, ?_, rfl⟩
    simp only [List.length_take]
    omega

/-- Witness of C2: sorted population of size 2, live fitness values 5, 3, staged
fitness values 4, 3. -/
theorem C2_steadyState_returns_size_witness :
    (∃ q, (populationOf 2 true [chromoOfFitness 5, chromoOfFitness 3]
        [chromoOfFitness 4, chromoOfFitness 3])._replaceSteadyState cachedFitness
          = some (true, q)
      ∧ q._chromosomes.length = 2 ∧ q._nextGen = [])
    ∧ (∃ q, (populationOf 2 true [chromoOfFitness 5, chromoOfFitness 3]
        [chromoOfFitness 4, chromoOfFitness 3])._replaceSteadyStateNoDuplicates cachedFitness
          = some (true, q)
      ∧ q._chromosomes.length = 2 ∧ q._nextGen = []) :=
  C2_steadyState_returns_size cachedFitness
    (populationOf 2 true [chromoOfFitness 5, chromoOfFitness 3]
      [chromoOfFitness 4, chromoOfFitness 3]) 2 rfl rfl rfl

/-- C4: on a population whose sort flag is false, `_replaceSteadyState` and
`_replaceSteadyStateNoDuplicates` return `false` and leave the whole population
(live and staged sequences included) as it was. -/
theorem C4_unsorted_steadyState_refused (getFitness : ga2Chromosome → ℚ)
    (p : ga2Population) (hunsorted : p._isSorted = false) :
    p._replaceSteadyState getFitness = some (false, p)
    ∧ p._replaceSteadyStateNoDuplicates getFitness = some (false, p) := by
  simp [ga2Population._replaceSteadyState, ga2Population._replaceSteadyStateNoDuplicates,
    hunsorted]

/-- Witness of C4: an unsorted population of size 2 with two live and one staged
member. -/
theorem C4_unsorted_steadyState_refused_witness :
    (populationOf 2 false [chromoOfFitness 1, chromoOfFitness 2]
        [chromoOfFitness 7])._replaceSteadyState cachedFitness
      = some (false, populationOf 2 false [chromoOfFitness 1, chromoOfFitness 2]
        [chromoOfFitness 7])
    ∧ (populationOf 2 false [chromoOfFitness 1, chromoOfFitness 2]
        [chromoOfFitness 7])._replaceSteadyStateNoDuplicates cachedFitness
      = some (false, populationOf 2 false [chromoOfFitness 1, chromoOfFitness 2]
        [chromoOfFitness 7]) :=
  C4_unsorted_steadyState_refused cachedFitness
    (populationOf 2 false [chromoOfFitness 1, chromoOfFitness 2] [chromoOfFitness 7]) rfl

/-- C5: `init` returns `false` exactly when the number of maximum bounds or the
number of minimum bounds differs from the chromosome length, and then the
population is returned unchanged in every member; otherwise it returns
`true`. -/
theorem C5_init_bounds_check (getFitness : ga2Chromosome → ℚ) (fresh : Nat → ga2Chromosome)
    (p : ga2Population) :
    ((p.init getFitness fresh).1 = false ↔
      ((p._chromoMaxRanges.length : Int) ≠ p._chromoSize
        ∨ (p._chromoMinRanges.length : Int) ≠ p._chromoSize))
    ∧ ((p.init getFitness fresh).1 = false → (p.init getFitness fresh).2 = p)
    ∧ (¬ ((p._chromoMaxRanges.length : Int) ≠ p._chromoSize
        ∨ (p._chromoMinRanges.length : Int) ≠ p._chromoSize) →
      (p.init getFitness fresh).1 = true) := by
  by_cases h : (p._chromoMaxRanges.length : Int) ≠ p._chromoSize
      ∨ (p._chromoMinRanges.length : Int) ≠ p._chromoSize
  · rw [init_of_mismatch getFitness fresh p h]
    exact ⟨⟨fun _ => h, fun _ => rfl⟩, fun _ => rfl, fun hn => absurd h hn⟩
  · rw [init_of_match getFitness fresh p h]
    exact ⟨⟨fun hf => absurd hf (by simp), fun hm => absurd hm h⟩,
      fun hf => absurd hf (by simp), fun _ => rfl⟩

/-- Instance of C5 at a population with chromosome length 2 and one maximum
bound: `init` refuses and returns the population as it was. -/
theorem C5_init_bounds_check_witness :
    (ga2Population.init cachedFitness (fun _ => chromoOfFitness 1)
        { populationOf 3 false [] [] with
          _chromoSize := 2, _chromoMaxRanges := [10], _chromoMinRanges := [0, 0] }).1 = false
    ∧ (ga2Population.init cachedFitness (fun _ => chromoOfFitness 1)
        { populationOf 3 false [] [] with
          _chromoSize := 2, _chromoMaxRanges := [10], _chromoMinRanges := [0, 0] }).2
      = { populationOf 3 false [] [] with
          _chromoSize := 2, _chromoMaxRanges := [10], _chromoMinRanges := [0, 0] } :=
  have h := C5_init_bounds_check cachedFitness (fun _ => chromoOfFitness 1)
    { populationOf 3 false [] [] with
      _chromoSize := 2, _chromoMaxRanges := [10], _chromoMinRanges := [0, 0] }
  have hf := h.1.mpr (Or.inl (by decide))
  ⟨hf, h.2.1 hf⟩

theorem generationalLoop_unsorted (getFitness : ga2Chromosome → ℚ)
    (cs xs : List ga2Chromosome) :
    generationalLoop getFitness false cs xs = some (cs ++ xs) := by
  induction xs generalizing cs with
  | nil => simp [generationalLoop]
  | cons x rest ih =>
    simp only [generationalLoop, generationalInsert, Bool.not_false, if_true]
    rw [ih]
    simp

theorem generationalInsert_length (getFitness : ga2Chromosome → ℚ) (isSorted : Bool)
    (cs cs1 : List ga2Chromosome) (x : ga2Chromosome)
    (h : generationalInsert getFitness isSorted cs x = some cs1) :
    cs1.length = cs.length + 1 := by
  unfold generationalInsert at h
  split_ifs at h
  · simp only [Option.some.injEq] at h
    rw [← h]; simp
  · simp only [Option.some.injEq] at h
    rw [← h]; simp
  · simp only [Option.map_eq_some'] at h
    obtain ⟨k, _, rfl⟩ := h
    exact vectorInsert_length cs k x

theorem generationalLoop_length (getFitness : ga2Chromosome → ℚ) (isSorted : Bool)
    (xs cs cs1 : List ga2Chromosome)
    (h : generationalLoop getFitness isSorted cs xs = some cs1) :
    cs1.length = cs.length + xs.length := by
  induction xs generalizing cs with
  | nil =>
    simp only [generationalLoop, Option.some.injEq] at h
    rw [← h]; simp
  | cons x rest ih =>
    simp only [generationalLoop] at h
    cases hins : generationalInsert getFitness isSorted cs x with
    | none => rw [hins] at h; simp at h
    | some cs2 =>
      rw [hins] at h
      have h1 := generationalInsert_length getFitness isSorted cs cs2 x hins
      have h2 := ih cs2 h
      simp only [List.length_cons]
      omega

/-- C3 (counterexample): logical size 4 and four live members, two staged members
(fitness values 3, 5). Generational replacement returns and leaves two live
members, with the sort flag off and with the sort flag on. -/
theorem C3_replaceGenerational_size_counterexample :
    ((populationOf 4 false
        [chromoOfFitness 9, chromoOfFitness 8, chromoOfFitness 7, chromoOfFitness 6]
        [chromoOfFitness 3, chromoOfFitness 5])._replaceGenerational cachedFitness).map
      (fun r => (r.1, r.2._size, r.2._chromosomes.length)) = some (true, 4, 2)
    ∧ ((populationOf 4 true
        [chromoOfFitness 9, chromoOfFitness 8, chromoOfFitness 7, chromoOfFitness 6]
        [chromoOfFitness 3, chromoOfFitness 5])._replaceGenerational cachedFitness).map
      (fun r => (r.1, r.2._size, r.2._chromosomes.length)) = some (true, 4, 2) := by
  decide

/-- C3 (amended): for a population of logical size `S = _size ≥ 0` and every staged
sequence, generational replacement with the sort flag off returns `true` and
makes the staged sequence the live population, which so has as many members
as were staged; with the sort flag on, whenever it returns it returns `true`
and the live population has `min S (number staged)` members. In both cases
the staging sequence is left empty. -/
theorem C3_replaceGenerational_size (getFitness : ga2Chromosome → ℚ) (p : ga2Population)
    (hsize : 0 ≤ p._size) :
    (p._isSorted = false →
      p._replaceGenerational getFitness
        = some (true, { p with _chromosomes := p._nextGen, _nextGen := [] }))
    ∧ (p._isSorted = true → ∀ r, p._replaceGenerational getFitness = some r →
        r.1 = true ∧ r.2._nextGen = []
        ∧ r.2._chromosomes.length = min p._size.toNat p._nextGen.length) := by
  constructor
  · intro hs
    simp [ga2Population._replaceGenerational, hs, generationalLoop_unsorted]
  · intro hs r hr
    unfold ga2Population._replaceGenerational at hr
    cases hloop : generationalLoop getFitness p._isSorted [] p._nextGen with
    | none => rw [hloop] at hr; simp at hr
    | some cs =>
      rw [hloop] at hr
      have hlen := generationalLoop_length getFitness _ _ _ _ hloop
      simp only [hs, if_true, popWhileAbove_eq _ _ _ (Nat.lt_succ_self _), if_pos hsize,
        Option.map_some', Option.some.injEq] at hr
      rw [← hr]
      simp only [List.length_take, List.length_nil, Nat.zero_add] at hlen ⊢
      rw [hlen]
      exact ⟨trivial, trivial, rfl⟩

/-- Witness of C3 (amended): logical size 2, staged fitness values 3, 5, 4. -/
theorem C3_replaceGenerational_size_witness :
    ((populationOf 2 true [] [chromoOfFitness 3, chromoOfFitness 5,
        chromoOfFitness 4])._isSorted = false →
      (populationOf 2 true [] [chromoOfFitness 3, chromoOfFitness 5,
          chromoOfFitness 4])._replaceGenerational cachedFitness
        = some (true, { populationOf 2 true [] [chromoOfFitness 3, chromoOfFitness 5,
            chromoOfFitness 4] with
            _chromosomes := (populationOf 2 true [] [chromoOfFitness 3, chromoOfFitness 5,
              chromoOfFitness 4])._nextGen,
            _nextGen := [] }))
    ∧ ((populationOf 2 true [] [chromoOfFitness 3, chromoOfFitness 5,
        chromoOfFitness 4])._isSorted = true →
      ∀ r, (populationOf 2 true [] [chromoOfFitness 3, chromoOfFitness 5,
          chromoOfFitness 4])._replaceGenerational cachedFitness = some r →
        r.1 = true ∧ r.2._nextGen = []
        ∧ r.2._chromosomes.length
          = min (populationOf 2 true [] [chromoOfFitness 3, chromoOfFitness 5,
              chromoOfFitness 4])._size.toNat
            (populationOf 2 true [] [chromoOfFitness 3, chromoOfFitness 5,
              chromoOfFitness 4])._nextGen.length) :=
  C3_replaceGenerational_size cachedFitness
    (populationOf 2 true [] [chromoOfFitness 3, chromoOfFitness 5, chromoOfFitness 4])
    (by decide)

/-- The sorted generational replacement of the witness of C3 does return: the live
sequence becomes the fitness values 5, 4. -/
theorem replaceGenerational_sorted_example :
    ((populationOf 2 true [] [chromoOfFitness 3, chromoOfFitness 5,
        chromoOfFitness 4])._replaceGenerational cachedFitness).map
      (fun r => r.2._chromosomes.map cachedFitness) = some [5, 4] := by
  decide

/-! ## Selection -/

/-- The walk of `_selectRanked`, started at an index `i` between `0` and
`size - 1` with more tests allowed than positions left, ends at an index
between `i` and `size - 1`. -/
theorem rankedWalk_bounds (size : Int) (wheelPosition : ℚ) (fuel : Nat) (i : Int)
    (partialSum : ℚ) (hi : i ≤ size - 1) (hfuel : (size - 1 - i).toNat < fuel) :
    ∃ j, rankedWalk size wheelPosition fuel i partialSum = some j ∧ i ≤ j ∧ j ≤ size - 1 := by
  induction fuel generalizing i partialSum with
  | zero => omega
  | succ fuel ih =>
    unfold rankedWalk
    by_cases hcond : i ≠ size - 1 ∧ partialSum < wheelPosition
    · rw [if_pos hcond]
      have hne := hcond.1
      obtain ⟨j, hj, hij, hjs⟩ := ih (i + 1) (partialSum + ((i + 1 : Int) : ℚ))
        (by omega) (by omega)
      exact ⟨j, hj, by omega, hjs⟩
    · rw [if_neg hcond]
      exact ⟨i, rfl, le_refl _, hi⟩

/-- C6 (failing input): live fitness values 10, 0, 0, 0, logical size 4, draw
`1/2`. The walk stops at index 0 and `_selectRoulette` returns `_size - 0 = 4`,
while the index named by the specification is 0. -/
theorem C6_selectRoulette_returns_size_minus_index :
    (populationOf 4 false
        [chromoOfFitness 10, chromoOfFitness 0, chromoOfFitness 0, chromoOfFitness 0]
        [])._selectRoulette cachedFitness (1 / 2) = some 4
    ∧ rouletteIndexSpec [10, 0, 0, 0] (1 / 2) = 0 := by
  constructor
  · norm_num [ga2Population._selectRoulette, rouletteSum, rouletteWalk, populationOf,
      cachedFitness, chromoOfFitness]
  · norm_num [rouletteIndexSpec, List.range, List.range.loop, List.find?]

/-- C7 (failing input): live fitness values 3, 1, logical size 2, every draw equal
to `1/4`. `_selectRoulette` returns 2, which is no index of the two live
members, and `select` indexes the live vector with it: out of range. -/
theorem C7_selectRoulette_index_out_of_range :
    (populationOf 2 false [chromoOfFitness 3, chromoOfFitness 1]
        [])._selectRoulette cachedFitness (1 / 4) = some 2
    ∧ ga2Population.select cachedFitness (fun _ => 1 / 4)
        { populationOf 2 false [chromoOfFitness 3, chromoOfFitness 1] [] with
          _replacementSize := 2 } = none := by
  have h2 : Int.toNat 2 = 2 := rfl
  constructor
  · norm_num [ga2Population._selectRoulette, rouletteSum, rouletteWalk, populationOf,
      cachedFitness, chromoOfFitness]
  · norm_num [ga2Population.select, selectLoop, selectPass, ga2Population._selectFunc,
      ga2Population._selectRoulette, rouletteSum, rouletteWalk, populationOf,
      cachedFitness, chromoOfFitness, h2]

/-- C8: for every population size `S = _size ≥ 1` and every draw (in particular
every draw in `[0, 1]`), `_selectRanked` returns, within `S + 1` tests of its
loop condition, an index `i` with `0 ≤ i < S`. -/
theorem C8_selectRanked_in_range (p : ga2Population) (u : ℚ) (hsize : 1 ≤ p._size) :
    ∃ i, p._selectRanked u = some i ∧ 0 ≤ i ∧ i < p._size := by
  obtain ⟨j, hj, h0, hjs⟩ := rankedWalk_bounds p._size (u * rankedSum p._size)
    (p._size.toNat + 1) 0 0 (by omega) (by omega)
  exact ⟨j, hj, h0, by omega⟩

/-- Witness of C8: population size 5, draw `1/2`. -/
theorem C8_selectRanked_in_range_witness :
    ∃ i, (populationOf 5 false [] [])._selectRanked (1 / 2) = some i ∧ 0 ≤ i
      ∧ i < (populationOf 5 false [] [])._size :=
  C8_selectRanked_in_range (populationOf 5 false [] []) (1 / 2) (by decide)

/-- C9 (failing input): population size 2, draw `1/2`, so the draw point is
`1/2 * 3 = 3/2`. Position 0 has cumulative rank weight `2 ≥ 3/2`, so the
specification names position 0; `_selectRanked` adds the loop index (1 for position 1)
instead of the rank weight and returns 1. -/
theorem C9_selectRanked_weights_by_index :
    (populationOf 2 false [] [])._selectRanked (1 / 2) = some 1
    ∧ rankedIndexSpec 2 (1 / 2) = 0
    ∧ rankWeightSpec 2 0 = 2 := by
  refine ⟨?_, ?_, ?_⟩
  · norm_num [ga2Population._selectRanked, rankedSum, rankedWalk, populationOf, List.range,
      List.range.loop]
  · norm_num [rankedIndexSpec, rankWeightSpec, List.range, List.range.loop, List.find?]
  · norm_num [rankWeightSpec, List.range, List.range.loop]

/-! ## Rounding to binary32 -/

theorem roundHalfEven_intCast (n : Int) : roundHalfEven (n : ℚ) = n := by
  simp [roundHalfEven]

theorem roundHalfEven_floor_le (y : ℚ) : ⌊y⌋ ≤ roundHalfEven y := by
  unfold roundHalfEven
  split_ifs <;> omega

theorem roundHalfEven_le_floor_succ (y : ℚ) : roundHalfEven y ≤ ⌊y⌋ + 1 := by
  unfold roundHalfEven
  split_ifs <;> omega

theorem roundHalfEven_mono {y z : ℚ} (h : y ≤ z) : roundHalfEven y ≤ roundHalfEven z := by
  have hfl : ⌊y⌋ ≤ ⌊z⌋ := Int.floor_mono h
  rcases lt_or_eq_of_le hfl with hlt | heq
  · exact le_trans (roundHalfEven_le_floor_succ y) (le_trans hlt (roundHalfEven_floor_le z))
  · unfold roundHalfEven
    rw [heq]
    have hq : y - (⌊z⌋ : ℚ) ≤ z - (⌊z⌋ : ℚ) := by linarith
    split_ifs <;> first | omega | (exfalso; linarith)

theorem roundHalfEven_neg (y : ℚ) : roundHalfEven (-y) = -roundHalfEven y := by
  by_cases hint : (⌊y⌋ : ℚ) = y
  · rw [← hint, ← Int.cast_neg, roundHalfEven_intCast, roundHalfEven_intCast]
  · have hlt : (⌊y⌋ : ℚ) < y := lt_of_le_of_ne (Int.floor_le y) hint
    have hlt2 : y < (⌊y⌋ : ℚ) + 1 := Int.lt_floor_add_one y
    have hfloor : ⌊-y⌋ = -⌊y⌋ - 1 := by
      rw [Int.floor_eq_iff]
      push_cast
      constructor <;> linarith
    unfold roundHalfEven
    rw [hfloor]
    push_cast
    split_ifs <;> first | omega | (exfalso; linarith)

theorem quantumExp_neg (x : ℚ) : quantumExp (-x) = quantumExp x := by
  simp [quantumExp]

theorem roundFloat_neg (x : ℚ) : roundFloat (-x) = -roundFloat x := by
  simp only [roundFloat, quantumExp_neg, neg_div, roundHalfEven_neg, Int.cast_neg, neg_mul]

theorem roundFloat_zero : roundFloat 0 = 0 := by
  simp [roundFloat, roundHalfEven]

theorem two_zpow_pos (q : Int) : (0 : ℚ) < 2 ^ q := zpow_pos (by norm_num) q

theorem roundFloat_nonneg {x : ℚ} (h : 0 ≤ x) : 0 ≤ roundFloat x := by
  have h1 : (0 : ℚ) ≤ x / 2 ^ quantumExp x := div_nonneg h (le_of_lt (two_zpow_pos _))
  have h2 : roundHalfEven 0 ≤ roundHalfEven (x / 2 ^ quantumExp x) := roundHalfEven_mono h1
  have h3 : roundHalfEven 0 = 0 := by simpa using roundHalfEven_intCast 0
  rw [h3] at h2
  exact mul_nonneg (by exact_mod_cast h2) (le_of_lt (two_zpow_pos _))

/-- Rounding at one spacing is monotone. -/
theorem roundAt_mono (q : Int) {x y : ℚ} (h : x ≤ y) :
    (roundHalfEven (x / 2 ^ q) : ℚ) * 2 ^ q ≤ (roundHalfEven (y / 2 ^ q) : ℚ) * 2 ^ q := by
  have h1 : x / 2 ^ q ≤ y / 2 ^ q := div_le_div_of_nonneg_right h (le_of_lt (two_zpow_pos q))
  have h2 := roundHalfEven_mono h1
  exact mul_le_mul_of_nonneg_right (by exact_mod_cast h2) (le_of_lt (two_zpow_pos q))

/-- A power of two that is a multiple of the spacing is its own rounding at that
spacing. -/
theorem roundAt_zpow (q e : Int) (h : q ≤ e) :
    (roundHalfEven ((2 : ℚ) ^ e / 2 ^ q) : ℚ) * 2 ^ q = 2 ^ e := by
  have h1 : (2 : ℚ) ^ e / 2 ^ q = (((2 : Int) ^ (e - q).toNat : Int) : ℚ) := by
    rw [← zpow_sub₀ (by norm_num : (2 : ℚ) ≠ 0)]
    push_cast
    rw [← zpow_natCast]
    congr 1
    omega
  rw [h1, roundHalfEven_intCast, ← h1, div_mul_cancel₀]
  exact ne_of_gt (two_zpow_pos q)

theorem quantumExp_mono {x y : ℚ} (hx : 0 < x) (h : x ≤ y) : quantumExp x ≤ quantumExp y := by
  have hy : 0 < y := lt_of_lt_of_le hx h
  have := Int.log_mono_right (b := 2) hx h
  simp only [quantumExp, abs_of_pos hx, abs_of_pos hy]
  omega

theorem roundFloat_mono_pos {x y : ℚ} (hx : 0 < x) (h : x ≤ y) :
    roundFloat x ≤ roundFloat y := by
  have hy : 0 < y := lt_of_lt_of_le hx h
  have hq := quantumExp_mono hx h
  rcases lt_or_eq_of_le hq with hlt | heq
  · have hqy : quantumExp y = Int.log 2 y - 23 := by
      simp only [quantumExp, abs_of_pos hy] at hlt ⊢
      simp only [quantumExp, abs_of_pos hx] at hlt
      omega
    have hqx : Int.log 2 x - 23 ≤ quantumExp x := by
      simp only [quantumExp, abs_of_pos hx]
      omega
    have hxlt : x < 2 ^ (Int.log 2 x + 1) := Int.lt_zpow_succ_log_self (by norm_num) x
    have hyge : (2 : ℚ) ^ Int.log 2 y ≤ y := by
      have := Int.zpow_log_le_self (b := 2) (by norm_num) hy
      simpa using this
    have hxlt' : x < (2 : ℚ) ^ (Int.log 2 x + 1) := by simpa using hxlt
    have hxle : x ≤ (2 : ℚ) ^ Int.log 2 y :=
      le_trans (le_of_lt hxlt') (zpow_le_zpow_right₀ (by norm_num) (by omega))
    calc roundFloat x
        ≤ (roundHalfEven ((2 : ℚ) ^ Int.log 2 y / 2 ^ quantumExp x) : ℚ) * 2 ^ quantumExp x :=
          roundAt_mono _ hxle
      _ = 2 ^ Int.log 2 y := roundAt_zpow _ _ (by omega)
      _ = (roundHalfEven ((2 : ℚ) ^ Int.log 2 y / 2 ^ quantumExp y) : ℚ) * 2 ^ quantumExp y :=
          (roundAt_zpow _ _ (by omega)).symm
      _ ≤ roundFloat y := roundAt_mono _ hyge
  · unfold roundFloat
    rw [heq]
    exact roundAt_mono _ h

/-- Rounding to binary32 is monotone. -/
theorem roundFloat_mono {x y : ℚ} (h : x ≤ y) : roundFloat x ≤ roundFloat y := by
  rcases lt_or_le 0 x with hx | hx
  · exact roundFloat_mono_pos hx h
  · have hxn : roundFloat x ≤ 0 := by
      have := roundFloat_nonneg (neg_nonneg.mpr hx)
      rw [roundFloat_neg] at this
      linarith
    rcases le_or_lt 0 y with hy | hy
    · exact le_trans hxn (roundFloat_nonneg hy)
    · have := roundFloat_mono_pos (neg_pos.mpr hy) (neg_le_neg h)
      rw [roundFloat_neg, roundFloat_neg] at this
      linarith

/-- A multiple `m * 2^k` of a spacing `2^k ≥ 2^-149` with fewer than 24 bits in `m`
is a binary32 value: rounding leaves it alone. -/
theorem roundFloat_eq_self (m k : Int) (hm : |m| < 2 ^ 24) (hk : -149 ≤ k) :
    roundFloat ((m : ℚ) * 2 ^ k) = (m : ℚ) * 2 ^ k := by
  by_cases hm0 : m = 0
  · subst hm0
    simp [roundFloat_zero]
  have hpos : (0 : ℚ) < |(m : ℚ) * 2 ^ k| := by
    apply abs_pos.mpr
    exact mul_ne_zero (by exact_mod_cast hm0) (ne_of_gt (two_zpow_pos k))
  have hlt : |(m : ℚ) * 2 ^ k| < (2 : ℚ) ^ (24 + k) := by
    rw [abs_mul, abs_of_pos (two_zpow_pos k), zpow_add₀ (by norm_num : (2 : ℚ) ≠ 0)]
    apply mul_lt_mul_of_pos_right _ (two_zpow_pos k)
    exact_mod_cast hm
  have hlog : Int.log 2 |(m : ℚ) * 2 ^ k| < 24 + k := by
    have := (Int.lt_zpow_iff_log_lt (b := 2) (by norm_num) hpos).mp (by simpa using hlt)
    exact this
  have hq : quantumExp ((m : ℚ) * 2 ^ k) ≤ k := by
    simp only [quantumExp]
    omega
  have h1 : (m : ℚ) * 2 ^ k / 2 ^ quantumExp ((m : ℚ) * 2 ^ k)
      = ((m * (2 : Int) ^ (k - quantumExp ((m : ℚ) * 2 ^ k)).toNat : Int) : ℚ) := by
    rw [mul_div_assoc, ← zpow_sub₀ (by norm_num : (2 : ℚ) ≠ 0)]
    push_cast
    rw [← zpow_natCast]
    congr 2
    omega
  unfold roundFloat
  rw [h1, roundHalfEven_intCast, ← h1, div_mul_cancel₀]
  exact ne_of_gt (two_zpow_pos _)

/-- The rounding of a value of the binade `2^e ≤ |x| < 2^(e+1)`. -/
theorem roundFloat_of_binade (x : ℚ) (e : Int) (h1 : (2 : ℚ) ^ e ≤ |x|)
    (h2 : |x| < (2 : ℚ) ^ (e + 1)) :
    roundFloat x = (roundHalfEven (x / 2 ^ max (e - 23) (-149)) : ℚ) * 2 ^ max (e - 23) (-149) := by
  have hpos : (0 : ℚ) < |x| := lt_of_lt_of_le (two_zpow_pos e) h1
  have hlog : Int.log 2 |x| = e := by
    have ha := (Int.zpow_le_iff_le_log (b := 2) (by norm_num) hpos).mp (by simpa using h1)
    have hb := (Int.lt_zpow_iff_log_lt (b := 2) (by norm_num) hpos).mp (by simpa using h2)
    omega
  simp only [roundFloat, quantumExp, hlog]

/-- A multiple `m * 2^k` of a spacing with fewer than 24 bits in `m` and
`-149 ≤ k ≤ 104` is a finite binary32 value. -/
theorem floatOf_exact (m k : Int) (hm : |m| < 2 ^ 24) (hk : -149 ≤ k) (hk2 : k ≤ 104) :
    floatOf ((m : ℚ) * 2 ^ k) = some ((m : ℚ) * 2 ^ k) := by
  have hlt : |(m : ℚ) * 2 ^ k| < 2 ^ 128 := by
    rw [abs_mul, abs_of_pos (two_zpow_pos k)]
    have h1 : |(m : ℚ)| < 2 ^ 24 := by exact_mod_cast hm
    have h2 : (2 : ℚ) ^ k ≤ 2 ^ (104 : Int) := zpow_le_zpow_right₀ (by norm_num) hk2
    calc |(m : ℚ)| * 2 ^ k ≤ |(m : ℚ)| * 2 ^ (104 : Int) :=
          mul_le_mul_of_nonneg_left h2 (abs_nonneg _)
      _ < 2 ^ 24 * 2 ^ (104 : Int) := mul_lt_mul_of_pos_right h1 (two_zpow_pos _)
      _ = 2 ^ 128 := by norm_num
  unfold floatOf
  rw [roundFloat_eq_self m k hm hk, if_pos hlt]

theorem floatOf_zero : floatOf 0 = some 0 := by
  have := floatOf_exact 0 0 (by decide) (by decide) (by decide)
  simpa using this

/-- The result of an operation is finite when its exact result lies between two
finite binary32 values. -/
theorem floatOf_of_between {x lo hi : ℚ} (hlo : roundFloat lo = lo) (hhi : roundFloat hi = hi)
    (hlo2 : -(2 ^ 128) < lo) (hhi2 : hi < 2 ^ 128) (h1 : lo ≤ x) (h2 : x ≤ hi) :
    floatOf x = some (roundFloat x) ∧ lo ≤ roundFloat x ∧ roundFloat x ≤ hi := by
  have ha : lo ≤ roundFloat x := by
    have := roundFloat_mono h1
    rwa [hlo] at this
  have hb : roundFloat x ≤ hi := by
    have := roundFloat_mono h2
    rwa [hhi] at this
  have hlt : |roundFloat x| < 2 ^ 128 := abs_lt.mpr ⟨by linarith, by linarith⟩
  exact ⟨by unfold floatOf; rw [if_pos hlt], ha, hb⟩

/-- A whole number of magnitude below `2^24` is a binary32 value. -/
theorem roundFloat_intCast (n : Int) (h : |n| < 2 ^ 24) : roundFloat (n : ℚ) = (n : ℚ) := by
  have := roundFloat_eq_self n 0 h (by decide)
  simpa using this

/-- The rounding on some values: `1/10` and `1/3` go to the nearest binary32
values, `2^24 + 1` lies midway between two of them and goes to the even one,
`2^24 + 3` goes up to `2^24 + 4`, and the smallest subnormal value is kept. -/
theorem roundFloat_examples :
    roundFloat (1 / 10) = 13421773 / 134217728
    ∧ roundFloat (1 / 3) = 11184811 / 33554432
    ∧ roundFloat 16777217 = 16777216
    ∧ roundFloat 16777219 = 16777220
    ∧ roundFloat (1 / 2 ^ 149) = 1 / 2 ^ 149
    ∧ roundFloat (1 / 2 ^ 150) = 0 := by
  refine ⟨?_, ?_, ?_, ?_, ?_, ?_⟩
  · rw [roundFloat_of_binade _ (-4) (by norm_num [abs_of_pos]) (by norm_num [abs_of_pos])]
    norm_num [roundHalfEven]
  · rw [roundFloat_of_binade _ (-2) (by norm_num [abs_of_pos]) (by norm_num [abs_of_pos])]
    norm_num [roundHalfEven]
  · rw [roundFloat_of_binade _ 24 (by norm_num [abs_of_pos]) (by norm_num [abs_of_pos])]
    norm_num [roundHalfEven]
  · rw [roundFloat_of_binade _ 24 (by norm_num [abs_of_pos]) (by norm_num [abs_of_pos])]
    norm_num [roundHalfEven]
  · rw [roundFloat_of_binade _ (-149) (by norm_num [abs_of_pos]) (by norm_num [abs_of_pos])]
    norm_num [roundHalfEven]
  · rw [roundFloat_of_binade _ (-150) (by norm_num [abs_of_pos]) (by norm_num [abs_of_pos])]
    norm_num [roundHalfEven]

theorem grabSlice_head_genes (c : ga2Chromosome) (k : Nat) :
    (c.grabSlice 0 (k : Int))._genes = c._genes.take k := by
  simp [ga2Chromosome.grabSlice]

theorem grabSlice_tail_genes (c : ga2Chromosome) (k N : Nat) (hlen : c._genes.length = N) :
    (c.grabSlice (k : Int) (N : Int))._genes = c._genes.drop k := by
  simp only [ga2Chromosome.grabSlice, Int.toNat_ofNat]
  apply List.take_of_length_le
  simp only [List.length_drop]
  omega

/-- The cut position of line 247 for a chromosome length `N < 2^24` and a draw in
`[0, 1]`: the product is finite and its conversion to `int` is a position
between `0` and `N`. -/
theorem onePointCut_range (N : Nat) (u : ℚ) (hN : N < 2 ^ 24) (hu0 : 0 ≤ u) (hu1 : u ≤ 1) :
    ∃ c : Nat, c ≤ N
      ∧ (floatOf (u * roundFloat ((N : Int) : ℚ))).bind floatToInt = some (c : Int) := by
  have hNfl : roundFloat ((N : Int) : ℚ) = ((N : Int) : ℚ) :=
    roundFloat_intCast (N : Int) (by rw [abs_of_nonneg (by omega)]; exact_mod_cast hN)
  have hN0 : (0 : ℚ) ≤ ((N : Int) : ℚ) := by exact_mod_cast Nat.zero_le N
  have hNlt : ((N : Int) : ℚ) < 2 ^ 128 := by
    have h1 : ((N : Int) : ℚ) < 2 ^ 24 := by exact_mod_cast hN
    exact lt_trans h1 (by norm_num)
  obtain ⟨hsome, hlo, hhi⟩ := floatOf_of_between roundFloat_zero hNfl (by norm_num) hNlt
    (mul_nonneg hu0 hN0) (by nlinarith : u * ((N : Int) : ℚ) ≤ ((N : Int) : ℚ))
  have hfl0 : (0 : Int) ≤ ⌊roundFloat (u * ((N : Int) : ℚ))⌋ := Int.floor_nonneg.mpr hlo
  have hflN : ⌊roundFloat (u * ((N : Int) : ℚ))⌋ ≤ (N : Int) := by
    have := Int.floor_mono hhi
    rwa [Int.floor_intCast] at this
  have htrunc : truncToInt (roundFloat (u * ((N : Int) : ℚ)))
      = ⌊roundFloat (u * ((N : Int) : ℚ))⌋ := by
    simp only [truncToInt, if_pos hlo]
  have hN31 : (N : Int) ≤ 2147483647 := by
    have : N < 16777216 := by simpa using hN
    omega
  refine ⟨⌊roundFloat (u * ((N : Int) : ℚ))⌋.toNat, by omega, ?_⟩
  rw [hNfl, hsome, Option.some_bind, floatToInt, htrunc,
    if_pos ⟨by omega, by omega⟩, Int.toNat_of_nonneg hfl0]

/-- The offspring assembled by lines 247-257, for parents `a`, `b` of length
`N = _chromoSize < 2^24` and a draw in `[0, 1]`: with the cut position `c`,
which lies between `0` and `N`, `aNew` is `tail(b) ++ head(a)` and `bNew` is
`tail(a) ++ head(b)` (`head(x) = x[0..c)`, `tail(x) = x[c..N)`); both have `N`
genes. -/
theorem onePointOffspring_genes (p : ga2Population) (u : ℚ) (a b : ga2Chromosome) (N : Nat)
    (hN : p._chromoSize = (N : Int)) (hsmall : N < 2 ^ 24) (ha : a._genes.length = N)
    (hb : b._genes.length = N) (hu0 : 0 ≤ u) (hu1 : u ≤ 1) :
    ∃ (c : Nat) (aNew bNew : ga2Chromosome), c ≤ N
      ∧ onePointOffspring p u a b = some ((c : Int), aNew, bNew)
      ∧ aNew._genes = b._genes.drop c ++ a._genes.take c
      ∧ bNew._genes = a._genes.drop c ++ b._genes.take c
      ∧ aNew._genes.length = N ∧ bNew._genes.length = N := by
  obtain ⟨c, hc, hcut⟩ := onePointCut_range N u hsmall hu0 hu1
  have hcut2 : ∃ coPoint, floatOf (u * roundFloat ((N : Int) : ℚ)) = some coPoint
      ∧ floatToInt coPoint = some (c : Int) := by
    cases hco : floatOf (u * roundFloat ((N : Int) : ℚ)) with
    | none => rw [hco] at hcut; simp at hcut
    | some coPoint => rw [hco] at hcut; exact ⟨coPoint, rfl, by simpa using hcut⟩
  obtain ⟨coPoint, hco, hint⟩ := hcut2
  have hA : ((b.grabSlice (c : Int) (N : Int)).concat (a.grabSlice 0 (c : Int)))._genes
      = b._genes.drop c ++ a._genes.take c := by
    simp [ga2Chromosome.concat, grabSlice_head_genes, grabSlice_tail_genes _ _ _ hb]
  have hB : ((a.grabSlice (c : Int) (N : Int)).concat (b.grabSlice 0 (c : Int)))._genes
      = a._genes.drop c ++ b._genes.take c := by
    simp [ga2Chromosome.concat, grabSlice_head_genes, grabSlice_tail_genes _ _ _ ha]
  refine ⟨c, (b.grabSlice (c : Int) (N : Int)).concat (a.grabSlice 0 (c : Int)),
    (a.grabSlice (c : Int) (N : Int)).concat (b.grabSlice 0 (c : Int)), hc, ?_, hA, hB, ?_, ?_⟩
  · simp only [onePointOffspring, hN, hco, Option.some_bind, hint, Option.map_some']
  · rw [hA, List.length_append, List.length_drop, List.length_take]
    omega
  · rw [hB, List.length_append, List.length_drop, List.length_take]
    omega

/-- The call of `_crossoverOnePoint` is undefined whatever its arguments: it does
not get past the releases of lines 262-263. -/
theorem onePointCall_undefined (p : ga2Population) (u : ℚ) (a b : ga2Chromosome) :
    p._crossoverOnePoint u a b = none := by
  unfold ga2Population._crossoverOnePoint
  cases onePointOffspring p u a b with
  | none => rfl
  | some off => rfl

/-- C10 (failing input): chromosome length 4, parents `[1, 2, 3, 4]` and
`[5, 6, 7, 8]` staged as `_nextGen[0]` and `_nextGen[1]`, crossover rate 1,
draw `1/2` (cut position 2). Lines 247-257 assemble the offspring
`[7, 8, 1, 2] = tail(b) ++ head(a)` and `[3, 4, 5, 6] = tail(a) ++ head(b)` that
the contract names, but the releases `delete(&a); delete(&b);` of lines 262-263
are undefined, so neither the call nor the crossover phase hands them over:
the pair is not replaced. -/
theorem C10_crossoverOnePoint_undefined :
    (onePointOffspring { populationOf 2 false [] [] with _chromoSize := 4 } (1 / 2)
        (chromoOfGenes [1, 2, 3, 4] 7) (chromoOfGenes [5, 6, 7, 8] 9)).map
      (fun off => (off.1, off.2.1._genes, off.2.2._genes))
      = some (2, [7, 8, 1, 2], [3, 4, 5, 6])
    ∧ ga2Population._crossoverOnePoint { populationOf 2 false [] [] with _chromoSize := 4 }
        (1 / 2) (chromoOfGenes [1, 2, 3, 4] 7) (chromoOfGenes [5, 6, 7, 8] 9) = none
    ∧ ga2Population.crossover (fun _ => 1 / 2) 0
        { populationOf 2 false []
            [chromoOfGenes [1, 2, 3, 4] 7, chromoOfGenes [5, 6, 7, 8] 9] with
          _chromoSize := 4, _replacementSize := 2, _crossoverRate := 1 } = none := by
  have h4 : roundFloat 4 = 4 := by
    have := roundFloat_intCast 4 (by decide)
    simpa using this
  have h2 : floatOf 2 = some 2 := by
    have := floatOf_exact 2 0 (by decide) (by decide) (by decide)
    simpa using this
  have ht2 : Int.toNat 2 = 2 := rfl
  have ht4 : Int.toNat 4 = 4 := rfl
  have ht42 : Int.toNat (4 - 2) = 2 := rfl
  have ht20 : Int.toNat (2 - 0) = 2 := rfl
  have hr : ((2 + 1 : Int) / 2).toNat = 1 := by decide
  refine ⟨?_, onePointCall_undefined _ _ _ _, ?_⟩
  · norm_num [onePointOffspring, populationOf, chromoOfGenes, h4, h2, floatToInt, truncToInt,
      ga2Chromosome.grabSlice, ga2Chromosome.concat, ht2, ht4, ht42, ht20]
  · norm_num [ga2Population.crossover, crossoverLoop, ga2Population._crossoverFunc,
      onePointCall_undefined, populationOf, hr]
/-! ## Uniform crossover -/

theorem grabSlice_one_genes (c : ga2Chromosome) (i : Nat) (h : i < c._genes.length) :
    (c.grabSlice (i : Int) ((i : Int) + 1))._genes = [c._genes[i]] := by
  have h1 : ((i : Int) + 1 - (i : Int)).toNat = 1 := by omega
  simp only [ga2Chromosome.grabSlice, Int.toNat_ofNat, h1]
  exact List.take_one_drop_eq_of_lt_length h

theorem concat_grabSlice_getElem? (c x : ga2Chromosome) (i : Nat)
    (hc : c._genes.length = i) (hx : i < x._genes.length) :
    (∀ j, j < i →
      (c.concat (x.grabSlice (i : Int) ((i : Int) + 1)))._genes[j]? = c._genes[j]?)
    ∧ (c.concat (x.grabSlice (i : Int) ((i : Int) + 1)))._genes[i]? = x._genes[i]?
    ∧ (c.concat (x.grabSlice (i : Int) ((i : Int) + 1)))._genes.length = i + 1 := by
  simp only [ga2Chromosome.concat, grabSlice_one_genes x i hx]
  refine ⟨fun j hj => ?_, ?_, ?_⟩
  · exact List.getElem?_append_left (by omega)
  · rw [List.getElem?_append_right (by omega), hc]
    simp [List.getElem?_eq_getElem hx]
  · simp [hc]

/-- The loop of `_crossoverUniform` keeps the genes already placed and takes the
gene of every later position from `a` and `b` as the draw of that position
says. -/
theorem crossoverUniformLoop_genes (coins : Nat → ℚ) (a b : ga2Chromosome) (N : Nat)
    (ha : a._genes.length = N) (hb : b._genes.length = N) :
    ∀ (n i : Nat) (c d : ga2Chromosome), i + n = N → c._genes.length = i →
      d._genes.length = i →
      (crossoverUniformLoop coins a b n i c d).1._genes.length = N
      ∧ (crossoverUniformLoop coins a b n i c d).2._genes.length = N
      ∧ (∀ j, j < i →
          (crossoverUniformLoop coins a b n i c d).1._genes[j]? = c._genes[j]?
          ∧ (crossoverUniformLoop coins a b n i c d).2._genes[j]? = d._genes[j]?)
      ∧ (∀ j, i ≤ j → j < N →
          (uniformFlip (coins j) ≠ 0 →
            (crossoverUniformLoop coins a b n i c d).1._genes[j]? = a._genes[j]?
            ∧ (crossoverUniformLoop coins a b n i c d).2._genes[j]? = b._genes[j]?)
          ∧ (uniformFlip (coins j) = 0 →
            (crossoverUniformLoop coins a b n i c d).1._genes[j]? = b._genes[j]?
            ∧ (crossoverUniformLoop coins a b n i c d).2._genes[j]? = a._genes[j]?)) := by
  intro n
  induction n with
  | zero =>
    intro i c d hin hc hd
    simp only [crossoverUniformLoop]
    refine ⟨by omega, by omega, fun j _ => ⟨trivial, trivial⟩, fun j h1 h2 => by omega⟩
  | succ n ih =>
    intro i c d hin hc hd
    have hia : i < a._genes.length := by omega
    have hib : i < b._genes.length := by omega
    obtain ⟨hca1, hca2, hca3⟩ := concat_grabSlice_getElem? c a i hc hia
    obtain ⟨hcb1, hcb2, hcb3⟩ := concat_grabSlice_getElem? c b i hc hib
    obtain ⟨hda1, hda2, hda3⟩ := concat_grabSlice_getElem? d a i hd hia
    obtain ⟨hdb1, hdb2, hdb3⟩ := concat_grabSlice_getElem? d b i hd hib
    simp only [crossoverUniformLoop]
    by_cases hflip : uniformFlip (coins i) ≠ 0
    · rw [if_pos hflip]
      obtain ⟨h1, h2, h3, h4⟩ := ih (i + 1) _ _ (by omega) hca3 hdb3
      refine ⟨h1, h2, fun j hj => ?_, fun j hij hjN => ?_⟩
      · obtain ⟨e1, e2⟩ := h3 j (by omega)
        exact ⟨e1.trans (hca1 j hj), e2.trans (hdb1 j hj)⟩
      · by_cases hji : j = i
        · subst hji
          obtain ⟨e1, e2⟩ := h3 j (by omega)
          exact ⟨fun _ => ⟨e1.trans hca2, e2.trans hdb2⟩,
            fun h0 => absurd h0 hflip⟩
        · exact h4 j (by omega) hjN
    · rw [if_neg hflip]
      obtain ⟨h1, h2, h3, h4⟩ := ih (i + 1) _ _ (by omega) hcb3 hda3
      refine ⟨h1, h2, fun j hj => ?_, fun j hij hjN => ?_⟩
      · obtain ⟨e1, e2⟩ := h3 j (by omega)
        exact ⟨e1.trans (hcb1 j hj), e2.trans (hda1 j hj)⟩
      · by_cases hji : j = i
        · subst hji
          obtain ⟨e1, e2⟩ := h3 j (by omega)
          exact ⟨fun h0 => absurd h0 hflip,
            fun _ => ⟨e1.trans hcb2, e2.trans hda2⟩⟩
        · exact h4 j (by omega) hjN

/-- C11: for parents `a`, `b` of length `N = _chromoSize ≥ 1` and every sequence of
draws, `_crossoverUniform` returns `true` and replaces `a`, `b` by offspring of
exactly `N` genes; at every position `i` the offspring genes are
`(a[i], b[i])` when the draw of position `i` gives a non-zero `flip`, and
`(b[i], a[i])` when it gives `flip = 0`; both offspring carry the parent
identifiers (first parent of `a`, first parent of `b`). -/
theorem C11_crossoverUniform (p : ga2Population) (coins : Nat → ℚ) (a b : ga2Chromosome)
    (N : Nat) (hN1 : 1 ≤ N) (hN : p._chromoSize = (N : Int)) (ha : a._genes.length = N)
    (hb : b._genes.length = N) :
    (p._crossoverUniform coins a b).1 = true
    ∧ (p._crossoverUniform coins a b).2.1._genes.length = N
    ∧ (p._crossoverUniform coins a b).2.2._genes.length = N
    ∧ (∀ i, i < N →
        (uniformFlip (coins i) ≠ 0 →
          (p._crossoverUniform coins a b).2.1._genes[i]? = a._genes[i]?
          ∧ (p._crossoverUniform coins a b).2.2._genes[i]? = b._genes[i]?)
        ∧ (uniformFlip (coins i) = 0 →
          (p._crossoverUniform coins a b).2.1._genes[i]? = b._genes[i]?
          ∧ (p._crossoverUniform coins a b).2.2._genes[i]? = a._genes[i]?))
    ∧ (p._crossoverUniform coins a b).2.1._parent0 = a._parent0
    ∧ (p._crossoverUniform coins a b).2.1._parent1 = b._parent0
    ∧ (p._crossoverUniform coins a b).2.2._parent0 = a._parent0
    ∧ (p._crossoverUniform coins a b).2.2._parent1 = b._parent0 := by
  have h0a : 0 < a._genes.length := by omega
  have h0b : 0 < b._genes.length := by omega
  have ga : (a.grabSlice 0 1)._genes = [a._genes[0]] := by
    have := grabSlice_one_genes a 0 h0a
    simpa using this
  have gb : (b.grabSlice 0 1)._genes = [b._genes[0]] := by
    have := grabSlice_one_genes b 0 h0b
    simpa using this
  have hn : 1 + (p._chromoSize - 1).toNat = N := by omega
  have hgenes : ∀ x : ga2Chromosome, ∀ s q r : Int,
      (((x.setCrossSite s).setParent 0 q).setParent 1 r)._genes = x._genes := by
    intro x s q r
    simp [ga2Chromosome.setParent, ga2Chromosome.setCrossSite]
  by_cases hflip : uniformFlip (coins 0) ≠ 0
  · obtain ⟨h1, h2, h3, h4⟩ := crossoverUniformLoop_genes coins a b N ha hb
      (p._chromoSize - 1).toNat 1 (a.grabSlice 0 1) (b.grabSlice 0 1) hn
      (by rw [ga]; rfl) (by rw [gb]; rfl)
    simp only [ga2Population._crossoverUniform, if_pos hflip, hgenes]
    refine ⟨trivial, h1, h2, fun i hi => ?_, ?_, ?_, ?_, ?_⟩
    · by_cases hi0 : i = 0
      · subst hi0
        obtain ⟨e1, e2⟩ := h3 0 (by omega)
        refine ⟨fun _ => ⟨?_, ?_⟩, fun hz => absurd hz hflip⟩
        · rw [e1, ga, List.getElem?_eq_getElem h0a]; rfl
        · rw [e2, gb, List.getElem?_eq_getElem h0b]; rfl
      · exact h4 i (by omega) hi
    all_goals simp [ga2Chromosome.setParent, ga2Chromosome.setCrossSite,
      ga2Chromosome.getParent]
  · obtain ⟨h1, h2, h3, h4⟩ := crossoverUniformLoop_genes coins a b N ha hb
      (p._chromoSize - 1).toNat 1 (b.grabSlice 0 1) (a.grabSlice 0 1) hn
      (by rw [gb]; rfl) (by rw [ga]; rfl)
    simp only [ga2Population._crossoverUniform, if_neg hflip, hgenes]
    refine ⟨trivial, h1, h2, fun i hi => ?_, ?_, ?_, ?_, ?_⟩
    · by_cases hi0 : i = 0
      · subst hi0
        obtain ⟨e1, e2⟩ := h3 0 (by omega)
        refine ⟨fun hz => absurd hz hflip, fun _ => ⟨?_, ?_⟩⟩
        · rw [e1, gb, List.getElem?_eq_getElem h0b]; rfl
        · rw [e2, ga, List.getElem?_eq_getElem h0a]; rfl
      · exact h4 i (by omega) hi
    all_goals simp [ga2Chromosome.setParent, ga2Chromosome.setCrossSite,
      ga2Chromosome.getParent]

/-- Witness of C11: chromosome length 4, draws `3/4, 1/4, 3/4, 1/4` (flip values
1, 0, 1, 0), parents `[1, 2, 3, 4]` (first parent 7) and `[5, 6, 7, 8]` (first
parent 9). -/
theorem C11_crossoverUniform_witness :
    (ga2Population._crossoverUniform { populationOf 2 false [] [] with _chromoSize := 4 }
        (fun i => if i % 2 = 0 then 3 / 4 else 1 / 4)
        (chromoOfGenes [1, 2, 3, 4] 7) (chromoOfGenes [5, 6, 7, 8] 9)).2.1._genes.length = 4
    ∧ (ga2Population._crossoverUniform { populationOf 2 false [] [] with _chromoSize := 4 }
        (fun i => if i % 2 = 0 then 3 / 4 else 1 / 4)
        (chromoOfGenes [1, 2, 3, 4] 7) (chromoOfGenes [5, 6, 7, 8] 9)).2.1._genes[1]?
      = some 6
    ∧ (ga2Population._crossoverUniform { populationOf 2 false [] [] with _chromoSize := 4 }
        (fun i => if i % 2 = 0 then 3 / 4 else 1 / 4)
        (chromoOfGenes [1, 2, 3, 4] 7) (chromoOfGenes [5, 6, 7, 8] 9)).2.2._genes[1]?
      = some 2
    ∧ (ga2Population._crossoverUniform { populationOf 2 false [] [] with _chromoSize := 4 }
        (fun i => if i % 2 = 0 then 3 / 4 else 1 / 4)
        (chromoOfGenes [1, 2, 3, 4] 7) (chromoOfGenes [5, 6, 7, 8] 9)).2.2._parent1
      = 9 :=
  have h := C11_crossoverUniform { populationOf 2 false [] [] with _chromoSize := 4 }
    (fun i => if i % 2 = 0 then 3 / 4 else 1 / 4)
    (chromoOfGenes [1, 2, 3, 4] 7) (chromoOfGenes [5, 6, 7, 8] 9) 4 (by decide) rfl rfl rfl
  have hflip : uniformFlip ((fun i : Nat => if i % 2 = 0 then (3 / 4 : ℚ) else 1 / 4) 1) = 0 := by
    norm_num [uniformFlip, truncToInt]
  have h1 := (h.2.2.2.1 1 (by decide)).2 hflip
  ⟨h.2.1, h1.1, h1.2, h.2.2.2.2.2.2.2⟩

/-! ## Crossover phase -/

theorem crossoverFunc_of_gate_closed (p : ga2Population) (draws : Nat → ℚ) (k : Nat)
    (a b : ga2Chromosome) (h : p._crossoverRate ≠ 1 ∧ draws k > p._crossoverRate) :
    p._crossoverFunc draws k a b
      = some { applied := false, a := a, b := b, crossCount := p._crossCount,
               next := k + 1 } := by
  unfold ga2Population._crossoverFunc
  rw [if_pos h]

/-- With uniform crossover, a call of `_crossoverFunc` whose gate is open hands
back the offspring of `_crossoverUniform` and adds one to the counter. -/
theorem crossoverFunc_of_gate_open_uniform (p : ga2Population) (draws : Nat → ℚ) (k : Nat)
    (a b : ga2Chromosome) (htype : p._crossoverType = ga2CrossoverType.GA2_CROSSOVER_UNIFORM)
    (h : ¬ (p._crossoverRate ≠ 1 ∧ draws k > p._crossoverRate)) :
    p._crossoverFunc draws k a b
      = some { applied := true,
               a := (p._crossoverUniform
                 (fun i => draws ((if p._crossoverRate ≠ 1 then k + 1 else k) + i)) a b).2.1,
               b := (p._crossoverUniform
                 (fun i => draws ((if p._crossoverRate ≠ 1 then k + 1 else k) + i)) a b).2.2,
               crossCount := p._crossCount + 1,
               next := (if p._crossoverRate ≠ 1 then k + 1 else k)
                 + uniformDraws p._chromoSize } := by
  unfold ga2Population._crossoverFunc
  rw [if_neg h, htype]
  rfl

/-- With one-point crossover, a call of `_crossoverFunc` whose gate is open is
undefined. -/
theorem crossoverFunc_of_gate_open_onePoint (p : ga2Population) (draws : Nat → ℚ) (k : Nat)
    (a b : ga2Chromosome)
    (htype : p._crossoverType = ga2CrossoverType.GA2_CROSSOVER_ONEPOINT)
    (h : ¬ (p._crossoverRate ≠ 1 ∧ draws k > p._crossoverRate)) :
    p._crossoverFunc draws k a b = none := by
  unfold ga2Population._crossoverFunc
  rw [if_neg h, htype]
  simp only [onePointCall_undefined, Option.map_none']

/-- One call of `_crossoverFunc` that returns: it returns `true` exactly when the
rate is 1 or the gating draw is at most the rate; with `false` the pair and the
counter are unchanged; with `true` the counter has grown by one. -/
theorem crossoverFunc_gate (p : ga2Population) (draws : Nat → ℚ) (k : Nat)
    (a b : ga2Chromosome) (r : CrossoverOutcome) (hr : p._crossoverFunc draws k a b = some r) :
    (r.applied = true ↔ (p._crossoverRate = 1 ∨ draws k ≤ p._crossoverRate))
    ∧ (r.applied = false → r.a = a ∧ r.b = b ∧ r.crossCount = p._crossCount)
    ∧ (r.applied = true → r.crossCount = p._crossCount + 1) := by
  by_cases h : p._crossoverRate ≠ 1 ∧ draws k > p._crossoverRate
  · rw [crossoverFunc_of_gate_closed p draws k a b h, Option.some.injEq] at hr
    subst hr
    refine ⟨⟨fun hf => absurd hf (by simp), fun hor => ?_⟩, fun _ => ⟨rfl, rfl, rfl⟩,
      fun hf => absurd hf (by simp)⟩
    rcases hor with h1 | h2
    · exact absurd h1 h.1
    · exact absurd h.2 (not_lt.mpr h2)
  · have hopen : p._crossoverRate = 1 ∨ draws k ≤ p._crossoverRate := by
      by_cases hrate : p._crossoverRate = 1
      · exact Or.inl hrate
      · exact Or.inr (not_lt.mp (fun hlt => h ⟨hrate, hlt⟩))
    cases htype : p._crossoverType with
    | GA2_CROSSOVER_ONEPOINT =>
      rw [crossoverFunc_of_gate_open_onePoint p draws k a b htype h] at hr
      simp at hr
    | GA2_CROSSOVER_UNIFORM =>
      rw [crossoverFunc_of_gate_open_uniform p draws k a b htype h, Option.some.injEq] at hr
      subst hr
      exact ⟨⟨fun _ => hopen, fun _ => rfl⟩, fun hf => absurd hf (by simp), fun _ => rfl⟩

/-- Whenever the loop of `crossover` runs through, it has added to the counter the
number of calls of `_crossoverFunc` that returned `true`. -/
theorem crossoverLoop_count (draws : Nat → ℚ) :
    ∀ (n i k : Nat) (p : ga2Population) (ph : CrossoverPhase),
      crossoverLoop draws n i k p = some ph →
        ph.flags.length = n
        ∧ ph.population._crossCount = p._crossCount + (ph.flags.count true : Int) := by
  intro n
  induction n with
  | zero =>
    intro i k p ph hph
    simp only [crossoverLoop, Option.some.injEq] at hph
    subst hph
    simp
  | succ n ih =>
    intro i k p ph hph
    simp only [crossoverLoop] at hph
    cases ha : p._nextGen[i]? with
    | none => rw [ha] at hph; simp at hph
    | some a =>
      cases hb : p._nextGen[i + 1]? with
      | none => rw [ha, hb] at hph; simp at hph
      | some b =>
        rw [ha, hb] at hph
        cases hf : p._crossoverFunc draws k a b with
        | none => simp [hf] at hph
        | some r =>
          simp only [hf, Option.map_eq_some'] at hph
          obtain ⟨ph1, hph1, rfl⟩ := hph
          obtain ⟨hlen, hcount⟩ := ih _ _ _ ph1 hph1
          obtain ⟨_, hno, hyes⟩ := crossoverFunc_gate p draws k a b r hf
          simp only at hcount
          cases happ : r.applied with
          | false =>
            rw [(hno happ).2.2] at hcount
            simp [hlen, hcount]
          | true =>
            rw [hyes happ] at hcount
            simp only [List.length_cons, hlen, List.count_cons_self, hcount, Nat.cast_add,
              Nat.cast_one, true_and]
            ring

/-- With uniform crossover the loop of `crossover` runs through when `_nextGen`
holds the pairs it indexes. -/
theorem crossoverLoop_uniform_returns (draws : Nat → ℚ) :
    ∀ (n i k : Nat) (p : ga2Population),
      p._crossoverType = ga2CrossoverType.GA2_CROSSOVER_UNIFORM →
      i + 2 * n ≤ p._nextGen.length → ∃ ph, crossoverLoop draws n i k p = some ph := by
  intro n
  induction n with
  | zero =>
    intro i k p _ _
    exact ⟨_, rfl⟩
  | succ n ih =>
    intro i k p htype hlen
    have hi : i < p._nextGen.length := by omega
    have hi1 : i + 1 < p._nextGen.length := by omega
    have hfun : ∃ r, p._crossoverFunc draws k p._nextGen[i] p._nextGen[i + 1] = some r := by
      by_cases h : p._crossoverRate ≠ 1 ∧ draws k > p._crossoverRate
      · exact ⟨_, crossoverFunc_of_gate_closed p draws k _ _ h⟩
      · exact ⟨_, crossoverFunc_of_gate_open_uniform p draws k _ _ htype h⟩
    obtain ⟨r, hr⟩ := hfun
    obtain ⟨ph1, hph1⟩ := ih (i + 2) r.next
      { p with
        _nextGen := (p._nextGen.set i r.a).set (i + 1) r.b,
        _crossCount := r.crossCount } htype (by simp only [List.length_set]; omega)
    refine ⟨{ ph1 with flags := r.applied :: ph1.flags }, ?_⟩
    simp only [crossoverLoop, List.getElem?_eq_getElem hi, List.getElem?_eq_getElem hi1, hr,
      hph1, Option.map_some']

/-- C12 (failing input): one-point crossover (the `default:` case of the switch in
`_crossoverFunc`), chromosome length 2, replacement size 2, the staged pair
`[1, 2]`, `[3, 4]`, crossover rate 1. The gate is open, so `_crossoverFunc`
counts the application and calls `_crossoverOnePoint`, which is undefined at
its lines 262-263: neither the call nor the crossover phase returns, and there
is no counter after the phase. With
the rate `1/2` and the gating draw `3/4` the operator is not called and the
phase returns the pair unchanged with the counter 0. -/
theorem C12_crossover_onePoint_undefined :
    ga2Population._crossoverFunc
        { populationOf 2 false [] [chromoOfGenes [1, 2] 0, chromoOfGenes [3, 4] 1] with
          _chromoSize := 2, _replacementSize := 2, _crossoverRate := 1 }
        (fun _ => 1 / 2) 0 (chromoOfGenes [1, 2] 0) (chromoOfGenes [3, 4] 1) = none
    ∧ ga2Population.crossover (fun _ => 1 / 2) 0
        { populationOf 2 false [] [chromoOfGenes [1, 2] 0, chromoOfGenes [3, 4] 1] with
          _chromoSize := 2, _replacementSize := 2, _crossoverRate := 1 } = none
    ∧ (ga2Population.crossover (fun _ => 3 / 4) 0
        { populationOf 2 false [] [chromoOfGenes [1, 2] 0, chromoOfGenes [3, 4] 1] with
          _chromoSize := 2, _replacementSize := 2, _crossoverRate := 1 / 2 }).map
        (fun ph => (ph.flags, ph.population._crossCount,
          ph.population._nextGen.map (fun c => c._genes)))
      = some ([false], 0, [[1, 2], [3, 4]]) := by
  have hr : ((2 + 1 : Int) / 2).toNat = 1 := by decide
  refine ⟨?_, ?_, ?_⟩
  · exact crossoverFunc_of_gate_open_onePoint _ _ _ _ _ rfl (by norm_num [populationOf])
  · norm_num [ga2Population.crossover, crossoverLoop, ga2Population._crossoverFunc,
      onePointCall_undefined, populationOf, hr]
  · norm_num [ga2Population.crossover, crossoverLoop, ga2Population._crossoverFunc,
      populationOf, chromoOfGenes, hr]

/-- Gate and counter of the crossover phase under uniform crossover: one call of
`_crossoverFunc` leaves the pair and the counter as they were when the rate is
not 1 and the gating draw `draws k` exceeds it; when the rate is 1 or the draw
is at most the rate it replaces the pair by the offspring of
`_crossoverUniform`, returns `true` and adds one to the counter. The phase
runs through when `_nextGen` holds the `(_replacementSize + 1) / 2` pairs it
indexes, and after it the counter `_crossCount` equals the number of staged
pairs for which `_crossoverFunc` returned `true`. -/
theorem crossover_uniform_gate_and_count (p : ga2Population) (draws : Nat → ℚ) (k : Nat)
    (htype : p._crossoverType = ga2CrossoverType.GA2_CROSSOVER_UNIFORM) :
    (∀ a b : ga2Chromosome,
      ((p._crossoverRate ≠ 1 ∧ draws k > p._crossoverRate) →
        p._crossoverFunc draws k a b
          = some { applied := false, a := a, b := b, crossCount := p._crossCount,
                   next := k + 1 })
      ∧ ((p._crossoverRate = 1 ∨ draws k ≤ p._crossoverRate) →
        p._crossoverFunc draws k a b
          = some { applied := true,
                   a := (p._crossoverUniform
                     (fun i => draws ((if p._crossoverRate ≠ 1 then k + 1 else k) + i))
                     a b).2.1,
                   b := (p._crossoverUniform
                     (fun i => draws ((if p._crossoverRate ≠ 1 then k + 1 else k) + i))
                     a b).2.2,
                   crossCount := p._crossCount + 1,
                   next := (if p._crossoverRate ≠ 1 then k + 1 else k)
                     + uniformDraws p._chromoSize }))
    ∧ (∀ ph, p.crossover draws k = some ph →
        ph.flags.length = ((p._replacementSize + 1) / 2).toNat
        ∧ ph.population._crossCount = (ph.flags.count true : Int))
    ∧ (2 * ((p._replacementSize + 1) / 2).toNat ≤ p._nextGen.length →
        ∃ ph, p.crossover draws k = some ph) := by
  refine ⟨fun a b => ⟨fun h => crossoverFunc_of_gate_closed p draws k a b h, fun h => ?_⟩,
    fun ph hph => ?_, fun hlen => ?_⟩
  · apply crossoverFunc_of_gate_open_uniform p draws k a b htype
    rintro ⟨h1, h2⟩
    rcases h with h | h
    · exact h1 h
    · exact absurd h2 (not_lt.mpr h)
  · obtain ⟨h1, h2⟩ := crossoverLoop_count draws _ _ _ _ ph hph
    simp only [zero_add] at h2
    exact ⟨h1, h2⟩
  · exact crossoverLoop_uniform_returns draws _ 0 k { p with _crossCount := 0 } htype
      (by simpa using hlen)

/-- Witness of the statement on gate and counter under uniform crossover: rate
`1/2`, replacement size 2, one staged pair, gating draw `3/4`: the phase runs
through and the pair is unchanged. -/
theorem crossover_uniform_gate_and_count_witness :
    (∃ ph, ga2Population.crossover (fun _ => 3 / 4) 0
        { populationOf 2 false [] [chromoOfGenes [1, 2] 0, chromoOfGenes [3, 4] 1] with
          _chromoSize := 2, _replacementSize := 2, _crossoverRate := 1 / 2,
          _crossoverType := ga2CrossoverType.GA2_CROSSOVER_UNIFORM } = some ph)
    ∧ ga2Population._crossoverFunc
        { populationOf 2 false [] [chromoOfGenes [1, 2] 0, chromoOfGenes [3, 4] 1] with
          _chromoSize := 2, _replacementSize := 2, _crossoverRate := 1 / 2,
          _crossoverType := ga2CrossoverType.GA2_CROSSOVER_UNIFORM }
        (fun _ => 3 / 4) 0 (chromoOfGenes [1, 2] 0) (chromoOfGenes [3, 4] 1)
      = some { applied := false, a := chromoOfGenes [1, 2] 0, b := chromoOfGenes [3, 4] 1,
               crossCount := 0, next := 1 } :=
  have h := crossover_uniform_gate_and_count
    { populationOf 2 false [] [chromoOfGenes [1, 2] 0, chromoOfGenes [3, 4] 1] with
      _chromoSize := 2, _replacementSize := 2, _crossoverRate := 1 / 2,
      _crossoverType := ga2CrossoverType.GA2_CROSSOVER_UNIFORM }
    (fun _ => 3 / 4) 0 rfl
  ⟨h.2.2 (by decide),
    (h.1 (chromoOfGenes [1, 2] 0) (chromoOfGenes [3, 4] 1)).1 (by norm_num [populationOf])⟩

/-- The crossover phase under uniform crossover on two staged pairs with rate
`1/2` and draws `1/4, 3/4, 1/4, 3/4, ...`: the first pair is crossed (gating
draw `1/4`, then `flip` values 1 and 0), the second is not (gating draw `3/4`),
and the counter ends at 1. -/
theorem crossover_phase_example :
    (ga2Population.crossover (fun k => if k % 2 = 0 then 1 / 4 else 3 / 4) 0
        { populationOf 4 false []
            [chromoOfGenes [1, 2] 0, chromoOfGenes [3, 4] 1, chromoOfGenes [5, 6] 2,
              chromoOfGenes [7, 8] 3] with
          _chromoSize := 2, _replacementSize := 4, _crossoverRate := 1 / 2,
          _crossoverType := ga2CrossoverType.GA2_CROSSOVER_UNIFORM }).map
      (fun ph => (ph.flags, ph.population._crossCount, ph.next,
        ph.population._nextGen.map (fun c => c._genes)))
      = some ([true, false], 1, 4, [[1, 4], [3, 2], [5, 6], [7, 8]]) := by
  have h4 : ((4 + 1 : Int) / 2).toNat = 2 := by decide
  have h21 : Int.toNat (2 - 1) = 1 := rfl
  have h1 : Int.toNat 1 = 1 := rfl
  have h2 : Int.toNat 2 = 2 := rfl
  have h211 : Int.toNat (1 + 1 - 1) = 1 := rfl
  norm_num [ga2Population.crossover, crossoverLoop, ga2Population._crossoverFunc,
    ga2Population._crossoverUniform, crossoverUniformLoop, uniformFlip, uniformDraws,
    populationOf, chromoOfGenes, h4, h21, h1, h2, h211, truncToInt,
    ga2Chromosome.grabSlice, ga2Chromosome.concat, ga2Chromosome.setParent,
    ga2Chromosome.setCrossSite, ga2Chromosome.getParent]
/-! ## Mutation -/

theorem mutatedGenes_le (m : ℚ) (draws : Nat → ℚ) (k : Nat) (n : Nat) :
    mutatedGenes m draws k n ≤ n := by
  unfold mutatedGenes
  exact le_trans (List.length_filter_le _ _) (by simp)

/-- The mutation of the witness of C13, evaluated: genes `[5/2, 6]`, counter 1,
four draws used. -/
theorem mutateFunc_example :
    (ga2Population._mutateFunc
        { populationOf 2 false [] [] with
          _chromoSize := 2, _mutationRate := 1 / 2, _chromoMaxRanges := [10, 10],
          _chromoMinRanges := [0, 0] }
        (fun j => if j % 2 = 0 then 1 / 4 else 3 / 4) 0
        (chromoOfGenes [5, 6] 0)).map (fun r => (r.a._genes, r.mutationCount, r.next))
      = some ([5 / 2, 6], 1, 4) := by
  have h2 : Int.toNat 2 = 2 := rfl
  have f10 : floatOf 10 = some 10 := by
    have := floatOf_exact 10 0 (by decide) (by decide) (by decide)
    simpa using this
  have f152 : floatOf (15 / 2) = some (15 / 2) := by
    have := floatOf_exact 15 (-1) (by decide) (by decide) (by decide)
    norm_num at this
    exact this
  have f52 : floatOf (5 / 2) = some (5 / 2) := by
    have := floatOf_exact 5 (-1) (by decide) (by decide) (by decide)
    norm_num at this
    exact this
  norm_num [ga2Population._mutateFunc, mutateGenes, mutatedValue, populationOf, chromoOfGenes,
    ga2Chromosome.setGene, h2, f10, f152, f52]

/-- The loop of `_mutateFunc` when every gating draw exceeds the rate: no gene is
written, the counter is kept, one draw is used per gene. -/
theorem mutateGenes_of_gates_closed (p : ga2Population) (draws : Nat → ℚ)
    (hclosed : ∀ j, ¬ draws j ≤ p._mutationRate) :
    ∀ (n i k : Nat) (count : Int) (a : ga2Chromosome),
      mutateGenes p draws n i k count a
        = some { a := a, mutationCount := count, next := k + n } := by
  intro n
  induction n with
  | zero => intro i k count a; rfl
  | succ n ih =>
    intro i k count a
    simp only [mutateGenes, if_neg (hclosed k), ih]
    have : k + 1 + n = k + (n + 1) := by omega
    rw [this]

theorem set_of_getElem? {α : Type} (l : List α) (i : Nat) (x : α) (h : l[i]? = some x) :
    l.set i x = l := by
  induction l generalizing i with
  | nil => simp
  | cons y rest ih =>
    cases i with
    | zero =>
      simp only [List.getElem?_cons_zero, Option.some.injEq] at h
      simp [h]
    | succ i =>
      simp only [List.getElem?_cons_succ] at h
      simp [ih i h]

/-- The loop of `mutate` when every gating draw exceeds the rate: whenever it runs
through, the population is as before. -/
theorem mutateLoop_of_gates_closed (draws : Nat → ℚ) :
    ∀ (n i k : Nat) (p : ga2Population) (r : ga2Population × Nat),
      (∀ j, ¬ draws j ≤ p._mutationRate) → mutateLoop draws n i k p = some r → r.1 = p := by
  intro n
  induction n with
  | zero =>
    intro i k p r _ hr
    simp only [mutateLoop, Option.some.injEq] at hr
    rw [← hr]
  | succ n ih =>
    intro i k p r hclosed hr
    simp only [mutateLoop] at hr
    cases ha : p._nextGen[i]? with
    | none => rw [ha] at hr; simp at hr
    | some a =>
      rw [ha] at hr
      simp only [ga2Population._mutateFunc, mutateGenes_of_gates_closed p draws hclosed,
        set_of_getElem? _ _ _ ha] at hr
      exact ih _ _ _ _ hclosed hr

/-- C14 (counterexample): mutation rate 0, chromosome `[5]`, bounds `[0, 10]`,
every draw equal to 0 (a value of `[0, 1)`). The gating test `0 <= 0` passes:
the gene is replaced by `0 * 10 + 0 = 0` and the counter goes to 1. -/
theorem C14_mutation_rate_zero_counterexample :
    (ga2Population._mutateFunc
        { populationOf 1 false [] [] with
          _chromoSize := 1, _mutationRate := 0, _chromoMaxRanges := [10],
          _chromoMinRanges := [0] }
        (fun _ => 0) 0 (chromoOfGenes [5] 0)).map (fun r => (r.a._genes, r.mutationCount))
      = some ([0], 1) := by
  have h1 : Int.toNat 1 = 1 := rfl
  have f10 : floatOf 10 = some 10 := by
    have := floatOf_exact 10 0 (by decide) (by decide) (by decide)
    simpa using this
  norm_num [ga2Population._mutateFunc, mutateGenes, mutatedValue, populationOf, chromoOfGenes,
    ga2Chromosome.setGene, h1, f10, floatOf_zero]

/-- C14 (amended): with mutation rate 0 and draws that are all strictly positive,
`_mutateFunc` leaves the chromosome and the mutation counter as they were
(using one draw per gene), and whenever `mutate` runs through it leaves every
staged chromosome as it was and the counter at 0. -/
theorem C14_mutation_rate_zero (p : ga2Population) (draws : Nat → ℚ) (k : Nat)
    (a : ga2Chromosome) (hrate : p._mutationRate = 0) (hdraws : ∀ j, 0 < draws j) :
    p._mutateFunc draws k a
      = some { a := a, mutationCount := p._mutationCount, next := k + p._chromoSize.toNat }
    ∧ (∀ r, p.mutate draws k = some r →
        r.1._nextGen = p._nextGen ∧ r.1._mutationCount = 0) := by
  have hclosed : ∀ j, ¬ draws j ≤ p._mutationRate := by
    intro j
    rw [hrate]
    exact not_le.mpr (hdraws j)
  constructor
  · exact mutateGenes_of_gates_closed p draws hclosed _ _ _ _ _
  · intro r hr
    have := mutateLoop_of_gates_closed draws _ _ _ { p with _mutationCount := 0 } r hclosed hr
    rw [this]
    exact ⟨rfl, rfl⟩

/-- Witness of C14 (amended): mutation rate 0, chromosome `[5]`, every draw equal to
`1/2`. -/
theorem C14_mutation_rate_zero_witness :
    ga2Population._mutateFunc
        { populationOf 1 false [] [chromoOfGenes [5] 0] with
          _chromoSize := 1, _replacementSize := 1, _mutationRate := 0,
          _chromoMaxRanges := [10], _chromoMinRanges := [0] }
        (fun _ => 1 / 2) 0 (chromoOfGenes [5] 0)
      = some { a := chromoOfGenes [5] 0, mutationCount := 0, next := 1 } :=
  (C14_mutation_rate_zero
    { populationOf 1 false [] [chromoOfGenes [5] 0] with
      _chromoSize := 1, _replacementSize := 1, _mutationRate := 0,
      _chromoMaxRanges := [10], _chromoMinRanges := [0] }
    (fun _ => 1 / 2) 0 (chromoOfGenes [5] 0) rfl (fun _ => by norm_num)).1

/-- C15 (failing input): integer genes, mutation rate 1, chromosome `[5]`, bounds
`[0, 10]`, draws `0, 1/4, 1/4`. Lines 403-404 compute the truncated value
`(int)(1/4 * 11 + 0) = 2`, line 409 then assigns `1/4 * 10 + 0 = 5/2` to `f`,
and `setGene` writes `5/2`, which is no integer. No operation rounds on this
input. -/
theorem C15_integer_mutation_not_truncated :
    (ga2Population._mutateFunc
        { populationOf 1 false [] [] with
          _chromoSize := 1, _integer := true, _mutationRate := 1, _chromoMaxRanges := [10],
          _chromoMinRanges := [0] }
        (fun j => if j = 0 then 0 else 1 / 4) 0 (chromoOfGenes [5] 0)).map
      (fun r => r.a._genes) = some [5 / 2]
    ∧ truncToInt (1 / 4 * (10 - 0 + 1) + 0) = 2
    ∧ (∀ z : Int, (z : ℚ) ≠ 5 / 2) := by
  have h1 : Int.toNat 1 = 1 := rfl
  have f10 : floatOf 10 = some 10 := by
    have := floatOf_exact 10 0 (by decide) (by decide) (by decide)
    simpa using this
  have f11 : floatOf 11 = some 11 := by
    have := floatOf_exact 11 0 (by decide) (by decide) (by decide)
    simpa using this
  have f114 : floatOf (11 / 4) = some (11 / 4) := by
    have := floatOf_exact 11 (-2) (by decide) (by decide) (by decide)
    norm_num at this
    exact this
  have f52 : floatOf (5 / 2) = some (5 / 2) := by
    have := floatOf_exact 5 (-1) (by decide) (by decide) (by decide)
    norm_num at this
    exact this
  refine ⟨?_, ?_, ?_⟩
  · norm_num [ga2Population._mutateFunc, mutateGenes, mutatedValue, populationOf,
      chromoOfGenes, ga2Chromosome.setGene, h1, f10, f11, f114, f52, floatToInt, truncToInt]
  · norm_num [truncToInt]
  · intro z hz
    have h2 : ((2 * z : Int) : ℚ) = ((5 : Int) : ℚ) := by
      push_cast
      linarith
    have h3 : 2 * z = 5 := by exact_mod_cast h2
    omega

/-! ## Steady-state replacement without duplicates -/

theorem duplicatePoint_eq_length_iff (getFitness : ga2Chromosome → ℚ)
    (cs : List ga2Chromosome) (f : ℚ) :
    duplicatePoint getFitness cs f = cs.length ↔ ∀ c ∈ cs, getFitness c ≠ f := by
  induction cs with
  | nil => simp [duplicatePoint]
  | cons c rest ih =>
    simp only [duplicatePoint, List.length_cons, List.mem_cons, forall_eq_or_imp]
    by_cases h : getFitness c ≠ f
    · rw [if_pos h, Nat.add_right_cancel_iff, ih]
      exact ⟨fun hr => ⟨h, hr⟩, fun hr => hr.2⟩
    · rw [if_neg h]
      exact ⟨fun h0 => absurd h0.symm (Nat.succ_ne_zero _), fun hr => absurd hr.1 h⟩

theorem distinctFitness_vectorInsert (getFitness : ga2Chromosome → ℚ)
    (cs : List ga2Chromosome) (k : Nat) (x : ga2Chromosome)
    (hcs : distinctFitness getFitness cs) (hx : ∀ c ∈ cs, getFitness c ≠ getFitness x) :
    distinctFitness getFitness (vectorInsert cs k x) := by
  unfold distinctFitness vectorInsert at *
  have hperm : (cs.take k ++ x :: cs.drop k).Perm (x :: cs) := by
    have h := @List.perm_middle _ x (cs.take k) (cs.drop k)
    rwa [List.take_append_drop] at h
  have hsymm : ∀ a b : ga2Chromosome, getFitness a ≠ getFitness b →
      getFitness b ≠ getFitness a := fun _ _ h => h.symm
  rw [hperm.pairwise_iff (fun {a b} h => hsymm a b h)]
  rw [List.pairwise_cons]
  exact ⟨fun c hc => (hx c hc).symm, hcs⟩

/-- One pass of the loop of `_replaceSteadyStateNoDuplicates` keeps the fitness
values pairwise distinct. -/
theorem noDuplicateInsert_distinct (getFitness : ga2Chromosome → ℚ)
    (cs : List ga2Chromosome) (x : ga2Chromosome) (hcs : distinctFitness getFitness cs) :
    distinctFitness getFitness (noDuplicateInsert getFitness cs x) := by
  unfold noDuplicateInsert
  split_ifs with hempty hdup
  · have : cs = [] := List.isEmpty_iff.mp hempty
    subst this
    simp [distinctFitness]
  · exact distinctFitness_vectorInsert getFitness cs _ x hcs
      ((duplicatePoint_eq_length_iff getFitness cs _).mp hdup)
  · exact hcs

/-- A staged chromosome whose fitness equals that of a live member is not
inserted. -/
theorem noDuplicateInsert_of_duplicate (getFitness : ga2Chromosome → ℚ)
    (cs : List ga2Chromosome) (x : ga2Chromosome)
    (hdup : ∃ c ∈ cs, getFitness c = getFitness x) :
    noDuplicateInsert getFitness cs x = cs := by
  obtain ⟨c, hc, heq⟩ := hdup
  unfold noDuplicateInsert
  have hne : cs.isEmpty = false := by
    cases cs with
    | nil => simp at hc
    | cons _ _ => rfl
  have hpoint : ¬ duplicatePoint getFitness cs (getFitness x) = cs.length := by
    rw [duplicatePoint_eq_length_iff]
    intro hall
    exact hall c hc heq
  simp [hne, hpoint]

theorem foldl_noDuplicateInsert_distinct (getFitness : ga2Chromosome → ℚ)
    (xs cs : List ga2Chromosome) (hcs : distinctFitness getFitness cs) :
    distinctFitness getFitness (xs.foldl (noDuplicateInsert getFitness) cs) := by
  induction xs generalizing cs with
  | nil => exact hcs
  | cons x rest ih => exact ih _ (noDuplicateInsert_distinct getFitness cs x hcs)

/-- C16: for a sort-ordered population whose live members have pairwise distinct
fitness values and every staged sequence, whenever
`_replaceSteadyStateNoDuplicates` returns, the live members have pairwise
distinct fitness values; it returns whenever the live sequence has at least
`_size ≥ 0` members; and a staged chromosome whose fitness equals that of a
member of the live sequence at the time it is handled is not inserted. -/
theorem C16_noDuplicates_distinct (getFitness : ga2Chromosome → ℚ) (p : ga2Population)
    (hsorted : p._isSorted = true) (hdistinct : distinctFitness getFitness p._chromosomes) :
    (∀ r, p._replaceSteadyStateNoDuplicates getFitness = some r →
      r.1 = true ∧ distinctFitness getFitness r.2._chromosomes)
    ∧ (0 ≤ p._size → p._size ≤ (p._chromosomes.length : Int) →
      ∃ r, p._replaceSteadyStateNoDuplicates getFitness = some r)
    ∧ (∀ (cs : List ga2Chromosome) (x : ga2Chromosome),
      (∃ c ∈ cs, getFitness c = getFitness x) → noDuplicateInsert getFitness cs x = cs) := by
  refine ⟨fun r hr => ?_, fun h0 hle => ?_, noDuplicateInsert_of_duplicate getFitness⟩
  · simp only [ga2Population._replaceSteadyStateNoDuplicates, hsorted, Bool.not_true,
      Bool.false_eq_true, if_false, Option.map_eq_some'] at hr
    obtain ⟨cs1, hpop, rfl⟩ := hr
    rw [popUntilSize_eq _ _ _ (Nat.lt_succ_self _)] at hpop
    split_ifs at hpop with hcond
    simp only [Option.some.injEq] at hpop
    refine ⟨rfl, ?_⟩
    show distinctFitness getFitness cs1
    rw [← hpop]
    exact (foldl_noDuplicateInsert_distinct getFitness _ _ hdistinct).sublist
      (List.take_sublist _ _)
  · have hlen := foldl_noDuplicateInsert_length_ge getFitness p._nextGen p._chromosomes
    have hcond : 0 ≤ p._size ∧ p._size
        ≤ ((p._nextGen.foldl (noDuplicateInsert getFitness) p._chromosomes).length : Int) := by
      omega
    simp only [ga2Population._replaceSteadyStateNoDuplicates, hsorted, Bool.not_true,
      Bool.false_eq_true, if_false]
    rw [popUntilSize_eq _ _ _ (Nat.lt_succ_self _), if_pos hcond]
    exact ⟨_, rfl⟩

/-- Witness of C16: sorted population of size 2, live fitness values 5, 3, staged
fitness values 4, 3, 4. -/
theorem C16_noDuplicates_distinct_witness :
    ∃ r, (populationOf 2 true [chromoOfFitness 5, chromoOfFitness 3]
        [chromoOfFitness 4, chromoOfFitness 3,
          chromoOfFitness 4])._replaceSteadyStateNoDuplicates cachedFitness = some r
      ∧ r.1 = true ∧ distinctFitness cachedFitness r.2._chromosomes :=
  have h := C16_noDuplicates_distinct cachedFitness
    (populationOf 2 true [chromoOfFitness 5, chromoOfFitness 3]
      [chromoOfFitness 4, chromoOfFitness 3, chromoOfFitness 4])
    rfl (by norm_num [distinctFitness, populationOf, cachedFitness, chromoOfFitness])
  match h.2.1 (by decide) (by decide) with
  | ⟨r, hr⟩ => ⟨r, hr, h.1 r hr⟩

/-- The replacement of the witness of C16, evaluated: the live fitness values
become 5, 4. -/
theorem replaceNoDuplicates_example :
    ((populationOf 2 true [chromoOfFitness 5, chromoOfFitness 3]
        [chromoOfFitness 4, chromoOfFitness 3,
          chromoOfFitness 4])._replaceSteadyStateNoDuplicates cachedFitness).map
      (fun r => r.2._chromosomes.map cachedFitness) = some [5, 4] := by
  decide

/-! ## Statistics, best fit and serialisation -/

/-- C17 (failing input): logical size 1, one live member of fitness `-4294967296`
(`-2^32`). The loop of `evaluate` starts `_maxFitness` at `-INT_MAX` and never
lowers it: the cached maximum is `-2147483647`, not the largest live fitness
`-4294967296` (sum, average and minimum are `-4294967296`). -/
theorem C17_evaluate_maximum_sentinel :
    ((populationOf 1 false [chromoOfFitness (-4294967296)] []).evaluate cachedFitness).map
      (fun r => (r.2._sumFitness, r.2._avgFitness, r.2._minFitness, r.2._maxFitness))
      = some (-4294967296, -4294967296, -4294967296, -2147483647) := by
  have h1 : Int.toNat 1 = 1 := rfl
  norm_num [ga2Population.evaluate, evaluateLoop, evaluatePass, populationOf, chromoOfFitness,
    cachedFitness, INT_MAX, h1]

/-- C18 (failing input): logical size 1, one live member with genes `[1, 2, 3]` and
fitness `-4294967296`. After `evaluate` the cached maximum is `-2147483647`,
no live member has that fitness, and `getBestFitChromosome` returns the empty
vector instead of `[1, 2, 3]`. -/
theorem C18_bestFit_empty_below_sentinel :
    ((ga2Population.evaluate cachedFitness
        (populationOf 1 false
          [{ chromoOfGenes [1, 2, 3] 0 with _fitness := some (-4294967296) }] [])).bind
      (fun r => r.2.getBestFitChromosome cachedFitness)) = some [] := by
  have h1 : Int.toNat 1 = 1 := rfl
  norm_num [ga2Population.evaluate, evaluateLoop, evaluatePass,
    ga2Population.getBestFitChromosome, bestFitLoop, populationOf, chromoOfGenes, cachedFitness,
    INT_MAX, h1]

/-- C19 (failing input): population of size 3 with chromosome length 2, bounds
`[0, 10]` per gene and the live members `[1, 2]`, `[3, 4]`, `[5, 6]` of fitness
7, 8, 9. `operator<<` writes three chromosomes; `operator>>` reads the sizes 3
and 2 and the bounds back, and then reads `_chromoSize = 2` chromosomes: the
population read back has two live members. -/
theorem C19_read_loops_over_chromoSize :
    ((ga2Population.write cachedFitness
        { populationOf 3 false
            [{ chromoOfGenes [1, 2] 0 with _fitness := some 7 },
              { chromoOfGenes [3, 4] 0 with _fitness := some 8 },
              { chromoOfGenes [5, 6] 0 with _fitness := some 9 }] [] with
          _chromoSize := 2, _chromoMaxRanges := [10, 10], _chromoMinRanges := [0, 0] }).bind
      (fun ts => ga2Population.read ts (populationOf 0 false [] []))).map
      (fun q => (q._size, q._chromoSize, q._chromoMaxRanges, q._chromoMinRanges,
        q._chromosomes.map (fun c => (c._genes, c._fitness))))
      = some (3, 2, [10, 10], [0, 0], [([1, 2], some 7), ([3, 4], some 8)]) := by
  rfl

/-! ## One evolutionary step -/

theorem setParent_genes (c : ga2Chromosome) (which id : Int) :
    (c.setParent which id)._genes = c._genes := by
  unfold ga2Chromosome.setParent
  split_ifs <;> rfl

theorem map_genes_set (cs : List ga2Chromosome) (i : Nat) (c x : ga2Chromosome)
    (hc : cs[i]? = some c) (hx : x._genes = c._genes) :
    (cs.set i x).map (fun d => d._genes) = cs.map (fun d => d._genes) := by
  rw [List.map_set, hx]
  apply set_of_getElem?
  rw [List.getElem?_map, hc]
  rfl

theorem genes_of_getElem? (cs cs0 : List ga2Chromosome) (i : Nat) (d : ga2Chromosome)
    (hmap : cs.map (fun c => c._genes) = cs0.map (fun c => c._genes))
    (hd : cs[i]? = some d) : ∃ e ∈ cs0, d._genes = e._genes := by
  have hmem : d._genes ∈ cs.map (fun c => c._genes) :=
    List.mem_map.mpr ⟨d, List.getElem?_mem hd, rfl⟩
  rw [hmap] at hmem
  obtain ⟨e, he, heq⟩ := List.mem_map.mp hmem
  exact ⟨e, he, heq.symm⟩

/-- One pass of the loop of `select` keeps the rates and the replacement kind, keeps
the gene sequences of the live members, and stages two chromosomes whose gene
sequences are those of live members. -/
theorem selectPass_spec (getFitness : ga2Chromosome → ℚ) (p q : ga2Population) (u1 u2 : ℚ)
    (h : selectPass getFitness p u1 u2 = some q) :
    q._crossoverRate = p._crossoverRate ∧ q._mutationRate = p._mutationRate
    ∧ q._replacementType = p._replacementType
    ∧ q._chromosomes.map (fun c => c._genes) = p._chromosomes.map (fun c => c._genes)
    ∧ (∀ c ∈ q._nextGen, c ∈ p._nextGen ∨ ∃ d ∈ p._chromosomes, c._genes = d._genes) := by
  unfold selectPass at h
  cases hs1 : p._selectFunc getFitness u1 with
  | none => rw [hs1] at h; simp at h
  | some s1 =>
    cases hs2 : p._selectFunc getFitness u2 with
    | none => rw [hs1, hs2] at h; simp at h
    | some s2 =>
      rw [hs1, hs2] at h
      simp only at h
      split_ifs at h with hnonneg
      cases hc1 : p._chromosomes[s1.toNat]? with
      | none => rw [hc1] at h; simp at h
      | some c1 =>
        rw [hc1] at h
        simp only at h
        have hmap1 := map_genes_set p._chromosomes s1.toNat c1
          ((c1.setParent 0 s1).setParent 1 s1) hc1
          (by rw [setParent_genes, setParent_genes])
        cases hc2 : (p._chromosomes.set s1.toNat
            ((c1.setParent 0 s1).setParent 1 s1))[s2.toNat]? with
        | none => rw [hc2] at h; simp at h
        | some c2 =>
          rw [hc2] at h
          simp only at h
          have hmap2 := map_genes_set _ s2.toNat c2
            ((c2.setParent 0 s2).setParent 1 s2) hc2
            (by rw [setParent_genes, setParent_genes])
          rw [hmap1] at hmap2
          cases hd1 : ((p._chromosomes.set s1.toNat
              ((c1.setParent 0 s1).setParent 1 s1)).set s2.toNat
              ((c2.setParent 0 s2).setParent 1 s2))[s1.toNat]? with
          | none => rw [hd1] at h; simp at h
          | some d1 =>
            cases hd2 : ((p._chromosomes.set s1.toNat
                ((c1.setParent 0 s1).setParent 1 s1)).set s2.toNat
                ((c2.setParent 0 s2).setParent 1 s2))[s2.toNat]? with
            | none => rw [hd1, hd2] at h; simp at h
            | some d2 =>
              rw [hd1, hd2] at h
              simp only [Option.some.injEq] at h
              rw [← h]
              refine ⟨rfl, rfl, rfl, hmap2, fun c hc => ?_⟩
              simp only [List.mem_append, List.mem_cons, List.mem_singleton,
                List.not_mem_nil, or_false] at hc
              rcases hc with hc | rfl | rfl
              · exact Or.inl hc
              · exact Or.inr (genes_of_getElem? _ _ _ _ hmap2 hd1)
              · exact Or.inr (genes_of_getElem? _ _ _ _ hmap2 hd2)

/-- The loop of `select` keeps the rates and the replacement kind and the gene
sequences of the live members, and every chromosome it stages has the gene
sequence of a live member. -/
theorem selectLoop_spec (getFitness : ga2Chromosome → ℚ) (draws : Nat → ℚ) :
    ∀ (n j : Nat) (p q : ga2Population), selectLoop getFitness draws n j p = some q →
      q._crossoverRate = p._crossoverRate ∧ q._mutationRate = p._mutationRate
      ∧ q._replacementType = p._replacementType
      ∧ q._chromosomes.map (fun c => c._genes) = p._chromosomes.map (fun c => c._genes)
      ∧ (∀ c ∈ q._nextGen, c ∈ p._nextGen ∨ ∃ d ∈ p._chromosomes, c._genes = d._genes) := by
  intro n
  induction n with
  | zero =>
    intro j p q h
    simp only [selectLoop, Option.some.injEq] at h
    rw [← h]
    exact ⟨rfl, rfl, rfl, rfl, fun c hc => Or.inl hc⟩
  | succ n ih =>
    intro j p q h
    simp only [selectLoop] at h
    cases hpass : selectPass getFitness p (draws (2 * j)) (draws (2 * j + 1)) with
    | none => rw [hpass] at h; simp at h
    | some p1 =>
      rw [hpass] at h
      obtain ⟨a1, a2, a3, a4, a5⟩ := selectPass_spec getFitness p p1 _ _ hpass
      obtain ⟨b1, b2, b3, b4, b5⟩ := ih _ _ _ h
      refine ⟨b1.trans a1, b2.trans a2, b3.trans a3, b4.trans a4, fun c hc => ?_⟩
      rcases b5 c hc with hc1 | ⟨d, hd, hcd⟩
      · exact a5 c hc1
      · have hmem : d._genes ∈ p1._chromosomes.map (fun c => c._genes) :=
          List.mem_map.mpr ⟨d, hd, rfl⟩
        rw [a4] at hmem
        obtain ⟨e, he, heq⟩ := List.mem_map.mp hmem
        exact Or.inr ⟨e, he, hcd.trans heq.symm⟩

/-- The loop of `crossover` when the rate is not 1 and every gating draw exceeds
it: whenever it runs through, the population is as before. -/
theorem crossoverLoop_of_gates_closed (draws : Nat → ℚ) :
    ∀ (n i k : Nat) (p : ga2Population) (ph : CrossoverPhase),
      p._crossoverRate ≠ 1 → (∀ j, draws j > p._crossoverRate) →
      crossoverLoop draws n i k p = some ph → ph.population = p := by
  intro n
  induction n with
  | zero =>
    intro i k p ph _ _ h
    simp only [crossoverLoop, Option.some.injEq] at h
    rw [← h]
  | succ n ih =>
    intro i k p ph hrate hclosed h
    simp only [crossoverLoop] at h
    cases ha : p._nextGen[i]? with
    | none => rw [ha] at h; simp at h
    | some a =>
      cases hb : p._nextGen[i + 1]? with
      | none => rw [ha, hb] at h; simp at h
      | some b =>
        rw [ha, hb] at h
        simp only [crossoverFunc_of_gate_closed p draws k a b ⟨hrate, hclosed k⟩,
          set_of_getElem? _ _ _ ha, set_of_getElem? _ _ _ hb, Option.map_eq_some'] at h
        obtain ⟨ph1, hph1, rfl⟩ := h
        exact ih (i + 2) (k + 1) p ph1 hrate hclosed hph1

theorem generationalInsert_mem (getFitness : ga2Chromosome → ℚ) (isSorted : Bool)
    (cs cs1 : List ga2Chromosome) (x : ga2Chromosome)
    (h : generationalInsert getFitness isSorted cs x = some cs1) :
    ∀ c ∈ cs1, c ∈ cs ∨ c = x := by
  intro c hc
  unfold generationalInsert at h
  split_ifs at h
  · simp only [Option.some.injEq] at h
    rw [← h] at hc
    simpa using hc
  · simp only [Option.some.injEq] at h
    rw [← h] at hc
    simpa using hc
  · simp only [Option.map_eq_some'] at h
    obtain ⟨k, _, rfl⟩ := h
    rw [mem_vectorInsert] at hc
    exact hc.symm

theorem generationalLoop_mem (getFitness : ga2Chromosome → ℚ) (isSorted : Bool)
    (xs cs cs1 : List ga2Chromosome)
    (h : generationalLoop getFitness isSorted cs xs = some cs1) :
    ∀ c ∈ cs1, c ∈ cs ∨ c ∈ xs := by
  induction xs generalizing cs with
  | nil =>
    simp only [generationalLoop, Option.some.injEq] at h
    intro c hc
    rw [← h] at hc
    exact Or.inl hc
  | cons x rest ih =>
    simp only [generationalLoop] at h
    cases hins : generationalInsert getFitness isSorted cs x with
    | none => rw [hins] at h; simp at h
    | some cs2 =>
      rw [hins] at h
      intro c hc
      rcases ih cs2 h c hc with h1 | h1
      · rcases generationalInsert_mem getFitness isSorted cs cs2 x hins c h1 with h2 | h2
        · exact Or.inl h2
        · exact Or.inr (by rw [h2]; exact List.mem_cons_self _ _)
      · exact Or.inr (List.mem_cons_of_mem _ h1)

/-- Every live member left by `_replaceGenerational` is a member of the staged
sequence. -/
theorem replaceGenerational_mem (getFitness : ga2Chromosome → ℚ) (p : ga2Population)
    (r : Bool × ga2Population) (h : p._replaceGenerational getFitness = some r) :
    ∀ c ∈ r.2._chromosomes, c ∈ p._nextGen := by
  unfold ga2Population._replaceGenerational at h
  cases hloop : generationalLoop getFitness p._isSorted [] p._nextGen with
  | none => rw [hloop] at h; simp at h
  | some cs =>
    rw [hloop] at h
    have hmem : ∀ c ∈ cs, c ∈ p._nextGen := by
      intro c hc
      rcases generationalLoop_mem getFitness _ _ _ _ hloop c hc with h1 | h1
      · simp at h1
      · exact h1
    simp only at h
    split_ifs at h with hs
    · rw [popWhileAbove_eq _ _ _ (Nat.lt_succ_self _)] at h
      simp only [Option.map_some', Option.some.injEq] at h
      rw [← h]
      intro c hc
      simp only at hc
      split_ifs at hc
      · exact hmem c (List.mem_of_mem_take hc)
      · exact hmem c hc
    · simp only [Option.some.injEq] at h
      rw [← h]
      exact hmem

/-- C20 (amended): with generational replacement, crossover rate 0 and mutation
rate 0, and draws that are all strictly positive, whenever one evolutionary
step (select, crossover, mutate, replace) runs through, every live
chromosome's gene sequence equals the gene sequence of some member of the
live population before the step. -/
theorem C20_step_keeps_gene_sequences (getFitness : ga2Chromosome → ℚ) (draws : Nat → ℚ)
    (p : ga2Population)
    (hkind : p._replacementType = ga2ReplaceType.GA2_REPLACE_GENERATIONAL)
    (hcross : p._crossoverRate = 0) (hmut : p._mutationRate = 0)
    (hdraws : ∀ j, 0 < draws j) :
    ∀ q, evolutionStep getFitness draws p = some q →
      ∀ c ∈ q._chromosomes, ∃ d ∈ p._chromosomes, c._genes = d._genes := by
  intro q hq
  unfold evolutionStep at hq
  cases hsel : p.select getFitness draws with
  | none => rw [hsel] at hq; simp at hq
  | some selected =>
    rw [hsel] at hq
    simp only at hq
    simp only [ga2Population.select, Option.map_eq_some'] at hsel
    obtain ⟨p1, hp1, rfl⟩ := hsel
    obtain ⟨s1, s2, s3, _, s5⟩ := selectLoop_spec getFitness draws _ _ _ _ hp1
    simp only at s1 s2 s3 s5 hq
    cases hcr : p1.crossover draws (2 * ((p._replacementSize + 1) / 2).toNat) with
    | none => rw [hcr] at hq; simp at hq
    | some crossed =>
      rw [hcr] at hq
      simp only at hq
      have hc1 : crossed.population = { p1 with _crossCount := 0 } :=
        crossoverLoop_of_gates_closed draws _ _ _ { p1 with _crossCount := 0 } crossed
          (by show p1._crossoverRate ≠ 1; rw [s1, hcross]; norm_num)
          (by intro j; show draws j > p1._crossoverRate; rw [s1, hcross]; exact hdraws j)
          hcr
      cases hmu : crossed.population.mutate draws crossed.next with
      | none => rw [hmu] at hq; simp at hq
      | some mutated =>
        rw [hmu] at hq
        simp only [Option.map_eq_some'] at hq
        obtain ⟨r, hr, rfl⟩ := hq
        have hm1 : mutated.1 = { crossed.population with _mutationCount := 0 } :=
          mutateLoop_of_gates_closed draws _ _ _
            { crossed.population with _mutationCount := 0 } mutated
            (by
              intro j
              show ¬ draws j ≤ crossed.population._mutationRate
              rw [hc1]
              show ¬ draws j ≤ p1._mutationRate
              rw [s2, hmut]
              exact not_le.mpr (hdraws j))
            hmu
        have hkind3 : mutated.1._replacementType = ga2ReplaceType.GA2_REPLACE_GENERATIONAL := by
          rw [hm1, hc1]
          show p1._replacementType = _
          rw [s3, hkind]
        have hstaged : mutated.1._nextGen = p1._nextGen := by
          rw [hm1, hc1]
        simp only [ga2Population.replace, ga2Population._replaceFunc, hkind3] at hr
        intro c hc
        have hmem := replaceGenerational_mem getFitness _ _ hr c hc
        rw [hstaged] at hmem
        rcases s5 c hmem with h0 | h1
        · simp at h0
        · exact h1

/-- C20 (counterexample): the scenario population (size 4, chromosome length 3,
bounds `[0, 10]`, generational replacement, crossover rate 0, mutation rate 0,
ranked selection, uniform crossover) with every draw equal to 0, a value of
`[0, 1)`. Selection stages four copies of the member `[1, 2, 3]`; the gating
tests `0 > 0` of `_crossoverFunc` and `0 <= 0` of `_mutateFunc` let crossover
and mutation through, mutation writes `0 * 10 + 0 = 0` into every gene, and
after the step every live chromosome is `[0, 0, 0]`, the gene sequence of no
member of the live population before the step. -/
theorem C20_step_keeps_gene_sequences_counterexample :
    (evolutionStep cachedFitness (fun _ => 0) scenarioPopulation).map
        (fun q => q._chromosomes.map (fun c => c._genes))
      = some [[0, 0, 0], [0, 0, 0], [0, 0, 0], [0, 0, 0]]
    ∧ scenarioPopulation._chromosomes.map (fun c => c._genes)
      = [[1, 2, 3], [4, 5, 6], [7, 8, 9], [10, 0, 5]] := by
  have h4 : ((4 + 1 : Int) / 2).toNat = 2 := by decide
  have h0 : Int.toNat 0 = 0 := rfl
  have h3 : Int.toNat 3 = 3 := rfl
  have h44 : Int.toNat 4 = 4 := rfl
  have h31 : Int.toNat (3 - 1) = 2 := rfl
  have h1 : Int.toNat 1 = 1 := rfl
  have h2 : Int.toNat 2 = 2 := rfl
  have h111 : Int.toNat (1 + 1 - 1) = 1 := rfl
  have h212 : Int.toNat (2 + 1 - 2) = 1 := rfl
  have f10 : floatOf 10 = some 10 := by
    have := floatOf_exact 10 0 (by decide) (by decide) (by decide)
    simpa using this
  constructor
  · norm_num [evolutionStep, ga2Population.select, selectLoop, selectPass,
      ga2Population._selectFunc, ga2Population._selectRanked, rankedSum, rankedWalk,
      scenarioPopulation, populationOf, chromoOfGenes, h4, h0, h3, h44, h31, h1, h2, h111,
      h212, ga2Chromosome.setParent, List.range, List.range.loop,
      ga2Population.crossover, crossoverLoop, ga2Population._crossoverFunc,
      ga2Population._crossoverUniform, crossoverUniformLoop, uniformFlip, uniformDraws,
      truncToInt, ga2Chromosome.grabSlice,
      ga2Chromosome.concat, ga2Chromosome.setCrossSite, ga2Chromosome.getParent,
      ga2Population.mutate, mutateLoop, ga2Population._mutateFunc, mutateGenes, mutatedValue,
      f10, floatOf_zero,
      ga2Chromosome.setGene, ga2Population.replace, ga2Population._replaceFunc,
      ga2Population._replaceGenerational, generationalLoop, generationalInsert]
  · rfl

/-- Witness of C20 (amended): the scenario population with every draw equal to
`1/2`; the step runs through and leaves four copies of the member
`[10, 0, 5]`. -/
theorem C20_step_keeps_gene_sequences_witness :
    (evolutionStep cachedFitness (fun _ => 1 / 2) scenarioPopulation).map
        (fun q => q._chromosomes.map (fun c => c._genes))
      = some [[10, 0, 5], [10, 0, 5], [10, 0, 5], [10, 0, 5]]
    ∧ ∀ q, evolutionStep cachedFitness (fun _ => 1 / 2) scenarioPopulation = some q →
        ∀ c ∈ q._chromosomes, ∃ d ∈ scenarioPopulation._chromosomes, c._genes = d._genes := by
  have h4 : ((4 + 1 : Int) / 2).toNat = 2 := by decide
  have h0 : Int.toNat 0 = 0 := rfl
  have h3 : Int.toNat 3 = 3 := rfl
  have h44 : Int.toNat 4 = 4 := rfl
  constructor
  · norm_num [evolutionStep, ga2Population.select, selectLoop, selectPass,
      ga2Population._selectFunc, ga2Population._selectRanked, rankedSum, rankedWalk,
      scenarioPopulation, populationOf, chromoOfGenes, h4, h0, h3, h44,
      ga2Chromosome.setParent, List.range, List.range.loop,
      ga2Population.crossover, crossoverLoop, ga2Population._crossoverFunc,
      ga2Population.mutate, mutateLoop, ga2Population._mutateFunc, mutateGenes,
      ga2Population.replace, ga2Population._replaceFunc,
      ga2Population._replaceGenerational, generationalLoop, generationalInsert]
  · exact C20_step_keeps_gene_sequences cachedFitness (fun _ => 1 / 2) scenarioPopulation
      rfl rfl rfl (fun _ => by norm_num)

/-! ## Statistics and best fit on fitness values within the seeds -/

theorem evaluateLoop_eq_foldl (getFitness : ga2Chromosome → ℚ) (cs : List ga2Chromosome) :
    ∀ (n i : Nat) (st : FitnessStats), i + n = cs.length →
      evaluateLoop getFitness cs n i st
        = some ((cs.drop i).foldl (evaluatePass getFitness) st) := by
  intro n
  induction n with
  | zero =>
    intro i st hi
    have : cs.drop i = [] := List.drop_eq_nil_of_le (by omega)
    simp [evaluateLoop, this]
  | succ n ih =>
    intro i st hi
    have hlt : i < cs.length := by omega
    simp only [evaluateLoop, List.getElem?_eq_getElem hlt]
    rw [ih (i + 1) _ (by omega), List.drop_eq_getElem_cons hlt, List.foldl_cons]

/-- The running statistics after the passes for the members of `l`: the sum grows
by the sum of their fitness values; the maximum is at least its start value
and every fitness of `l`, and is one of them; likewise for the minimum. -/
theorem foldl_evaluatePass (getFitness : ga2Chromosome → ℚ) (l : List ga2Chromosome) :
    ∀ st : FitnessStats,
      (l.foldl (evaluatePass getFitness) st).sumFitness
        = st.sumFitness + (l.map getFitness).sum
      ∧ st.maxFitness ≤ (l.foldl (evaluatePass getFitness) st).maxFitness
      ∧ (∀ c ∈ l, getFitness c ≤ (l.foldl (evaluatePass getFitness) st).maxFitness)
      ∧ ((l.foldl (evaluatePass getFitness) st).maxFitness = st.maxFitness
        ∨ ∃ c ∈ l, getFitness c = (l.foldl (evaluatePass getFitness) st).maxFitness)
      ∧ (l.foldl (evaluatePass getFitness) st).minFitness ≤ st.minFitness
      ∧ (∀ c ∈ l, (l.foldl (evaluatePass getFitness) st).minFitness ≤ getFitness c)
      ∧ ((l.foldl (evaluatePass getFitness) st).minFitness = st.minFitness
        ∨ ∃ c ∈ l, getFitness c = (l.foldl (evaluatePass getFitness) st).minFitness) := by
  induction l with
  | nil =>
    intro st
    simp
  | cons x rest ih =>
    intro st
    simp only [List.foldl_cons, List.map_cons, List.sum_cons, List.mem_cons, forall_eq_or_imp,
      exists_eq_or_imp]
    obtain ⟨h1, h2, h3, h4, h5, h6, h7⟩ := ih (evaluatePass getFitness st x)
    have hsum : (evaluatePass getFitness st x).sumFitness = st.sumFitness + getFitness x := rfl
    have hmaxdef : (evaluatePass getFitness st x).maxFitness
        = if getFitness x > st.maxFitness then getFitness x else st.maxFitness := rfl
    have hmindef : (evaluatePass getFitness st x).minFitness
        = if getFitness x < st.minFitness then getFitness x else st.minFitness := rfl
    have hmax1 : st.maxFitness ≤ (evaluatePass getFitness st x).maxFitness := by
      rw [hmaxdef]
      split_ifs with h
      · exact le_of_lt h
      · exact le_refl _
    have hmax2 : getFitness x ≤ (evaluatePass getFitness st x).maxFitness := by
      rw [hmaxdef]
      split_ifs with h
      · exact le_refl _
      · exact not_lt.mp h
    have hmin1 : (evaluatePass getFitness st x).minFitness ≤ st.minFitness := by
      rw [hmindef]
      split_ifs with h
      · exact le_of_lt h
      · exact le_refl _
    have hmin2 : (evaluatePass getFitness st x).minFitness ≤ getFitness x := by
      rw [hmindef]
      split_ifs with h
      · exact le_refl _
      · exact not_lt.mp h
    refine ⟨by rw [h1, hsum]; ring, le_trans hmax1 h2, ⟨le_trans hmax2 h2, h3⟩, ?_,
      le_trans h5 hmin1, ⟨le_trans h5 hmin2, h6⟩, ?_⟩
    · rcases h4 with h4 | ⟨c, hc, hceq⟩
      · by_cases h : getFitness x > st.maxFitness
        · exact Or.inr (Or.inl (by rw [h4, hmaxdef, if_pos h]))
        · exact Or.inl (by rw [h4, hmaxdef, if_neg h])
      · exact Or.inr (Or.inr ⟨c, hc, hceq⟩)
    · rcases h7 with h7 | ⟨c, hc, hceq⟩
      · by_cases h : getFitness x < st.minFitness
        · exact Or.inr (Or.inl (by rw [h7, hmindef, if_pos h]))
        · exact Or.inl (by rw [h7, hmindef, if_neg h])
      · exact Or.inr (Or.inr ⟨c, hc, hceq⟩)

/-- The facts about `evaluate` shared by the statements on the statistics and on
best-fit retrieval. -/
theorem evaluate_facts (getFitness : ga2Chromosome → ℚ) (p : ga2Population) (S : Nat)
    (hS : 1 ≤ S) (hsize : p._size = (S : Int)) (hlive : p._chromosomes.length = S) :
    ∃ q, p.evaluate getFitness = some (true, q)
      ∧ q._chromosomes = p._chromosomes ∧ q._size = p._size
      ∧ q._sumFitness = (p._chromosomes.map getFitness).sum
      ∧ q._avgFitness = (p._chromosomes.map getFitness).sum / (S : ℚ)
      ∧ (∀ c ∈ p._chromosomes, getFitness c ≤ q._maxFitness)
      ∧ (∀ c ∈ p._chromosomes, q._minFitness ≤ getFitness c)
      ∧ ((∃ c ∈ p._chromosomes, -(INT_MAX : ℚ) ≤ getFitness c) →
          ∃ c ∈ p._chromosomes, getFitness c = q._maxFitness)
      ∧ ((∃ c ∈ p._chromosomes, getFitness c ≤ (INT_MAX : ℚ)) →
          ∃ c ∈ p._chromosomes, getFitness c = q._minFitness) := by
  have hn : p._size.toNat = S := by omega
  have hloop := evaluateLoop_eq_foldl getFitness p._chromosomes S 0
    { sumFitness := 0, maxFitness := -1 * (INT_MAX : ℚ), minFitness := (INT_MAX : ℚ) }
    (by omega)
  obtain ⟨h1, h2, h3, h4, h5, h6, h7⟩ := foldl_evaluatePass getFitness p._chromosomes
    { sumFitness := 0, maxFitness := -1 * (INT_MAX : ℚ), minFitness := (INT_MAX : ℚ) }
  simp only [List.drop_zero] at hloop
  simp only [zero_add] at h1
  refine ⟨{ p with
      _sumFitness := (p._chromosomes.foldl (evaluatePass getFitness)
        { sumFitness := 0, maxFitness := -1 * (INT_MAX : ℚ),
          minFitness := (INT_MAX : ℚ) }).sumFitness,
      _avgFitness := (p._chromosomes.foldl (evaluatePass getFitness)
        { sumFitness := 0, maxFitness := -1 * (INT_MAX : ℚ),
          minFitness := (INT_MAX : ℚ) }).sumFitness / (p._size : ℚ),
      _maxFitness := (p._chromosomes.foldl (evaluatePass getFitness)
        { sumFitness := 0, maxFitness := -1 * (INT_MAX : ℚ),
          minFitness := (INT_MAX : ℚ) }).maxFitness,
      _minFitness := (p._chromosomes.foldl (evaluatePass getFitness)
        { sumFitness := 0, maxFitness := -1 * (INT_MAX : ℚ),
          minFitness := (INT_MAX : ℚ) }).minFitness },
    ?_, rfl, rfl, h1, ?_, h3, h6, ?_, ?_⟩
  · simp only [ga2Population.evaluate, hn, hloop, Option.map_some']
  · show _ / (p._size : ℚ) = _
    rw [h1, hsize]
    norm_cast
  · rintro ⟨c, hc, hge⟩
    rcases h4 with h4 | h4
    · refine ⟨c, hc, le_antisymm (h3 c hc) ?_⟩
      show _ ≤ getFitness c
      rw [h4]
      simpa using hge
    · exact h4
  · rintro ⟨c, hc, hle⟩
    rcases h7 with h7 | h7
    · refine ⟨c, hc, le_antisymm ?_ (h6 c hc)⟩
      show getFitness c ≤ _
      rw [h7]
      exact hle
    · exact h7

/-- The evaluation pass on a live population of exactly `S = _size ≥ 1` members:
`evaluate` returns `true` and leaves the live sequence alone; the cached
maximum is at least, and the cached minimum at most, every live fitness; the
cached maximum is the largest live fitness when some live fitness is at least
`-INT_MAX`, and the cached minimum is the smallest when some live fitness is at
most `INT_MAX`. -/
theorem evaluate_statistics (getFitness : ga2Chromosome → ℚ) (p : ga2Population) (S : Nat)
    (hS : 1 ≤ S) (hsize : p._size = (S : Int)) (hlive : p._chromosomes.length = S) :
    ∃ q, p.evaluate getFitness = some (true, q)
      ∧ q._chromosomes = p._chromosomes ∧ q._size = p._size
      ∧ (∀ c ∈ p._chromosomes, getFitness c ≤ q._maxFitness)
      ∧ (∀ c ∈ p._chromosomes, q._minFitness ≤ getFitness c)
      ∧ ((∃ c ∈ p._chromosomes, -(INT_MAX : ℚ) ≤ getFitness c) →
          ∃ c ∈ p._chromosomes, getFitness c = q._maxFitness)
      ∧ ((∃ c ∈ p._chromosomes, getFitness c ≤ (INT_MAX : ℚ)) →
          ∃ c ∈ p._chromosomes, getFitness c = q._minFitness) :=
  match evaluate_facts getFitness p S hS hsize hlive with
  | ⟨q, h1, h2, h3, _, _, h6, h7, h8, h9⟩ => ⟨q, h1, h2, h3, h6, h7, h8, h9⟩

/-- Witness of the statement on the statistics: live fitness values 5, 3. -/
theorem evaluate_statistics_witness :
    ∃ q, (populationOf 2 false [chromoOfFitness 5, chromoOfFitness 3] []).evaluate
        cachedFitness = some (true, q)
      ∧ q._chromosomes
        = (populationOf 2 false [chromoOfFitness 5, chromoOfFitness 3] [])._chromosomes :=
  match evaluate_statistics cachedFitness
      (populationOf 2 false [chromoOfFitness 5, chromoOfFitness 3] []) 2 (by decide) rfl rfl with
  | ⟨q, h1, h2, _⟩ => ⟨q, h1, h2⟩

theorem bestFitLoop_eq_find (getFitness : ga2Chromosome → ℚ) (cs : List ga2Chromosome)
    (maxFitness : ℚ) :
    ∀ (n i : Nat), i + n = cs.length →
      bestFitLoop getFitness cs maxFitness n i
        = some (match (cs.drop i).find? (fun c => decide (getFitness c = maxFitness)) with
          | some c => c._genes
          | none => []) := by
  intro n
  induction n with
  | zero =>
    intro i hi
    have : cs.drop i = [] := List.drop_eq_nil_of_le (by omega)
    simp [bestFitLoop, this]
  | succ n ih =>
    intro i hi
    have hlt : i < cs.length := by omega
    simp only [bestFitLoop, List.getElem?_eq_getElem hlt]
    rw [List.drop_eq_getElem_cons hlt, List.find?_cons]
    by_cases h : getFitness cs[i] = maxFitness
    · simp [h]
    · rw [if_neg h, ih (i + 1) (by omega)]
      simp [h]

/-- Best-fit retrieval on a live population of exactly `S = _size` members returns
the gene sequence of the first live member whose fitness equals the cached
maximum, and the empty sequence when there is none; right after the
evaluation pass, when some live fitness is at least `-INT_MAX`, there is such a
member and its fitness is at least that of every live member. -/
theorem bestFit_first_maximal (getFitness : ga2Chromosome → ℚ) (p : ga2Population) (S : Nat)
    (hS : 1 ≤ S) (hsize : p._size = (S : Int)) (hlive : p._chromosomes.length = S) :
    p.getBestFitChromosome getFitness
      = some (match p._chromosomes.find?
          (fun c => decide (getFitness c = p._maxFitness)) with
        | some c => c._genes
        | none => [])
    ∧ ((∃ c ∈ p._chromosomes, -(INT_MAX : ℚ) ≤ getFitness c) →
        ∃ q c, p.evaluate getFitness = some (true, q)
          ∧ q._chromosomes.find? (fun c => decide (getFitness c = q._maxFitness)) = some c
          ∧ q.getBestFitChromosome getFitness = some c._genes
          ∧ ∀ d ∈ p._chromosomes, getFitness d ≤ getFitness c) := by
  have hn : p._size.toNat = S := by omega
  constructor
  · have h := bestFitLoop_eq_find getFitness p._chromosomes p._maxFitness S 0 (by omega)
    simp only [List.drop_zero] at h
    simp only [ga2Population.getBestFitChromosome, hn, h]
  · intro hrange
    obtain ⟨q, hq, hcs, hqsize, _, _, hmax, _, hex, _⟩ :=
      evaluate_facts getFitness p S hS hsize hlive
    obtain ⟨c0, hc0, hc0eq⟩ := hex hrange
    have hqn : q._size.toNat = S := by rw [hqsize]; exact hn
    have hfind : (q._chromosomes.find?
        (fun c => decide (getFitness c = q._maxFitness))).isSome = true := by
      rw [List.find?_isSome]
      exact ⟨c0, by rw [hcs]; exact hc0, by simpa using hc0eq⟩
    obtain ⟨c, hc⟩ := Option.isSome_iff_exists.mp hfind
    have hceq : getFitness c = q._maxFitness := by
      have := List.find?_some hc
      simpa using this
    refine ⟨q, c, hq, hc, ?_, fun d hd => ?_⟩
    · have h := bestFitLoop_eq_find getFitness q._chromosomes q._maxFitness S 0
        (by rw [hcs]; omega)
      simp only [List.drop_zero] at h
      simp only [ga2Population.getBestFitChromosome, hqn, h, hc]
    · rw [hceq]
      exact hmax d hd

/-- Witness of the statement on best-fit retrieval: live members `[1, 2]` of fitness 3 and
`[4, 5]` of fitness 9, cached maximum 9. -/
theorem bestFit_first_maximal_witness :
    ga2Population.getBestFitChromosome cachedFitness
        { populationOf 2 false
            [{ chromoOfGenes [1, 2] 0 with _fitness := some 3 },
              { chromoOfGenes [4, 5] 0 with _fitness := some 9 }] [] with
          _maxFitness := 9 }
      = some [4, 5] :=
  (bestFit_first_maximal cachedFitness
    { populationOf 2 false
        [{ chromoOfGenes [1, 2] 0 with _fitness := some 3 },
          { chromoOfGenes [4, 5] 0 with _fitness := some 9 }] [] with
      _maxFitness := 9 } 2 (by decide) rfl rfl).1

/-! ## Order of ties under sorted insertion -/

/-- One pass of the sorted insertion puts the new chromosome in front of the first
member whose fitness does not exceed its own. -/
theorem sortedInsert_eq_orderedInsert (getFitness : ga2Chromosome → ℚ)
    (cs : List ga2Chromosome) (x : ga2Chromosome) :
    sortedInsert getFitness cs x
      = List.orderedInsert (fun a b => getFitness b ≤ getFitness a) x cs := by
  rw [sortedInsert_eq]
  induction cs with
  | nil => simp [insertionPoint, vectorInsert]
  | cons c rest ih =>
    simp only [insertionPoint, List.orderedInsert]
    by_cases hgt : getFitness c > getFitness x
    · rw [if_pos hgt, if_neg (not_le.mpr hgt), vectorInsert_cons_succ, ih]
    · rw [if_neg hgt, if_pos (not_lt.mp hgt), vectorInsert_zero]

/-- Inserting a sequence one member at a time is the insertion sort of the
sequence read backwards. -/
theorem foldl_sortedInsert_eq_sort (getFitness : ga2Chromosome → ℚ)
    (xs : List ga2Chromosome) :
    xs.foldl (sortedInsert getFitness) [] = stableSortDescending getFitness xs.reverse := by
  induction xs using List.reverseRecOn with
  | nil => rfl
  | append_singleton xs x ih =>
    rw [List.foldl_append, List.foldl_cons, List.foldl_nil, ih, List.reverse_append,
      sortedInsert_eq_orderedInsert]
    rfl

theorem stableSortDescending_perm (getFitness : ga2Chromosome → ℚ) (l : List ga2Chromosome) :
    (stableSortDescending getFitness l).Perm l :=
  List.perm_insertionSort _ l

theorem stableSortDescending_nonIncreasing (getFitness : ga2Chromosome → ℚ)
    (l : List ga2Chromosome) : nonIncreasing getFitness (stableSortDescending getFitness l) := by
  rw [nonIncreasing_iff_pairwise]
  haveI : IsTotal ga2Chromosome (fun a b => getFitness b ≤ getFitness a) :=
    ⟨fun a b => le_total (getFitness b) (getFitness a)⟩
  haveI : IsTrans ga2Chromosome (fun a b => getFitness b ≤ getFitness a) :=
    ⟨fun _ _ _ h1 h2 => le_trans h2 h1⟩
  exact List.sorted_insertionSort (fun a b => getFitness b ≤ getFitness a) l

/-- The sort named by the specification is stable: the members of any one fitness
come out in the order in which they went in. -/
theorem stableSortDescending_withFitness (getFitness : ga2Chromosome → ℚ) (f : ℚ)
    (l : List ga2Chromosome) :
    withFitness getFitness f (stableSortDescending getFitness l) = withFitness getFitness f l := by
  have hpair : (withFitness getFitness f l).Pairwise (fun a b => getFitness b ≤ getFitness a) := by
    rw [List.pairwise_iff_forall_sublist]
    intro a b hab
    have ha : a ∈ withFitness getFitness f l := hab.subset (by simp)
    have hb : b ∈ withFitness getFitness f l := hab.subset (by simp)
    simp only [withFitness, List.mem_filter, decide_eq_true_eq] at ha hb
    rw [ha.2, hb.2]
  have hsub : List.Sublist (withFitness getFitness f l) (stableSortDescending getFitness l) :=
    List.sublist_insertionSort hpair (List.filter_sublist l)
  have hsub2 : List.Sublist (withFitness getFitness f l)
      (withFitness getFitness f (stableSortDescending getFitness l)) := by
    have h := hsub.filter (fun c => decide (getFitness c = f))
    simpa [withFitness, List.filter_filter] using h
  have hlen : (withFitness getFitness f (stableSortDescending getFitness l)).length
      = (withFitness getFitness f l).length :=
    ((stableSortDescending_perm getFitness l).filter _).length_eq
  exact (hsub2.eq_of_length hlen.symm).symm

theorem withFitness_reverse (getFitness : ga2Chromosome → ℚ) (f : ℚ)
    (l : List ga2Chromosome) :
    withFitness getFitness f l.reverse = (withFitness getFitness f l).reverse := by
  simp [withFitness, List.filter_reverse]

theorem init_sorted_live (getFitness : ga2Chromosome → ℚ) (fresh : Nat → ga2Chromosome)
    (is : List Nat) (cs : List ga2Chromosome) :
    is.foldl (fun cs i => if !true then cs ++ [fresh i]
        else sortedInsert getFitness cs (fresh i)) cs
      = (is.map fresh).foldl (sortedInsert getFitness) cs := by
  induction is generalizing cs with
  | nil => rfl
  | cons i rest ih =>
    simp only [List.foldl_cons, List.map_cons]
    exact ih _

/-- C21 as stated fails: `init` on a sort-ordered population of size 3 creates
three chromosomes of fitness 5, 7, 5 in this order. The stable descending sort
of the creation sequence keeps the first of the two members of fitness 5 in
front of the third; `init` leaves the third in front of the first. -/
theorem C21_init_stable_sort_counterexample :
    (ga2Population.init cachedFitness tiedChromosome tiedPopulation).1 = true
    ∧ (createdChromosomes tiedChromosome tiedPopulation._size).map cachedFitness = [5, 7, 5]
    ∧ stableSortDescending cachedFitness (createdChromosomes tiedChromosome tiedPopulation._size)
      = [tiedChromosome 1, tiedChromosome 0, tiedChromosome 2]
    ∧ (ga2Population.init cachedFitness tiedChromosome tiedPopulation).2._chromosomes
      = [tiedChromosome 1, tiedChromosome 2, tiedChromosome 0]
    ∧ (ga2Population.init cachedFitness tiedChromosome tiedPopulation).2._chromosomes
      ≠ stableSortDescending cachedFitness
          (createdChromosomes tiedChromosome tiedPopulation._size) := by
  decide

/-- C21 (amended): for a sort-ordered population with an empty live sequence and
as many bounds as the chromosome length, `init` returns `true` and the live
sequence equals the newly created chromosomes, taken in reverse creation order,
stably sorted by descending fitness. It is a rearrangement of the created
chromosomes in non-increasing fitness order in which the members of any one
fitness appear in the reverse of the order in which they were inserted. -/
theorem C21_init_sorts_latest_first (getFitness : ga2Chromosome → ℚ)
    (fresh : Nat → ga2Chromosome) (p : ga2Population)
    (hsorted : p._isSorted = true) (hlive : p._chromosomes = [])
    (hmax : (p._chromoMaxRanges.length : Int) = p._chromoSize)
    (hmin : (p._chromoMinRanges.length : Int) = p._chromoSize) :
    (p.init getFitness fresh).1 = true
    ∧ (p.init getFitness fresh).2._chromosomes
      = stableSortDescending getFitness (createdChromosomes fresh p._size).reverse
    ∧ ((p.init getFitness fresh).2._chromosomes).Perm (createdChromosomes fresh p._size)
    ∧ nonIncreasing getFitness (p.init getFitness fresh).2._chromosomes
    ∧ ∀ f : ℚ, withFitness getFitness f (p.init getFitness fresh).2._chromosomes
        = (withFitness getFitness f (createdChromosomes fresh p._size)).reverse := by
  have hmatch : ¬ ((p._chromoMaxRanges.length : Int) ≠ p._chromoSize
      ∨ (p._chromoMinRanges.length : Int) ≠ p._chromoSize) := by
    rw [hmax, hmin]
    simp
  have hlive2 : (p.init getFitness fresh).2._chromosomes
      = stableSortDescending getFitness (createdChromosomes fresh p._size).reverse := by
    rw [init_of_match getFitness fresh p hmatch]
    show (List.range p._size.toNat).foldl _ p._chromosomes = _
    rw [hsorted, hlive, init_sorted_live, foldl_sortedInsert_eq_sort]
    rfl
  refine ⟨?_, hlive2, ?_, ?_, ?_⟩
  · rw [init_of_match getFitness fresh p hmatch]
  · rw [hlive2]
    exact (stableSortDescending_perm getFitness _).trans (List.reverse_perm _)
  · rw [hlive2]
    exact stableSortDescending_nonIncreasing getFitness _
  · intro f
    rw [hlive2, stableSortDescending_withFitness, withFitness_reverse]

/-- Witness of C21 (amended): the population of size 3 whose created chromosomes
have the fitness values 5, 7, 5. -/
theorem C21_init_sorts_latest_first_witness :
    (ga2Population.init cachedFitness tiedChromosome tiedPopulation).2._chromosomes
      = stableSortDescending cachedFitness
          (createdChromosomes tiedChromosome tiedPopulation._size).reverse
    ∧ withFitness cachedFitness 5
        (ga2Population.init cachedFitness tiedChromosome tiedPopulation).2._chromosomes
      = (withFitness cachedFitness 5
          (createdChromosomes tiedChromosome tiedPopulation._size)).reverse :=
  have h := C21_init_sorts_latest_first cachedFitness tiedChromosome tiedPopulation
    rfl rfl (by decide) (by decide)
  ⟨h.2.1, h.2.2.2.2 5⟩

/-! ## Positional bounds under one-point crossover -/

theorem withinBounds_iff (mins maxs : List ℚ) (c : ga2Chromosome) :
    withinBounds mins maxs c = true ↔
      ∀ i, i < c._genes.length → ∃ g mn mx : ℚ, c._genes[i]? = some g ∧ mins[i]? = some mn
        ∧ maxs[i]? = some mx ∧ mn ≤ g ∧ g ≤ mx := by
  simp only [withinBounds, List.all_eq_true, List.mem_range]
  constructor
  · intro h i hi
    have hi2 := h i hi
    cases hg : c._genes[i]? with
    | none => simp [hg] at hi2
    | some g =>
      cases hmn : mins[i]? with
      | none => simp [hg, hmn] at hi2
      | some mn =>
        cases hmx : maxs[i]? with
        | none => simp [hg, hmn, hmx] at hi2
        | some mx =>
          simp only [hg, hmn, hmx, decide_eq_true_eq] at hi2
          exact ⟨g, mn, mx, rfl, rfl, rfl, hi2⟩
  · intro h i hi
    obtain ⟨g, mn, mx, hg, hmn, hmx, hle⟩ := h i hi
    simp only [hg, hmn, hmx, decide_eq_true_eq]
    exact hle

/-- C22 as stated fails: chromosome length 2 with the bounds `[0, 1]` at
position 0 and `[10, 20]` at position 1, parents `[0, 10]` and `[1, 20]` within
these bounds, draw `1/2` (cut position 1). Lines 247-257 assemble the offspring
`[20, 0]` and `[10, 1]`, the tail of one parent in front of the head of the
other: every gene has left the position whose bound it met, and neither
offspring is within the positional bounds. (The call does not hand them over:
it is undefined at lines 262-263.) -/
theorem C22_onePoint_positional_bounds_counterexample :
    withinBounds twoBoundsPopulation._chromoMinRanges twoBoundsPopulation._chromoMaxRanges
        (chromoOfGenes [0, 10] 0) = true
    ∧ withinBounds twoBoundsPopulation._chromoMinRanges twoBoundsPopulation._chromoMaxRanges
        (chromoOfGenes [1, 20] 1) = true
    ∧ (onePointOffspring twoBoundsPopulation (1 / 2) (chromoOfGenes [0, 10] 0)
        (chromoOfGenes [1, 20] 1)).map
        (fun off => (off.1, off.2.1._genes, off.2.2._genes,
          withinBounds twoBoundsPopulation._chromoMinRanges
            twoBoundsPopulation._chromoMaxRanges off.2.1,
          withinBounds twoBoundsPopulation._chromoMinRanges
            twoBoundsPopulation._chromoMaxRanges off.2.2))
      = some (1, [20, 0], [10, 1], false, false)
    ∧ twoBoundsPopulation._crossoverOnePoint (1 / 2) (chromoOfGenes [0, 10] 0)
        (chromoOfGenes [1, 20] 1) = none := by
  have e2 : roundFloat 2 = 2 := by
    have := roundFloat_intCast 2 (by decide)
    simpa using this
  have f1 : floatOf 1 = some 1 := by
    have := floatOf_exact 1 0 (by decide) (by decide) (by decide)
    simpa using this
  have h1 : Int.toNat 1 = 1 := rfl
  have h2 : Int.toNat 2 = 2 := rfl
  have h21 : Int.toNat (2 - 1) = 1 := rfl
  have h10 : Int.toNat (1 - 0) = 1 := rfl
  have hoff : onePointOffspring twoBoundsPopulation (1 / 2) (chromoOfGenes [0, 10] 0)
      (chromoOfGenes [1, 20] 1)
      = some (1, { chromoOfGenes [20, 0] 1 with _fitness := none },
          { chromoOfGenes [10, 1] 0 with _fitness := none }) := by
    norm_num [onePointOffspring, twoBoundsPopulation, populationOf, chromoOfGenes, e2, f1,
      floatToInt, truncToInt, ga2Chromosome.grabSlice, ga2Chromosome.concat, h1, h2, h21, h10]
  refine ⟨by decide, by decide, ?_, onePointCall_undefined _ _ _ _⟩
  rw [hoff]
  decide

/-- C22 (amended): for parents `a`, `b` of length `N = _chromoSize < 2^24` whose
genes each lie within their positional bound and a draw in `[0, 1]`, the cut
position `c` of one-point crossover lies between `0` and `N` and the two
offspring assembled by lines 247-257 have `N` genes, each within the bound of
the position it had in its parent: the gene at position `j` of an offspring
lies within the bound of position `j + c` for `j < N - c` and of position
`j - (N - c)` otherwise. For `c = 0` and for `c = N` both offspring are within
the bounds of the positions their genes occupy. -/
theorem C22_onePoint_bounds_of_origin (p : ga2Population) (u : ℚ) (a b : ga2Chromosome)
    (N : Nat) (hN : p._chromoSize = (N : Int)) (hsmall : N < 2 ^ 24)
    (ha : a._genes.length = N) (hb : b._genes.length = N)
    (hwa : withinBounds p._chromoMinRanges p._chromoMaxRanges a = true)
    (hwb : withinBounds p._chromoMinRanges p._chromoMaxRanges b = true)
    (hu0 : 0 ≤ u) (hu1 : u ≤ 1) :
    ∃ (c : Nat) (aNew bNew : ga2Chromosome), c ≤ N
      ∧ onePointOffspring p u a b = some ((c : Int), aNew, bNew)
      ∧ aNew._genes.length = N ∧ bNew._genes.length = N
      ∧ (∀ j, j < N → ∃ g mn mx : ℚ, aNew._genes[j]? = some g
          ∧ p._chromoMinRanges[onePointOrigin N c j]? = some mn
          ∧ p._chromoMaxRanges[onePointOrigin N c j]? = some mx ∧ mn ≤ g ∧ g ≤ mx)
      ∧ (∀ j, j < N → ∃ g mn mx : ℚ, bNew._genes[j]? = some g
          ∧ p._chromoMinRanges[onePointOrigin N c j]? = some mn
          ∧ p._chromoMaxRanges[onePointOrigin N c j]? = some mx ∧ mn ≤ g ∧ g ≤ mx)
      ∧ (c = 0 ∨ c = N →
          withinBounds p._chromoMinRanges p._chromoMaxRanges aNew = true
          ∧ withinBounds p._chromoMinRanges p._chromoMaxRanges bNew = true) := by
  obtain ⟨c, aNew, bNew, hc, hoff, hA, hB, hlenA, hlenB⟩ :=
    onePointOffspring_genes p u a b N hN hsmall ha hb hu0 hu1
  rw [withinBounds_iff] at hwa hwb
  have horigin : ∀ (x y : ga2Chromosome), x._genes.length = N → y._genes.length = N →
      (∀ i, i < x._genes.length → ∃ g mn mx : ℚ, x._genes[i]? = some g
        ∧ p._chromoMinRanges[i]? = some mn ∧ p._chromoMaxRanges[i]? = some mx
        ∧ mn ≤ g ∧ g ≤ mx) →
      (∀ i, i < y._genes.length → ∃ g mn mx : ℚ, y._genes[i]? = some g
        ∧ p._chromoMinRanges[i]? = some mn ∧ p._chromoMaxRanges[i]? = some mx
        ∧ mn ≤ g ∧ g ≤ mx) →
      ∀ j, j < N → ∃ g mn mx : ℚ, (y._genes.drop c ++ x._genes.take c)[j]? = some g
        ∧ p._chromoMinRanges[onePointOrigin N c j]? = some mn
        ∧ p._chromoMaxRanges[onePointOrigin N c j]? = some mx ∧ mn ≤ g ∧ g ≤ mx := by
    intro x y hx hy hwx hwy j hj
    have hdrop : (y._genes.drop c).length = N - c := by
      rw [List.length_drop, hy]
    by_cases hjc : j < N - c
    · obtain ⟨g, mn, mx, hg, hmn, hmx, hle⟩ := hwy (j + c) (by omega)
      refine ⟨g, mn, mx, ?_, ?_, ?_, hle⟩
      · rw [List.getElem?_append_left (by omega), List.getElem?_drop, Nat.add_comm]
        exact hg
      · simpa only [onePointOrigin, if_pos hjc] using hmn
      · simpa only [onePointOrigin, if_pos hjc] using hmx
    · obtain ⟨g, mn, mx, hg, hmn, hmx, hle⟩ := hwx (j - (N - c)) (by omega)
      refine ⟨g, mn, mx, ?_, ?_, ?_, hle⟩
      · rw [List.getElem?_append_right (by omega), hdrop, List.getElem?_take,
          if_pos (by omega)]
        exact hg
      · simpa only [onePointOrigin, if_neg hjc] using hmn
      · simpa only [onePointOrigin, if_neg hjc] using hmx
  have hAj := horigin a b ha hb hwa hwb
  have hBj := horigin b a hb ha hwb hwa
  rw [← hA] at hAj
  rw [← hB] at hBj
  refine ⟨c, aNew, bNew, hc, hoff, hlenA, hlenB, hAj, hBj, fun hends => ?_⟩
  have hself : ∀ j, j < N → onePointOrigin N c j = j := by
    intro j hj
    unfold onePointOrigin
    rcases hends with h0 | hN'
    · subst h0
      rw [if_pos (by omega)]
      rfl
    · subst hN'
      rw [if_neg (by omega)]
      omega
  rw [withinBounds_iff, withinBounds_iff]
  constructor
  · intro j hj
    rw [hlenA] at hj
    have := hAj j hj
    rwa [hself j hj] at this
  · intro j hj
    rw [hlenB] at hj
    have := hBj j hj
    rwa [hself j hj] at this

/-- Witness of C22 (amended): the bounds `[0, 1]` and `[10, 20]`, the parents
`[0, 10]` and `[1, 20]`, the draw `1/2`. -/
theorem C22_onePoint_bounds_of_origin_witness :
    ∃ (c : Nat) (aNew bNew : ga2Chromosome), c ≤ 2
      ∧ onePointOffspring twoBoundsPopulation (1 / 2) (chromoOfGenes [0, 10] 0)
          (chromoOfGenes [1, 20] 1) = some ((c : Int), aNew, bNew)
      ∧ aNew._genes.length = 2 ∧ bNew._genes.length = 2 :=
  match C22_onePoint_bounds_of_origin twoBoundsPopulation (1 / 2) (chromoOfGenes [0, 10] 0)
    (chromoOfGenes [1, 20] 1) 2 rfl (by norm_num) rfl rfl (by decide) (by decide)
    (by norm_num) (by norm_num) with
  | ⟨c, aNew, bNew, hc, hoff, h1, h2, _⟩ => ⟨c, aNew, bNew, hc, hoff, h1, h2⟩

/-! ## Positional bounds under uniform crossover -/

/-- Uniform crossover takes the gene of every position of an offspring from the
same position of one of the parents. -/
theorem crossoverUniform_gene_source (p : ga2Population) (coins : Nat → ℚ)
    (a b : ga2Chromosome) (N : Nat) (hN1 : 1 ≤ N) (hN : p._chromoSize = (N : Int))
    (ha : a._genes.length = N) (hb : b._genes.length = N) :
    (p._crossoverUniform coins a b).2.1._genes.length = N
    ∧ (p._crossoverUniform coins a b).2.2._genes.length = N
    ∧ ∀ i, i < N →
        ((p._crossoverUniform coins a b).2.1._genes[i]? = a._genes[i]?
          ∨ (p._crossoverUniform coins a b).2.1._genes[i]? = b._genes[i]?)
        ∧ ((p._crossoverUniform coins a b).2.2._genes[i]? = a._genes[i]?
          ∨ (p._crossoverUniform coins a b).2.2._genes[i]? = b._genes[i]?) := by
  have h0a : 0 < a._genes.length := by omega
  have h0b : 0 < b._genes.length := by omega
  have ga : (a.grabSlice 0 1)._genes = [a._genes[0]] := by
    have := grabSlice_one_genes a 0 h0a
    simpa using this
  have gb : (b.grabSlice 0 1)._genes = [b._genes[0]] := by
    have := grabSlice_one_genes b 0 h0b
    simpa using this
  have hn : 1 + (p._chromoSize - 1).toNat = N := by omega
  have hgenes : ∀ x : ga2Chromosome, ∀ s q r : Int,
      (((x.setCrossSite s).setParent 0 q).setParent 1 r)._genes = x._genes := by
    intro x s q r
    simp [ga2Chromosome.setParent, ga2Chromosome.setCrossSite]
  have hloop : ∀ c d : ga2Chromosome, c._genes.length = 1 → d._genes.length = 1 →
      (c._genes[0]? = a._genes[0]? ∨ c._genes[0]? = b._genes[0]?) →
      (d._genes[0]? = a._genes[0]? ∨ d._genes[0]? = b._genes[0]?) →
      (crossoverUniformLoop coins a b (p._chromoSize - 1).toNat 1 c d).1._genes.length = N
      ∧ (crossoverUniformLoop coins a b (p._chromoSize - 1).toNat 1 c d).2._genes.length = N
      ∧ ∀ i, i < N →
        ((crossoverUniformLoop coins a b (p._chromoSize - 1).toNat 1 c d).1._genes[i]?
            = a._genes[i]?
          ∨ (crossoverUniformLoop coins a b (p._chromoSize - 1).toNat 1 c d).1._genes[i]?
            = b._genes[i]?)
        ∧ ((crossoverUniformLoop coins a b (p._chromoSize - 1).toNat 1 c d).2._genes[i]?
            = a._genes[i]?
          ∨ (crossoverUniformLoop coins a b (p._chromoSize - 1).toNat 1 c d).2._genes[i]?
            = b._genes[i]?) := by
    intro c d hc hd hc0 hd0
    obtain ⟨h1, h2, h3, h4⟩ := crossoverUniformLoop_genes coins a b N ha hb
      (p._chromoSize - 1).toNat 1 c d hn hc hd
    refine ⟨h1, h2, fun i hi => ?_⟩
    by_cases hi0 : i = 0
    · subst hi0
      obtain ⟨e1, e2⟩ := h3 0 (by omega)
      rw [e1, e2]
      exact ⟨hc0, hd0⟩
    · by_cases hflip : uniformFlip (coins i) ≠ 0
      · obtain ⟨e1, e2⟩ := (h4 i (by omega) hi).1 hflip
        exact ⟨Or.inl e1, Or.inr e2⟩
      · obtain ⟨e1, e2⟩ := (h4 i (by omega) hi).2 (not_not.mp hflip)
        exact ⟨Or.inr e1, Or.inl e2⟩
  have hca : (a.grabSlice 0 1)._genes[0]? = a._genes[0]? := by
    rw [ga, List.getElem?_eq_getElem h0a]; rfl
  have hcb : (b.grabSlice 0 1)._genes[0]? = b._genes[0]? := by
    rw [gb, List.getElem?_eq_getElem h0b]; rfl
  by_cases hflip : uniformFlip (coins 0) ≠ 0
  · simp only [ga2Population._crossoverUniform, if_pos hflip, hgenes]
    exact hloop _ _ (by rw [ga]; rfl) (by rw [gb]; rfl) (Or.inl hca) (Or.inr hcb)
  · simp only [ga2Population._crossoverUniform, if_neg hflip, hgenes]
    exact hloop _ _ (by rw [gb]; rfl) (by rw [ga]; rfl) (Or.inr hcb) (Or.inl hca)

/-- Uniform crossover keeps the positional bounds: for parents of length
`N = _chromoSize ≥ 1` whose genes each lie within the bound of their position,
and every sequence of draws, both offspring again have every gene within the
bound of the position it occupies. -/
theorem crossoverUniform_keeps_bounds (p : ga2Population) (coins : Nat → ℚ)
    (a b : ga2Chromosome) (N : Nat) (hN1 : 1 ≤ N) (hN : p._chromoSize = (N : Int))
    (ha : a._genes.length = N) (hb : b._genes.length = N)
    (hwa : withinBounds p._chromoMinRanges p._chromoMaxRanges a = true)
    (hwb : withinBounds p._chromoMinRanges p._chromoMaxRanges b = true) :
    withinBounds p._chromoMinRanges p._chromoMaxRanges (p._crossoverUniform coins a b).2.1 = true
    ∧ withinBounds p._chromoMinRanges p._chromoMaxRanges (p._crossoverUniform coins a b).2.2
      = true := by
  obtain ⟨h1, h2, h3⟩ := crossoverUniform_gene_source p coins a b N hN1 hN ha hb
  rw [withinBounds_iff] at hwa hwb
  rw [withinBounds_iff, withinBounds_iff]
  constructor
  · intro i hi
    rw [h1] at hi
    rcases (h3 i hi).1 with e | e
    · rw [e]
      exact hwa i (by omega)
    · rw [e]
      exact hwb i (by omega)
  · intro i hi
    rw [h2] at hi
    rcases (h3 i hi).2 with e | e
    · rw [e]
      exact hwa i (by omega)
    · rw [e]
      exact hwb i (by omega)

/-- Witness of the statement on uniform crossover and positional bounds: the
parents `[0, 10]` and `[1, 20]` under the bounds `[0, 1]` and `[10, 20]`, draws
`3/4, 1/4, 3/4, ...`. -/
theorem crossoverUniform_keeps_bounds_witness :
    withinBounds twoBoundsPopulation._chromoMinRanges twoBoundsPopulation._chromoMaxRanges
        (twoBoundsPopulation._crossoverUniform (fun i => if i % 2 = 0 then 3 / 4 else 1 / 4)
          (chromoOfGenes [0, 10] 0) (chromoOfGenes [1, 20] 1)).2.1 = true
    ∧ withinBounds twoBoundsPopulation._chromoMinRanges twoBoundsPopulation._chromoMaxRanges
        (twoBoundsPopulation._crossoverUniform (fun i => if i % 2 = 0 then 3 / 4 else 1 / 4)
          (chromoOfGenes [0, 10] 0) (chromoOfGenes [1, 20] 1)).2.2 = true :=
  crossoverUniform_keeps_bounds twoBoundsPopulation (fun i => if i % 2 = 0 then 3 / 4 else 1 / 4)
    (chromoOfGenes [0, 10] 0) (chromoOfGenes [1, 20] 1) 2 (by decide) rfl rfl rfl
    (by decide) (by decide)

/-! ## Steady-state replacement keeps the largest fitness values -/

theorem foldl_sortedInsert_perm (getFitness : ga2Chromosome → ℚ)
    (xs cs : List ga2Chromosome) :
    (xs.foldl (sortedInsert getFitness) cs).Perm (cs ++ xs) := by
  induction xs generalizing cs with
  | nil => simp
  | cons x rest ih =>
    simp only [List.foldl_cons]
    refine (ih _).trans ?_
    rw [sortedInsert_eq_orderedInsert]
    have h1 : (List.orderedInsert (fun a b => getFitness b ≤ getFitness a) x cs).Perm
        (x :: cs) := List.perm_orderedInsert _ x cs
    exact (h1.append_right rest).trans List.perm_middle.symm

/-- The fitness values of a non-increasing rearrangement of `all`, cut after `n`
members, are the `n` largest fitness values of `all`. -/
theorem map_take_eq_largestValues (getFitness : ga2Chromosome → ℚ)
    (cs all : List ga2Chromosome) (n : Nat) (hord : nonIncreasing getFitness cs)
    (hperm : cs.Perm all) :
    (cs.take n).map getFitness = largestValues n (all.map getFitness) := by
  haveI : IsTotal ℚ (fun x y => y ≤ x) := ⟨fun a b => le_total b a⟩
  haveI : IsTrans ℚ (fun x y => y ≤ x) := ⟨fun _ _ _ h1 h2 => le_trans h2 h1⟩
  haveI : IsAntisymm ℚ (fun x y => y ≤ x) := ⟨fun _ _ h1 h2 => le_antisymm h2 h1⟩
  rw [nonIncreasing_iff_pairwise] at hord
  have hs1 : (cs.map getFitness).Sorted (fun x y => y ≤ x) :=
    List.pairwise_map.mpr hord
  have hs2 : ((all.map getFitness).insertionSort (fun x y => y ≤ x)).Sorted
      (fun x y => y ≤ x) := List.sorted_insertionSort _ _
  have hp : (cs.map getFitness).Perm ((all.map getFitness).insertionSort (fun x y => y ≤ x)) :=
    (hperm.map getFitness).trans (List.perm_insertionSort _ _).symm
  have heq := List.eq_of_perm_of_sorted hp hs1 hs2
  rw [largestValues, ← heq, List.map_take]

/-- C23: for a sort-ordered population whose live sequence has exactly
`S = _size ≥ 1` members in non-increasing fitness order and every staged
sequence, `_replaceSteadyState` returns `true`; the multiset of the live
fitness values afterwards is the multiset of the `S` largest fitness values
among the old live members together with the staged offspring: there are `S`
of them, the fitness values left out complete them to all the values and none
of those exceeds a value kept. The best live fitness never decreases: the
first live member afterwards has the largest fitness of the new live
sequence, and no old live member exceeds it. -/
theorem C23_steadyState_keeps_largest (getFitness : ga2Chromosome → ℚ) (p : ga2Population)
    (S : Nat) (hsorted : p._isSorted = true) (hS : 1 ≤ S) (hsize : p._size = (S : Int))
    (hlen : p._chromosomes.length = S) (hord : nonIncreasing getFitness p._chromosomes) :
    ∃ q, p._replaceSteadyState getFitness = some (true, q)
      ∧ (↑(q._chromosomes.map getFitness) : Multiset ℚ)
        = ↑(largestValues S ((p._chromosomes ++ p._nextGen).map getFitness))
      ∧ q._chromosomes.length = S
      ∧ (∃ dropped : List ℚ,
          (q._chromosomes.map getFitness ++ dropped).Perm
            ((p._chromosomes ++ p._nextGen).map getFitness)
          ∧ ∀ x ∈ q._chromosomes.map getFitness, ∀ y ∈ dropped, y ≤ x)
      ∧ (∃ best, q._chromosomes.head? = some best
          ∧ (∀ d ∈ q._chromosomes, getFitness d ≤ getFitness best)
          ∧ ∀ c ∈ p._chromosomes, getFitness c ≤ getFitness best) := by
  have hcslen := foldl_sortedInsert_length getFitness p._nextGen p._chromosomes
  have hcsord := foldl_sortedInsert_nonIncreasing getFitness p._nextGen p._chromosomes hord
  have hcsperm := foldl_sortedInsert_perm getFitness p._nextGen p._chromosomes
  have hcond : 0 ≤ p._size ∧ p._size
      ≤ ((p._nextGen.foldl (sortedInsert getFitness) p._chromosomes).length : Int) := by
    omega
  have htoNat : p._size.toNat = S := by omega
  have hpw := (nonIncreasing_iff_pairwise getFitness _).mp hcsord
  have hsplit := List.take_append_drop S (p._nextGen.foldl (sortedInsert getFitness) p._chromosomes)
  have htakelen : ((p._nextGen.foldl (sortedInsert getFitness) p._chromosomes).take S).length
      = S := by
    rw [List.length_take]
    omega
  refine ⟨{ p with
      _chromosomes := (p._nextGen.foldl (sortedInsert getFitness) p._chromosomes).take S,
      _nextGen := [] }, ?_, ?_, htakelen, ?_, ?_⟩
  · simp only [ga2Population._replaceSteadyState, hsorted, Bool.not_true, Bool.false_eq_true,
      if_false]
    rw [popUntilSize_eq _ _ _ (Nat.lt_succ_self _), if_pos hcond, htoNat]
    rfl
  · show (↑(((p._nextGen.foldl (sortedInsert getFitness) p._chromosomes).take S).map
      getFitness) : Multiset ℚ) = _
    rw [map_take_eq_largestValues getFitness _ _ S hcsord hcsperm]
  · refine ⟨((p._nextGen.foldl (sortedInsert getFitness) p._chromosomes).drop S).map getFitness,
      ?_, ?_⟩
    · show ((((p._nextGen.foldl (sortedInsert getFitness) p._chromosomes).take S).map
        getFitness) ++ _).Perm _
      rw [← List.map_append, hsplit]
      exact hcsperm.map getFitness
    · intro x hx y hy
      change x ∈ ((p._nextGen.foldl (sortedInsert getFitness) p._chromosomes).take S).map
        getFitness at hx
      obtain ⟨c, hc, rfl⟩ := List.mem_map.mp hx
      obtain ⟨d, hd, rfl⟩ := List.mem_map.mp hy
      rw [← hsplit, List.pairwise_append] at hpw
      exact hpw.2.2 c hc d hd
  · show ∃ best, ((p._nextGen.foldl (sortedInsert getFitness) p._chromosomes).take S).head?
        = some best
      ∧ (∀ d ∈ (p._nextGen.foldl (sortedInsert getFitness) p._chromosomes).take S,
          getFitness d ≤ getFitness best)
      ∧ ∀ c ∈ p._chromosomes, getFitness c ≤ getFitness best
    cases hcs : p._nextGen.foldl (sortedInsert getFitness) p._chromosomes with
    | nil =>
      rw [hcs] at hcslen
      simp only [List.length_nil] at hcslen
      omega
    | cons best rest =>
      rw [hcs, List.pairwise_cons] at hpw
      rw [hcs] at hcsperm
      have hall : ∀ d ∈ best :: rest, getFitness d ≤ getFitness best := by
        intro d hd
        rcases List.mem_cons.mp hd with rfl | hd
        · exact le_refl _
        · exact hpw.1 d hd
      obtain ⟨n, rfl⟩ : ∃ n, S = n + 1 := ⟨S - 1, by omega⟩
      refine ⟨best, by simp, fun d hd => hall d (List.mem_of_mem_take hd), fun c hc => ?_⟩
      exact hall c (hcsperm.mem_iff.mpr (List.mem_append_left _ hc))

/-- Witness of C23: sorted population of size 2, live fitness values 5, 3, staged
fitness values 4, 6, 1. -/
theorem C23_steadyState_keeps_largest_witness :
    ∃ q, (populationOf 2 true [chromoOfFitness 5, chromoOfFitness 3]
        [chromoOfFitness 4, chromoOfFitness 6,
          chromoOfFitness 1])._replaceSteadyState cachedFitness = some (true, q)
      ∧ (↑(q._chromosomes.map cachedFitness) : Multiset ℚ)
        = ↑(largestValues 2 (([chromoOfFitness 5, chromoOfFitness 3]
          ++ [chromoOfFitness 4, chromoOfFitness 6, chromoOfFitness 1]).map cachedFitness)) :=
  match C23_steadyState_keeps_largest cachedFitness
    (populationOf 2 true [chromoOfFitness 5, chromoOfFitness 3]
      [chromoOfFitness 4, chromoOfFitness 6, chromoOfFitness 1]) 2
    rfl (by decide) rfl rfl
    (by norm_num [nonIncreasing, populationOf, cachedFitness, chromoOfFitness]) with
  | ⟨q, hq, hm, _⟩ => ⟨q, hq, hm⟩

/-- The replacement of the witness of C23, evaluated: the live fitness values
become 6, 5, the two largest of 5, 3, 4, 6, 1. -/
theorem replaceSteadyState_largest_example :
    ((populationOf 2 true [chromoOfFitness 5, chromoOfFitness 3]
        [chromoOfFitness 4, chromoOfFitness 6,
          chromoOfFitness 1])._replaceSteadyState cachedFitness).map
      (fun r => r.2._chromosomes.map cachedFitness) = some [6, 5]
    ∧ largestValues 2 [5, 3, 4, 6, 1] = [6, 5] := by
  decide

